import Mathlib

/-!
Shallow embedding of the document-structure extraction engine of
`backend/converter/utils/extractor.py` (Strategic-Market-New-Extraction),
together with proofs about the claims of its specification.

Conventions of the embedding:
* Python `str` is modelled by Lean `String`; character-class tests
  (`\s`, `\w`, `.lower()`, `.upper()`) are modelled at the ASCII level,
  which covers every document and filename exercised here.
* Python regular expressions are translated one by one into hand-written
  matching functions named after their use site; greedy/lazy semantics are
  reproduced where the behaviour depends on them.
* A Python function that can raise is modelled with an `Option` result
  (`none` = an exception escapes); a function that cannot raise is total.
* `python-docx` documents are modelled by the `Para`/`Run`/`Table`
  structures below, carrying exactly the attributes the extractor reads.
-/

/-! ## ASCII/string primitives shared by all embedded functions -/

/-- Python `\s` at the ASCII level: space, tab, newline, carriage return,
vertical tab, form feed. -/
def pyIsSpace (c : Char) : Bool :=
  c = ' ' || c = '\t' || c = '\n' || c = '\r' || c = '\x0b' || c = '\x0c'

/-- ASCII lower-case letter. -/
def isAsciiLower (c : Char) : Bool := 'a' ≤ c && c ≤ 'z'

/-- ASCII upper-case letter. -/
def isAsciiUpper (c : Char) : Bool := 'A' ≤ c && c ≤ 'Z'

/-- ASCII letter. -/
def isAsciiAlpha (c : Char) : Bool := isAsciiLower c || isAsciiUpper c

/-- ASCII digit. -/
def isAsciiDigit (c : Char) : Bool := '0' ≤ c && c ≤ '9'

/-- ASCII letter or digit. -/
def isAsciiAlnum (c : Char) : Bool := isAsciiAlpha c || isAsciiDigit c

/-- Python `\w` at the ASCII level (letters, digits, underscore). -/
def pyIsWord (c : Char) : Bool := isAsciiAlnum c || c = '_'

/-- `str.lower` at the ASCII level, on a character. -/
def pyLowerChar (c : Char) : Char :=
  if isAsciiUpper c then Char.ofNat (c.toNat + 32) else c

/-- `str.upper` at the ASCII level, on a character. -/
def pyUpperChar (c : Char) : Char :=
  if isAsciiLower c then Char.ofNat (c.toNat - 32) else c

/-- `str.lower` on a character list. -/
def lcLower (l : List Char) : List Char := l.map pyLowerChar

/-- `str.strip()` (left side) on a character list. -/
def lcStripLeft (l : List Char) : List Char := l.dropWhile pyIsSpace

/-- `str.strip()` on a character list: drop whitespace from both ends. -/
def lcStrip (l : List Char) : List Char :=
  ((l.dropWhile pyIsSpace).reverse.dropWhile pyIsSpace).reverse

/-- Whether `pat` occurs at the very start of `l` (`str.startswith`). -/
def lcIsPrefixOf : List Char → List Char → Bool
  | [], _ => true
  | _ :: _, [] => false
  | p :: ps, c :: cs => p = c && lcIsPrefixOf ps cs

/-- Python `pat in s` substring containment, on character lists. -/
def lcContains (pat : List Char) : List Char → Bool
  | [] => lcIsPrefixOf pat []
  | c :: cs => lcIsPrefixOf pat (c :: cs) || lcContains pat cs

/-- `str.endswith`, on character lists. -/
def lcIsSuffixOf (pat l : List Char) : Bool := lcIsPrefixOf pat.reverse l.reverse

/-- Occurrence scan shared by `str.count`-style helpers: with `skip = 0`
try a match at the current position; after a match of a non-empty `pat`,
the following `pat.length - 1` characters are consumed without new match
attempts (`skip` counts them down), exactly as a left-to-right
non-overlapping scan does. -/
def lcCountAux (pat : List Char) : Nat → List Char → Nat
  | _, [] => 0
  | skip+1, _ :: cs => lcCountAux pat skip cs
  | 0, c :: cs =>
    if lcIsPrefixOf pat (c :: cs) && !pat.isEmpty then
      1 + lcCountAux pat (pat.length - 1) cs
    else
      lcCountAux pat 0 cs

/-- Number of non-overlapping occurrences of a non-empty pattern,
scanning left to right (`len(re.findall(...))` on a literal pattern). -/
def lcCount (pat l : List Char) : Nat := lcCountAux pat 0 l

/-- `str.replace old new` scan with the same skip-counter device. -/
def lcReplaceAux (pat repl : List Char) : Nat → List Char → List Char
  | _, [] => []
  | skip+1, _ :: cs => lcReplaceAux pat repl skip cs
  | 0, c :: cs =>
    if lcIsPrefixOf pat (c :: cs) && !pat.isEmpty then
      repl ++ lcReplaceAux pat repl (pat.length - 1) cs
    else
      c :: lcReplaceAux pat repl 0 cs

/-- `str.replace old new` for a non-empty `old`, scanning left to right
(Python replaces non-overlapping occurrences). -/
def lcReplace (pat repl l : List Char) : List Char := lcReplaceAux pat repl 0 l

theorem length_dropWhile_le (p : Char → Bool) (l : List Char) :
    (l.dropWhile p).length ≤ l.length := by
  induction l with
  | nil => simp [List.dropWhile]
  | cons c cs ih =>
    simp only [List.dropWhile]
    split
    · simp only [List.length_cons]; omega
    · simp

/-- Whitespace-run collapse scan: `prevSpace` records whether the
previously consumed character was whitespace, so each maximal whitespace
run emits exactly one `' '`. -/
def lcCollapseAux (prevSpace : Bool) : List Char → List Char
  | [] => []
  | c :: cs =>
    if pyIsSpace c then
      if prevSpace then lcCollapseAux true cs
      else ' ' :: lcCollapseAux true cs
    else c :: lcCollapseAux false cs

/-- `re.sub(r"\s+", " ", ·)`: collapse every whitespace run to one space. -/
def lcCollapseWs (l : List Char) : List Char := lcCollapseAux false l

/-- String wrappers used throughout the embedding. -/
def pyLower (s : String) : String := ⟨lcLower s.data⟩

def pyStrip (s : String) : String := ⟨lcStrip s.data⟩

def strContains (s pat : String) : Bool := lcContains pat.data s.data

def strStartsWith (s pat : String) : Bool := lcIsPrefixOf pat.data s.data

def strEndsWith (s pat : String) : Bool := lcIsSuffixOf pat.data s.data

def strCount (s pat : String) : Nat := lcCount pat.data s.data

def strReplace (s pat repl : String) : String := ⟨lcReplace pat.data repl.data s.data⟩

def strCollapseWs (s : String) : String := ⟨lcCollapseWs s.data⟩

/-- `len(s)` (code points, as in Python). -/
def strLen (s : String) : Nat := s.data.length

/-- `s.split(sep)[0]`-style helper: the part of `l` before the first
occurrence of the character `sep` (whole list if absent). -/
def lcTakeUntilChar (sep : Char) (l : List Char) : List Char :=
  l.takeWhile (fun c => c ≠ sep)

/-- The part of `l` after the first occurrence of `sep`.
Returns `none` when `sep` does not occur (`str.split` yields one part). -/
def lcAfterChar (sep : Char) : List Char → Option (List Char)
  | [] => none
  | c :: cs => if c = sep then some cs else lcAfterChar sep cs

theorem lcAfterChar_length_lt {sep : Char} {l rest : List Char}
    (h : lcAfterChar sep l = some rest) : rest.length < l.length := by
  induction l generalizing rest with
  | nil => simp [lcAfterChar] at h
  | cons c cs ih =>
    simp only [lcAfterChar] at h
    split at h
    · cases h; simp
    · have := ih h; simp only [List.length_cons]; omega

/-- `s.split(sep)` for a single-character separator. -/
def lcSplitChar (sep : Char) : List Char → List (List Char)
  | [] => [[]]
  | c :: cs =>
    match lcSplitChar sep cs with
    | [] => [[]]
    | p :: ps => if c = sep then [] :: p :: ps else (c :: p) :: ps

def strSplitChar (s : String) (sep : Char) : List String :=
  (lcSplitChar sep s.data).map (fun l => ⟨l⟩)

/-- `"sep".join(parts)`. -/
def strJoinSep (sep : String) (parts : List String) : String :=
  match parts with
  | [] => ""
  | p :: ps => ps.foldl (fun acc q => acc ++ sep ++ q) p

/-- Last `n` elements of a list (`l[-n:]`). -/
def listLastN (n : Nat) (l : List α) : List α := l.drop (l.length - n)

/-! ## Bridges between the executable scanners and Mathlib list predicates -/

theorem lcIsPrefixOf_iff (p l : List Char) : lcIsPrefixOf p l = true ↔ p <+: l := by
  induction p generalizing l with
  | nil => simp [lcIsPrefixOf]
  | cons a as ih =>
    cases l with
    | nil =>
      simp only [lcIsPrefixOf, Bool.false_eq_true, false_iff]
      intro h
      exact absurd (List.IsPrefix.length_le h) (by simp)
    | cons b bs =>
      simp only [lcIsPrefixOf, Bool.and_eq_true, decide_eq_true_eq, ih,
        List.cons_prefix_cons]

theorem lcContains_iff (p l : List Char) : lcContains p l = true ↔ p <:+: l := by
  induction l with
  | nil =>
    simp only [lcContains, lcIsPrefixOf_iff]
    constructor
    · intro h; exact h.isInfix
    · intro h
      have hp : p = [] := List.eq_nil_of_infix_nil h
      simp [hp]
  | cons c cs ih =>
    simp only [lcContains, Bool.or_eq_true, lcIsPrefixOf_iff, ih]
    exact List.infix_cons_iff.symm

theorem lcContains_of_sub {p l l' : List Char} (h : lcContains p l' = true)
    (hinf : l' <:+: l) : lcContains p l = true := by
  rw [lcContains_iff] at h ⊢
  exact h.trans hinf

/-! ## Emoji removal and normalisation (`remove_emojis`, `_norm`) -/

/-- Code points covered by the `emoji_pattern` character class of
`remove_emojis` (extractor.py lines 40-59). -/
def isEmojiChar (c : Char) : Bool :=
  let n := c.toNat
  (0x1F600 ≤ n && n ≤ 0x1F64F) ||
  (0x1F300 ≤ n && n ≤ 0x1F5FF) ||
  (0x1F680 ≤ n && n ≤ 0x1F6FF) ||
  (0x1F700 ≤ n && n ≤ 0x1F77F) ||
  (0x1F780 ≤ n && n ≤ 0x1F7FF) ||
  (0x1F800 ≤ n && n ≤ 0x1F8FF) ||
  (0x1F900 ≤ n && n ≤ 0x1F9FF) ||
  (0x1FA00 ≤ n && n ≤ 0x1FAFF) ||
  (0x2600 ≤ n && n ≤ 0x26FF) ||
  (0x2700 ≤ n && n ≤ 0x27BF) ||
  (0x2B00 ≤ n && n ≤ 0x2BFF) ||
  (0x1F1E0 ≤ n && n ≤ 0x1F1FF) ||
  (0x10000 ≤ n && n ≤ 0x10FFFF)

/-- `remove_emojis`: substituting every run of emoji characters by the empty
string is the same as filtering the emoji characters out. -/
def remove_emojis (s : String) : String :=
  ⟨s.data.filter (fun c => !isEmojiChar c)⟩

/-- The en-dash used for year ranges (`DASH`). -/
def DASH : String := "–"

/-- `_norm` (extractor.py lines 62-68): emoji removal, U+FFFD and em-dash
normalisation to en-dash, then whitespace collapse of the stripped text. -/
def norm (s : String) : String :=
  let s := remove_emojis s
  let s := strReplace s "�" DASH
  let s := strReplace s "—" DASH
  ⟨lcCollapseWs (lcStrip s.data)⟩

/-! ## `split_into_excel_cells` (extractor.py lines 1463-1466) — claim C8 -/

/-- The chunk list `[text[i:i+limit] for i in range(0, len(text), limit)]`
on a character list.  (For `limit = 0` Python's `range` raises; the function
is only ever called with the positive `EXCEL_CELL_LIMIT`.) -/
def lcChunks (limit : Nat) (l : List Char) : List (List Char) :=
  if h : l = [] ∨ limit = 0 then []
  else l.take limit :: lcChunks limit (l.drop limit)
termination_by l.length
decreasing_by
  simp only [not_or] at h
  simp only [List.length_drop]
  cases l with
  | nil => exact absurd rfl h.1
  | cons c cs => simp only [List.length_cons]; omega

def EXCEL_CELL_LIMIT : Nat := 32767

/-- `split_into_excel_cells(text, limit)`. -/
def split_into_excel_cells (text : String) (limit : Nat) : List String :=
  if text = "" then [""]
  else (lcChunks limit text.data).map (fun l => ⟨l⟩)

theorem lcChunks_join (limit : Nat) (hl : 0 < limit) (l : List Char) :
    (lcChunks limit l).flatten = l := by
  induction l using lcChunks.induct limit with
  | case1 l h =>
    rcases h with rfl | h
    · rw [lcChunks]; simp
    · omega
  | case2 l h ih =>
    rw [lcChunks, dif_neg h]
    simp only [List.flatten_cons, ih]
    exact List.take_append_drop limit l

theorem lcChunks_le (limit : Nat) (l : List Char) :
    ∀ c ∈ lcChunks limit l, c.length ≤ limit := by
  induction l using lcChunks.induct limit with
  | case1 l h => rw [lcChunks, dif_pos h]; simp
  | case2 l h ih =>
    rw [lcChunks, dif_neg h]
    simp only [List.mem_cons]
    rintro c (rfl | hc)
    · exact List.length_take_le limit l
    · exact ih c hc

theorem lcChunks_full (limit : Nat) (l : List Char) :
    ∀ i, i + 1 < (lcChunks limit l).length →
      ((lcChunks limit l).getD i []).length = limit := by
  induction l using lcChunks.induct limit with
  | case1 l h => rw [lcChunks, dif_pos h]; simp
  | case2 l h ih =>
    rw [lcChunks, dif_neg h]
    intro i hi
    simp only [List.length_cons] at hi
    cases i with
    | zero =>
      -- the head chunk is full because a further chunk exists,
      -- i.e. `limit < l.length`
      simp only [List.getD_cons_zero, List.length_take]
      simp only [not_or] at h
      have htail : (lcChunks limit (l.drop limit)).length ≠ 0 := by omega
      have hdrop : l.drop limit ≠ [] := by
        intro hnil
        rw [lcChunks, dif_pos (Or.inl hnil)] at htail
        simp at htail
      have hpos : 0 < (l.drop limit).length := List.length_pos.mpr hdrop
      simp only [List.length_drop] at hpos
      omega
    | succ j =>
      simp only [List.getD_cons_succ]
      exact ih j (by omega)

/-- Claim C8 helper: `"".join` of strings through their character lists. -/
def strJoin (parts : List String) : String :=
  ⟨(parts.map String.data).flatten⟩

theorem strData_mk (l : List Char) : (⟨l⟩ : String).data = l := rfl

theorem strMk_data (s : String) : (⟨s.data⟩ : String) = s := rfl

theorem list_getD_map (f : α → β) (l : List α) (i : Nat) (d : α) :
    (l.map f).getD i (f d) = f (l.getD i d) := by
  induction l generalizing i with
  | nil => simp
  | cons a as ih =>
    cases i with
    | zero => simp
    | succ j => simpa using ih j

/-- Claim C8: for every string and positive limit, the chunks returned by
`split_into_excel_cells` concatenate back to the input, every chunk has
length at most the limit, and every chunk except possibly the last has
length exactly the limit. -/
theorem claim_C8_cell_splitting_round_trip (text : String) (limit : Nat)
    (h : 0 < limit) :
    strJoin (split_into_excel_cells text limit) = text
    ∧ (∀ c ∈ split_into_excel_cells text limit, strLen c ≤ limit)
    ∧ (∀ i, i + 1 < (split_into_excel_cells text limit).length →
        strLen ((split_into_excel_cells text limit).getD i "") = limit) := by
  unfold split_into_excel_cells
  by_cases he : text = ""
  · subst he
    refine ⟨rfl, ?_, ?_⟩
    · intro c hc
      simp at hc
      subst hc
      simp [strLen]
    · intro i hi
      simp at hi
  · simp only [if_neg he]
    have hmap : ((lcChunks limit text.data).map
        (fun l => (⟨l⟩ : String))).map String.data = lcChunks limit text.data := by
      rw [List.map_map]
      exact List.map_id'' (fun _ => rfl) _
    refine ⟨?_, ?_, ?_⟩
    · show (⟨(((lcChunks limit text.data).map _).map String.data).flatten⟩ : String) = text
      rw [hmap, lcChunks_join limit h]
    · intro c hc
      simp only [List.mem_map] at hc
      obtain ⟨l, hl, rfl⟩ := hc
      simpa [strLen] using lcChunks_le limit text.data l hl
    · intro i hi
      simp only [List.length_map] at hi
      have : ("" : String) = ⟨([] : List Char)⟩ := rfl
      rw [this, list_getD_map (fun l => (⟨l⟩ : String)) _ i []]
      show ((lcChunks limit text.data).getD i []).length = limit
      exact lcChunks_full limit text.data i hi

/-- Witness for C8 at a concrete input. -/
theorem claim_C8_cell_splitting_round_trip_witness :
    strJoin (split_into_excel_cells "abcde" 2) = "abcde" :=
  (claim_C8_cell_splitting_round_trip "abcde" 2 (by decide)).1

/-! ## `extract_sku_code` (extractor.py lines 4217-4246) — claim C10 -/

/-- `os.path.basename` (posix): the part of the path after the last `/`. -/
def osBasename (path : String) : String :=
  ⟨(path.data.reverse.takeWhile (fun c => c ≠ '/')).reverse⟩

/-- Index of the last occurrence of `c` in `l`, if any. -/
def lcLastIdxOf (c : Char) (l : List Char) : Option Nat :=
  match l.reverse.findIdx? (fun d => d = c) with
  | none => none
  | some j => some (l.length - 1 - j)

/-- `os.path.splitext(...)[0]` on a directory-free name: drop the part from
the last dot on, unless every character before that dot is itself a dot
(so `.bashrc` keeps its "extension"). -/
def pySplitextRoot (nm : String) : String :=
  match lcLastIdxOf '.' nm.data with
  | none => nm
  | some i =>
    if (nm.data.take i).any (fun c => c ≠ '.') then ⟨nm.data.take i⟩ else nm

/-- `re.sub(r'\b<word>\b', repl, ·, flags=re.IGNORECASE)` for a `word` made
of word characters, scanning left to right with `prev` the character just
before the current position (`none` at the string start).  A match needs a
word boundary on both sides; after a match the scan resumes after the
matched text, as `re.sub` does. -/
def subWordCIAux (word repl : List Char) (prev : Option Char) : List Char → List Char
  | [] => []
  | c :: cs =>
    let boundaryBefore := match prev with
      | none => true
      | some p => !pyIsWord p
    let boundaryAfter := match (c :: cs).drop word.length with
      | [] => true
      | d :: _ => !pyIsWord d
    if boundaryBefore && lcIsPrefixOf word (lcLower (c :: cs)) && boundaryAfter
        && !word.isEmpty then
      repl ++ subWordCIAux word repl ((c :: cs).take word.length).getLast?
        (cs.drop (word.length - 1))
    else
      c :: subWordCIAux word repl (some c) cs
termination_by l => l.length
decreasing_by
  · simp only [List.length_drop, List.length_cons]; omega
  · simp

/-- `re.sub(r'\([^)]*\)', ' ', ·)`: replace every parenthesized group
(up to the first closing parenthesis) by a space; an unmatched `(`
is kept and scanning continues after it. -/
def subParens : List Char → List Char
  | [] => []
  | c :: cs =>
    if c = '(' then
      match h : lcAfterChar ')' cs with
      | some rest => ' ' :: subParens rest
      | none => c :: subParens cs
    else c :: subParens cs
termination_by l => l.length
decreasing_by
  · exact Nat.lt_trans (lcAfterChar_length_lt h) (by simp)
  · simp
  · simp


/-- One anchored attempt of `\s*-\s*and\b` (IGNORECASE) at the current
position; on success returns the input remaining after the match
(everything after the matched `and`). -/
def matchDashAndAt (l : List Char) : Option (List Char) :=
  let l1 := l.dropWhile pyIsSpace
  if l1.head? = some '-' then
    let r1 := l1.tail.dropWhile pyIsSpace
    if lcIsPrefixOf ['a', 'n', 'd'] (lcLower r1) then
      let rest := r1.drop 3
      if (match rest.head? with
          | none => true
          | some d => !pyIsWord d) then
        some rest
      else none
    else none
  else none

theorem matchDashAndAt_length_lt {l rest : List Char}
    (h : matchDashAndAt l = some rest) : rest.length < l.length := by
  unfold matchDashAndAt at h
  dsimp only at h
  split at h
  case isFalse => simp at h
  case isTrue h1 =>
    split at h
    case isFalse => simp at h
    case isTrue =>
      split at h
      case isFalse => simp at h
      case isTrue =>
        cases h
        have hne : l.dropWhile pyIsSpace ≠ [] := by
          intro hnil; rw [hnil] at h1; simp at h1
        have hlen1 : 0 < (l.dropWhile pyIsSpace).length := List.length_pos.mpr hne
        have hlen2 : (l.dropWhile pyIsSpace).length ≤ l.length :=
          length_dropWhile_le pyIsSpace l
        have hlen3 : ((l.dropWhile pyIsSpace).tail.dropWhile pyIsSpace).length ≤
            (l.dropWhile pyIsSpace).tail.length :=
          length_dropWhile_le pyIsSpace _
        have hlen4 := List.length_tail (l.dropWhile pyIsSpace)
        have hlen5 := List.length_drop 3 ((l.dropWhile pyIsSpace).tail.dropWhile pyIsSpace)
        omega

/-- `re.sub(r'\s*-\s*and\b', ' ', ·, flags=re.IGNORECASE)`: scan left to
right, substituting each match by one space. -/
def subDashAnd : List Char → List Char
  | [] => []
  | c :: cs =>
    match h : matchDashAndAt (c :: cs) with
    | some rest => ' ' :: subDashAnd rest
    | none => c :: subDashAnd cs
termination_by l => l.length
decreasing_by
  · exact matchDashAndAt_length_lt h
  · simp

/-- `extract_sku_code` (extractor.py lines 4217-4246): the eight filename
processing rules. -/
def extract_sku_code (docxPath : String) : String :=
  let sku_code := (pySplitextRoot (osBasename docxPath)).data
  -- 1. replace the word "and" with a space (case insensitive)
  let s1 := subWordCIAux ['a', 'n', 'd'] [' '] none sku_code
  -- 2. remove the word "global" (case insensitive)
  let s2 := subWordCIAux ['g', 'l', 'o', 'b', 'a', 'l'] [] none s1
  -- 3. replace parentheses and their content with a space
  let s3 := subParens s2
  -- 4. replace "- and" with a single space (case insensitive)
  let s4 := subDashAnd s3
  -- 5. replace hyphens with spaces
  let s5 := s4.map (fun c => if c = '-' then ' ' else c)
  -- 6. replace every character that is not a letter, digit or whitespace
  let s6 := s5.map (fun c => if isAsciiAlnum c || pyIsSpace c then c else ' ')
  -- 7. collapse whitespace runs and trim
  let s7 := lcStrip (lcCollapseWs s6)
  -- 8. lower-case
  ⟨lcLower s7⟩

/-! ### Character-set invariants of `extract_sku_code` (claim C10) -/

theorem charLe_iff_toNat (a b : Char) : a ≤ b ↔ a.toNat ≤ b.toNat := by
  rw [Char.le_def, UInt32.le_def, Char.toNat, Char.toNat, UInt32.toNat, UInt32.toNat,
    BitVec.le_def]

theorem isAsciiUpper_toNat {c : Char} (h : isAsciiUpper c = true) :
    65 ≤ c.toNat ∧ c.toNat ≤ 90 := by
  simp only [isAsciiUpper, Bool.and_eq_true, decide_eq_true_eq] at h
  obtain ⟨h1, h2⟩ := h
  rw [charLe_iff_toNat] at h1 h2
  exact ⟨h1, h2⟩

theorem charOfNat_toNat {n : Nat} (h : n.isValidChar) : (Char.ofNat n).toNat = n := by
  simp only [Char.ofNat, dif_pos h, Char.ofNatAux, Char.toNat]
  rfl

theorem pyLowerChar_toNat {c : Char} (h : isAsciiUpper c = true) :
    (pyLowerChar c).toNat = c.toNat + 32 := by
  obtain ⟨h1, h2⟩ := isAsciiUpper_toNat h
  unfold pyLowerChar
  rw [if_pos h]
  have hv : (c.toNat + 32).isValidChar := Or.inl (by omega)
  exact charOfNat_toNat hv

theorem toNat_inj_char {a b : Char} (h : a.toNat = b.toNat) : a = b := by
  apply Char.eq_of_val_eq
  apply UInt32.eq_of_toBitVec_eq
  apply BitVec.eq_of_toNat_eq
  exact h

theorem pyLowerChar_space {c : Char} (h : pyLowerChar c = ' ') : c = ' ' := by
  by_cases hu : isAsciiUpper c = true
  · exfalso
    have := pyLowerChar_toNat hu
    rw [h] at this
    obtain ⟨h1, h2⟩ := isAsciiUpper_toNat hu
    have hsp : (' ' : Char).toNat = 32 := by decide
    rw [hsp] at this
    omega
  · unfold pyLowerChar at h
    rw [if_neg hu] at h
    exact h

theorem pyLowerChar_alnum {c : Char} (h : isAsciiAlnum c = true) :
    (isAsciiLower (pyLowerChar c) || isAsciiDigit (pyLowerChar c)) = true := by
  by_cases hu : isAsciiUpper c = true
  · obtain ⟨h1, h2⟩ := isAsciiUpper_toNat hu
    have hn := pyLowerChar_toNat hu
    have : isAsciiLower (pyLowerChar c) = true := by
      simp only [isAsciiLower, Bool.and_eq_true, decide_eq_true_eq]
      constructor <;> · rw [charLe_iff_toNat]; rw [hn]; show _ ≤ _; first
        | (show (97 : Nat) ≤ c.toNat + 32; omega)
        | (show c.toNat + 32 ≤ (122 : Nat); omega)
    simp [this]
  · have hpc : pyLowerChar c = c := by unfold pyLowerChar; rw [if_neg hu]
    rw [hpc]
    simp only [isAsciiAlnum, isAsciiAlpha, Bool.or_eq_true] at h
    rcases h with (h | h) | h
    · simp [h]
    · exact absurd h hu
    · simp [h]

theorem head_dropWhile_not {p : Char → Bool} {l : List Char} {c : Char}
    (h : (l.dropWhile p).head? = some c) : p c = false := by
  induction l with
  | nil => simp [List.dropWhile] at h
  | cons a as ih =>
    simp only [List.dropWhile] at h
    split at h
    · exact ih h
    · rename_i hpa
      simp only [List.head?_cons, Option.some.injEq] at h
      subst h
      simpa using hpa

theorem lcCollapseAux_true_head {l : List Char} {c : Char}
    (h : (lcCollapseAux true l).head? = some c) : c ≠ ' ' := by
  induction l with
  | nil => rw [lcCollapseAux] at h; cases h
  | cons a as ih =>
    rw [lcCollapseAux] at h
    by_cases ha : pyIsSpace a = true
    · rw [if_pos ha, if_pos rfl] at h
      exact ih h
    · rw [if_neg ha] at h
      simp only [List.head?_cons, Option.some.injEq] at h
      subst h
      intro hc
      rw [hc] at ha
      exact ha rfl

theorem lcCollapseWs_head_not_space {l : List Char} {c : Char}
    (hl : ∀ d, l.head? = some d → pyIsSpace d = false)
    (h : (lcCollapseWs l).head? = some c) : c ≠ ' ' := by
  cases l with
  | nil => rw [lcCollapseWs, lcCollapseAux] at h; cases h
  | cons a as =>
    have ha : pyIsSpace a = false := hl a rfl
    rw [lcCollapseWs, lcCollapseAux, if_neg (by simp [ha])] at h
    simp only [List.head?_cons, Option.some.injEq] at h
    subst h
    intro hc
    rw [hc] at ha
    simp [pyIsSpace] at ha

theorem lcCollapseAux_noDD (l : List Char) :
    ∀ prev, lcContains [' ', ' '] (lcCollapseAux prev l) = false := by
  induction l with
  | nil => intro prev; rw [lcCollapseAux]; rfl
  | cons a as ih =>
    intro prev
    rw [lcCollapseAux]
    by_cases ha : pyIsSpace a = true
    · rw [if_pos ha]
      cases prev with
      | true => rw [if_pos rfl]; exact ih true
      | false =>
        rw [if_neg (by simp)]
        rw [lcContains]
        simp only [Bool.or_eq_false_iff]
        refine ⟨?_, ih true⟩
        rcases he : lcCollapseAux true as with _ | ⟨x, xs⟩
        · rfl
        · have hx : x ≠ ' ' := lcCollapseAux_true_head (by rw [he]; rfl)
          simp [lcIsPrefixOf, Ne.symm hx]
    · rw [if_neg ha]
      rw [lcContains]
      simp only [Bool.or_eq_false_iff]
      refine ⟨?_, ih false⟩
      have haa : a ≠ ' ' := by
        intro hcc
        rw [hcc] at ha
        exact ha rfl
      simp [lcIsPrefixOf, Ne.symm haa]

/-- The whitespace collapse never produces two adjacent spaces. -/
theorem lcCollapseWs_noDD (l : List Char) :
    lcContains [' ', ' '] (lcCollapseWs l) = false :=
  lcCollapseAux_noDD l false

theorem lcCollapseAux_mem (l : List Char) :
    ∀ prev, ∀ c ∈ lcCollapseAux prev l,
      (c ∈ l ∧ pyIsSpace c = false) ∨ c = ' ' := by
  induction l with
  | nil => intro prev c hc; rw [lcCollapseAux] at hc; cases hc
  | cons a as ih =>
    intro prev c hc
    rw [lcCollapseAux] at hc
    by_cases ha : pyIsSpace a = true
    · rw [if_pos ha] at hc
      have step : c ∈ lcCollapseAux true as ∨ c = ' ' := by
        cases prev with
        | true => rw [if_pos rfl] at hc; exact Or.inl hc
        | false =>
          rw [if_neg (by simp)] at hc
          rcases List.mem_cons.mp hc with rfl | hmem
          · exact Or.inr rfl
          · exact Or.inl hmem
      rcases step with hmem | rfl
      · rcases ih true c hmem with ⟨hin, hns⟩ | hsp
        · exact Or.inl ⟨List.mem_cons_of_mem a hin, hns⟩
        · exact Or.inr hsp
      · exact Or.inr rfl
    · rw [if_neg ha] at hc
      rcases List.mem_cons.mp hc with rfl | hmem
      · exact Or.inl ⟨List.mem_cons_self _ _, by simpa using ha⟩
      · rcases ih false c hmem with ⟨hin, hns⟩ | hsp
        · exact Or.inl ⟨List.mem_cons_of_mem a hin, hns⟩
        · exact Or.inr hsp

/-- Every character of the whitespace collapse is either a non-space
character of the input or the single space `' '`. -/
theorem lcCollapseWs_mem (l : List Char) :
    ∀ c ∈ lcCollapseWs l, (c ∈ l ∧ pyIsSpace c = false) ∨ c = ' ' :=
  lcCollapseAux_mem l false

/-- `lcStrip l` is a contiguous fragment of `l`. -/
theorem lcStrip_sub (l : List Char) : lcStrip l <:+: l := by
  unfold lcStrip
  have h1 : (l.dropWhile pyIsSpace) <:+ l := List.dropWhile_suffix pyIsSpace
  have h2 : ((l.dropWhile pyIsSpace).reverse.dropWhile pyIsSpace) <:+
      (l.dropWhile pyIsSpace).reverse := List.dropWhile_suffix pyIsSpace
  have h3 : ((l.dropWhile pyIsSpace).reverse.dropWhile pyIsSpace).reverse <+:
      (l.dropWhile pyIsSpace) := by
    rw [← List.reverse_suffix]
    simpa using h2
  exact h3.isInfix.trans h1.isInfix

theorem lcStrip_getLast_not_space {l : List Char} {c : Char}
    (h : (lcStrip l).getLast? = some c) : pyIsSpace c = false := by
  unfold lcStrip at h
  rw [List.getLast?_reverse] at h
  exact head_dropWhile_not h

theorem getLast_suffix_eq {l₁ l₂ : List Char} (h : l₁ <:+ l₂) (hne : l₁ ≠ []) :
    l₁.getLast? = l₂.getLast? := by
  obtain ⟨w, rfl⟩ := h
  exact (List.getLast?_append_of_ne_nil w hne).symm

theorem lcStrip_head_not_space {l : List Char} {c : Char}
    (h : (lcStrip l).head? = some c) : pyIsSpace c = false := by
  unfold lcStrip at h
  rw [List.head?_reverse] at h
  have hne : (l.dropWhile pyIsSpace).reverse.dropWhile pyIsSpace ≠ [] := by
    intro hnil
    rw [hnil] at h
    simp at h
  rw [getLast_suffix_eq (List.dropWhile_suffix pyIsSpace) hne] at h
  rw [List.getLast?_reverse] at h
  exact head_dropWhile_not h

theorem lcLower_DD {l : List Char}
    (h : lcContains [' ', ' '] (lcLower l) = true) :
    lcContains [' ', ' '] l = true := by
  induction l with
  | nil => simpa [lcLower] using h
  | cons c cs ih =>
    simp only [lcLower, List.map_cons] at h
    rw [lcContains] at h
    rw [lcContains]
    rcases Bool.or_eq_true_iff.mp h with hpre | hrest
    · refine Bool.or_eq_true_iff.mpr (Or.inl ?_)
      cases cs with
      | nil => simp [lcIsPrefixOf] at hpre
      | cons d ds =>
        simp only [List.map_cons, lcIsPrefixOf, Bool.and_eq_true,
          decide_eq_true_eq] at hpre
        obtain ⟨h1, h2, -⟩ := hpre
        have hc : c = ' ' := pyLowerChar_space h1.symm
        have hd : d = ' ' := pyLowerChar_space h2.symm
        subst hc; subst hd
        simp [lcIsPrefixOf]
    · exact Bool.or_eq_true_iff.mpr (Or.inr (ih hrest))

/-- C10 building block: after rule 6 every character is alphanumeric or
whitespace. -/
theorem step6_mem {d : Char} {s : List Char}
    (h : d ∈ s.map (fun c => if isAsciiAlnum c || pyIsSpace c then c else ' ')) :
    (isAsciiAlnum d || pyIsSpace d) = true := by
  rcases List.mem_map.mp h with ⟨e, -, rfl⟩
  by_cases he : (isAsciiAlnum e || pyIsSpace e) = true
  · rw [if_pos he]; exact he
  · rw [if_neg he]; rfl

/-- Claim C10: for every input path, `extract_sku_code` returns a string
containing only lower-case ASCII letters, digits, and single interior
spaces — no leading or trailing whitespace, no upper-case letters, and no
punctuation. -/
theorem claim_C10_extract_sku_code_charset (docxPath : String) :
    (∀ c ∈ (extract_sku_code docxPath).data,
        (isAsciiLower c || isAsciiDigit c || c = ' ') = true)
    ∧ (extract_sku_code docxPath).data.head? ≠ some ' '
    ∧ (extract_sku_code docxPath).data.getLast? ≠ some ' '
    ∧ lcContains [' ', ' '] (extract_sku_code docxPath).data = false := by
  unfold extract_sku_code
  dsimp only
  rw [strData_mk]
  refine ⟨?_, ?_, ?_, ?_⟩
  · intro c hc
    rcases List.mem_map.mp hc with ⟨d, hd, rfl⟩
    have hdA := (lcStrip_sub _).sublist.mem hd
    rcases lcCollapseWs_mem _ d hdA with ⟨hins6, hns⟩ | rfl
    · have halnum : isAsciiAlnum d = true := by
        have := step6_mem hins6
        rcases Bool.or_eq_true_iff.mp this with h | h
        · exact h
        · rw [h] at hns; cases hns
      have := pyLowerChar_alnum halnum
      rcases Bool.or_eq_true_iff.mp this with h | h <;> simp [h]
    · have : pyLowerChar ' ' = ' ' := by decide
      rw [this]
      simp
  · intro hhead
    rw [show lcLower = List.map pyLowerChar from rfl, List.head?_map] at hhead
    rcases hB : (lcStrip (lcCollapseWs _)).head? with _ | ⟨d⟩
    · rw [hB] at hhead; simp at hhead
    · rw [hB] at hhead
      simp at hhead
      have hd := pyLowerChar_space hhead
      subst hd
      have := lcStrip_head_not_space hB
      exact absurd this (by decide)
  · intro hlast
    rw [show lcLower = List.map pyLowerChar from rfl, List.getLast?_map] at hlast
    rcases hB : (lcStrip (lcCollapseWs _)).getLast? with _ | ⟨d⟩
    · rw [hB] at hlast; simp at hlast
    · rw [hB] at hlast
      simp at hlast
      have hd := pyLowerChar_space hlast
      subst hd
      have := lcStrip_getLast_not_space hB
      exact absurd this (by decide)
  · by_contra hdd
    rw [Bool.not_eq_false] at hdd
    have h1 := lcLower_DD hdd
    have h2 : lcContains [' ', ' '] (lcCollapseWs
        (((subDashAnd (subParens (subWordCIAux ['g', 'l', 'o', 'b', 'a', 'l'] []
          none (subWordCIAux ['a', 'n', 'd'] [' '] none
            (pySplitextRoot (osBasename docxPath)).data)))).map
              (fun c => if c = '-' then ' ' else c)).map
                (fun c => if isAsciiAlnum c || pyIsSpace c then c else ' '))) = false :=
      lcCollapseWs_noDD _
    have h3 := lcContains_of_sub h1 (lcStrip_sub _)
    rw [h3] at h2
    cases h2

/-! ## Document model: tables

`python-docx` tables as the extractor reads them: a table is a list of
rows, each row a list of cell texts (`cell.text`). -/

structure Table where
  rows : List (List String)

/-- Case-insensitive `re.sub` of a literal pattern (given lower-cased),
no word boundaries: used for `re.sub(r"USD", "$", ·, flags=re.I)`. -/
def lcReplaceCIAux (pat repl : List Char) : Nat → List Char → List Char
  | _, [] => []
  | skip+1, _ :: cs => lcReplaceCIAux pat repl skip cs
  | 0, c :: cs =>
    if lcIsPrefixOf pat (lcLower (c :: cs)) && !pat.isEmpty then
      repl ++ lcReplaceCIAux pat repl (pat.length - 1) cs
    else
      c :: lcReplaceCIAux pat repl 0 cs

def lcReplaceCI (pat repl l : List Char) : List Char := lcReplaceCIAux pat repl 0 l

/-- First index of `x` in `l` (`list.index`, guarded by membership at the
call sites). -/
def firstIdxOf (x : String) (l : List String) : Nat :=
  l.findIdx (fun y => y == x)

/-! ## `extract_seo_title` (extractor.py lines 4135-4174) — claim C7 -/

/-- The inner `normalize_label` of `extract_seo_title`. -/
def normalize_label (txt : String) : String :=
  let t := pyLower (pyStrip txt)
  let t := strCollapseWs t
  let t := strReplace t "forecast by" "forecast in"
  let t := strReplace t "forecasts in" "forecast in"
  let t := strReplace t "forecast (" "forecast in "
  let t := strReplace t ")" ""
  t

/-- The row test of `extract_seo_title`: does this data row denote a 2030
revenue/market-size forecast? -/
def seoRowIsForecast (attrRaw attr : String) : Bool :=
  let attrLower := pyLower attrRaw
  (strContains attr "revenue forecast" &&
    (strContains attr " 2030" || strContains attr "forecast in")) ||
  (strContains attrLower "revenue forecast" && strContains attrRaw "2030") ||
  ((strContains attrLower "market size forecast" || strContains attrLower "market size")
    && strContains attrRaw "2030")

/-- Scan the data rows (`table.rows[1:]`) for the first forecast row,
returning its details value with `USD` folded to `$` ("" when no row
matches). -/
def seoScanRows (attrIdx detailsIdx : Nat) : List (List String) → String
  | [] => ""
  | row :: rest =>
    let attrRaw := pyStrip (row.getD attrIdx "")
    let attr := normalize_label attrRaw
    let details := pyStrip (row.getD detailsIdx "")
    if seoRowIsForecast attrRaw attr then
      pyStrip ⟨lcReplaceCI ['u', 's', 'd'] ['$'] details.data⟩
    else
      seoScanRows attrIdx detailsIdx rest

/-- Scan all tables for a "Report Attribute"/"Details" header pair and a
matching forecast row, as the table loop of `extract_seo_title` does. -/
def seoScanTables : List Table → String
  | [] => ""
  | t :: ts =>
    match t.rows with
    | [] => seoScanTables ts
    | row0 :: dataRows =>
      if row0.isEmpty then seoScanTables ts
      else
        let headers := row0.map (fun c => pyLower (pyStrip c))
        if headers.contains "report attribute" && headers.contains "details" then
          let attrIdx := firstIdxOf "report attribute" headers
          let detailsIdx := firstIdxOf "details" headers
          let rf := seoScanRows attrIdx detailsIdx dataRows
          if rf ≠ "" then rf else seoScanTables ts
        else
          seoScanTables ts

/-- `extract_seo_title(docx_path)`, over the path and the document's
tables. -/
def extract_seo_title (docxPath : String) (tables : List Table) : String :=
  let file_name := pySplitextRoot (osBasename docxPath)
  let revenue_forecast := seoScanTables tables
  let title_name := strReplace file_name "_" " "
  if revenue_forecast ≠ "" then
    title_name ++ " Size (" ++ revenue_forecast ++ ") 2030"
  else
    title_name

/-! ## `extract_report_coverage_table_with_style`
(extractor.py lines 4041-4119) — claim C5 -/

/-- The header-keyword test selecting a report-coverage table. -/
def isReportTable (firstRowText : String) : Bool :=
  strContains firstRowText "report attribute" ||
  strContains firstRowText "report coverage table" ||
  strContains firstRowText "forecast period" ||
  strContains firstRowText "market size" ||
  strContains firstRowText "revenue forecast" ||
  (strContains firstRowText "forecast" && strContains firstRowText "period") ||
  (strContains firstRowText "market" && strContains firstRowText "size")

/-- The inline style of one coverage-table cell, by position. -/
def coverageCellStyle (rIdx cIdx : Nat) : String :=
  if rIdx = 0 then
    if cIdx = 0 then
      "background-color:#4472c4; border-bottom:1px solid #4472c4; border-left:1px solid #4472c4; border-right:none; border-top:1px solid #4472c4; vertical-align:top; width:195px"
    else
      "background-color:#4472c4; border-bottom:1px solid #4472c4; border-left:none; border-right:1px solid #4472c4; border-top:1px solid #4472c4; vertical-align:top; width:370px"
  else
    let bgColor := if rIdx % 2 = 1 then "#d9e2f3" else ""
    if cIdx = 0 then
      if bgColor ≠ "" then
        "background-color:" ++ bgColor ++ "; border-bottom:1px solid #8eaadb; border-left:1px solid #8eaadb; border-right:1px solid #8eaadb; border-top:none; vertical-align:top; width:195px"
      else
        "border-bottom:1px solid #8eaadb; border-left:1px solid #8eaadb; border-right:1px solid #8eaadb; border-top:none; vertical-align:top; width:195px"
    else
      if bgColor ≠ "" then
        "background-color:" ++ bgColor ++ "; border-bottom:1px solid #8eaadb; border-left:none; border-right:1px solid #8eaadb; border-top:none; vertical-align:top; width:370px"
      else
        "border-bottom:1px solid #8eaadb; border-left:none; border-right:1px solid #8eaadb; border-top:none; vertical-align:top; width:370px"

/-- The three lines emitted for one coverage-table cell. -/
def coverageCellParts (rIdx cIdx : Nat) (cell : String) : List String :=
  let text := remove_emojis (pyStrip cell)
  ["                <td style=\x27" ++ coverageCellStyle rIdx cIdx ++ "\x27>",
   "                <p><strong>" ++ text ++ "</strong></p>",
   "                </td>"]

/-- The lines emitted for one coverage-table row. -/
def coverageRowParts (rIdx : Nat) (row : List String) : List String :=
  ["            <tr>"] ++
  (row.enum.map (fun p => coverageCellParts rIdx p.1 p.2)).flatten ++
  ["            </tr>"]

/-- The full HTML rendering of a matched coverage table. -/
def renderCoverageTable (t : Table) : String :=
  let parts :=
    ["<h2><strong>7.1. Report Coverage Table</strong></h2>",
     "",
     "<table cellspacing=0 style=\x27border-collapse:collapse; width:100%\x27>",
     "        <tbody>"] ++
    (t.rows.enum.map (fun p => coverageRowParts p.1 p.2)).flatten ++
    ["        </tbody>", "</table>"]
  strJoinSep "\n" parts

/-- `extract_report_coverage_table_with_style(docx_path)`, over the
document's tables: render the first table whose first-row text matches the
keyword set, else return the empty string. -/
def extract_report_coverage_table_with_style : List Table → String
  | [] => ""
  | t :: ts =>
    match t.rows with
    | [] => extract_report_coverage_table_with_style ts
    | row0 :: _ =>
      let firstRowText :=
        strJoinSep " " (row0.map (fun c => pyLower (pyStrip c)))
      if isReportTable firstRowText then renderCoverageTable t
      else extract_report_coverage_table_with_style ts

/-! ## FAQ schema and methodology (extractor.py lines 3987-4038) —
claims C5 and C9 -/

/-- `_get_text`: newline-join of the non-blank paragraph texts. -/
def getText (paragraphTexts : List String) : String :=
  strJoinSep "\n"
    (paragraphTexts.filter (fun t => t ≠ "" && pyStrip t ≠ ""))

/-- Does `"@type"\s*:\s*"<typeName>"` match at the head of `l`? -/
def jsonTypeMarkerAt (typeName : List Char) (l : List Char) : Bool :=
  if lcIsPrefixOf ['"', '@', 't', 'y', 'p', 'e', '"'] l then
    match (l.drop 7).dropWhile pyIsSpace with
    | ':' :: r2 =>
      lcIsPrefixOf ('"' :: (typeName ++ ['"'])) (r2.dropWhile pyIsSpace)
    | _ => false
  else false

/-- `re.search` for the `"@type": "<typeName>"` marker: index of the first
match, if any. -/
def findMarkerStart (typeName : List Char) (l : List Char) : Option Nat :=
  match l with
  | [] => none
  | _ :: cs =>
    if jsonTypeMarkerAt typeName l then some 0
    else (findMarkerStart typeName cs).map (· + 1)

/-- The brace-depth scan of `_extract_json_block`: collect characters,
starting at depth 0, stopping right after the brace that closes the first
opened one (or at end of input when unbalanced). -/
def braceBlock : Nat → List Char → List Char
  | _, [] => []
  | depth, c :: cs =>
    if c = '{' then c :: braceBlock (depth + 1) cs
    else if c = '}' then
      if depth = 1 then [c]
      else c :: braceBlock (depth - 1) cs
    else c :: braceBlock depth cs

/-- `_extract_json_block(text, type_name)`. -/
def extract_json_block (text typeName : String) : String :=
  match findMarkerStart typeName.data text.data with
  | none => ""
  | some mstart =>
    match lcLastIdxOf '{' (text.data.take mstart) with
    | none => ""
    | some si => pyStrip ⟨braceBlock 0 (text.data.drop si)⟩

/-- `extract_faq_schema(docx_path)`, over the paragraph texts. -/
def extract_faq_schema (paragraphTexts : List String) : String :=
  extract_json_block (getText paragraphTexts) "FAQPage"

/-! ### A JSON value model for `json.loads` -/

inductive Json where
  | null
  | bool (b : Bool)
  | num (raw : String)
  | str (s : String)
  | arr (xs : List Json)
  | obj (kvs : List (String × Json))

/-- JSON whitespace accepted between tokens by `json.loads`. -/
def jsonWs (c : Char) : Bool := c = ' ' || c = '\t' || c = '\n' || c = '\r'

/-- Parse a JSON string body after the opening quote; returns the decoded
characters and the input after the closing quote.  Handles the standard
escapes; `\uXXXX` decodes the code point (surrogate pairing is not
reconstructed — no document in this family uses it). -/
def parseJsonString (fuel : Nat) (l : List Char) : Option (List Char × List Char) :=
  match fuel with
  | 0 => none
  | fuel + 1 =>
    match l with
    | [] => none
    | '"' :: rest => some ([], rest)
    | '\\' :: e :: rest =>
      let dec : Option (Char × List Char) :=
        match e with
        | '"' => some ('"', rest)
        | '\\' => some ('\\', rest)
        | '/' => some ('/', rest)
        | 'b' => some ('\x08', rest)
        | 'f' => some ('\x0c', rest)
        | 'n' => some ('\n', rest)
        | 'r' => some ('\r', rest)
        | 't' => some ('\t', rest)
        | 'u' =>
          match rest with
          | h1 :: h2 :: h3 :: h4 :: rest2 =>
            let hexVal : Char → Option Nat := fun c =>
              if isAsciiDigit c then some (c.toNat - 48)
              else if 'a' ≤ c && c ≤ 'f' then some (c.toNat - 87)
              else if 'A' ≤ c && c ≤ 'F' then some (c.toNat - 55)
              else none
            match hexVal h1, hexVal h2, hexVal h3, hexVal h4 with
            | some a, some b, some c, some d =>
              let n := ((a * 16 + b) * 16 + c) * 16 + d
              if n.isValidChar then some (Char.ofNat n, rest2) else none
            | _, _, _, _ => none
          | _ => none
        | _ => none
      match dec with
      | none => none
      | some (c, rest2) =>
        match parseJsonString fuel rest2 with
        | none => none
        | some (body, rest3) => some (c :: body, rest3)
    | c :: rest =>
      match parseJsonString fuel rest with
      | none => none
      | some (body, rest2) => some (c :: body, rest2)

/-- Characters that may appear in a JSON number token. -/
def jsonNumChar (c : Char) : Bool :=
  isAsciiDigit c || c = '-' || c = '+' || c = '.' || c = 'e' || c = 'E'

mutual

/-- Recursive-descent parser for one JSON value (model of `json.loads`);
returns the value and the remaining input. -/
def parseJsonVal (fuel : Nat) (l : List Char) : Option (Json × List Char) :=
  match fuel with
  | 0 => none
  | fuel + 1 =>
    match l.dropWhile jsonWs with
    | [] => none
    | c :: rest =>
      if c = 'n' then
        if lcIsPrefixOf ['u', 'l', 'l'] rest then some (Json.null, rest.drop 3)
        else none
      else if c = 't' then
        if lcIsPrefixOf ['r', 'u', 'e'] rest then some (Json.bool true, rest.drop 3)
        else none
      else if c = 'f' then
        if lcIsPrefixOf ['a', 'l', 's', 'e'] rest then
          some (Json.bool false, rest.drop 4)
        else none
      else if c = '"' then
        match parseJsonString fuel rest with
        | none => none
        | some (body, rest2) => some (Json.str ⟨body⟩, rest2)
      else if c = '[' then
        parseJsonArr fuel (rest.dropWhile jsonWs)
      else if c = '{' then
        parseJsonObj fuel (rest.dropWhile jsonWs)
      else if isAsciiDigit c || c = '-' then
        let tok := (c :: rest).takeWhile jsonNumChar
        some (Json.num ⟨tok⟩, (c :: rest).dropWhile jsonNumChar)
      else none

/-- Parse the inside of a JSON array, right after `[` (whitespace
skipped). -/
def parseJsonArr (fuel : Nat) (l : List Char) : Option (Json × List Char) :=
  match fuel with
  | 0 => none
  | fuel + 1 =>
    match l with
    | ']' :: rest => some (Json.arr [], rest)
    | _ =>
      match parseJsonVal fuel l with
      | none => none
      | some (v, rest) =>
        match rest.dropWhile jsonWs with
        | ',' :: rest2 =>
          match parseJsonArr fuel (rest2.dropWhile jsonWs) with
          | some (Json.arr xs, rest3) => some (Json.arr (v :: xs), rest3)
          | _ => none
        | ']' :: rest2 => some (Json.arr [v], rest2)
        | _ => none

/-- Parse the inside of a JSON object, right after `{` (whitespace
skipped). -/
def parseJsonObj (fuel : Nat) (l : List Char) : Option (Json × List Char) :=
  match fuel with
  | 0 => none
  | fuel + 1 =>
    match l with
    | '}' :: rest => some (Json.obj [], rest)
    | '"' :: rest =>
      match parseJsonString fuel rest with
      | none => none
      | some (key, rest2) =>
        match rest2.dropWhile jsonWs with
        | ':' :: rest3 =>
          match parseJsonVal fuel rest3 with
          | none => none
          | some (v, rest4) =>
            match rest4.dropWhile jsonWs with
            | ',' :: rest5 =>
              match parseJsonObj fuel (rest5.dropWhile jsonWs) with
              | some (Json.obj kvs, rest6) =>
                some (Json.obj ((⟨key⟩, v) :: kvs), rest6)
              | _ => none
            | '}' :: rest5 => some (Json.obj [(⟨key⟩, v)], rest5)
            | _ => none
        | _ => none
    | _ => none

end

/-- `json.loads`: parse one value and require only whitespace after it. -/
def jsonParse (s : String) : Option Json :=
  match parseJsonVal (s.data.length + 1) s.data with
  | none => none
  | some (v, rest) => if rest.dropWhile jsonWs = [] then some v else none

/-- Python dict lookup on a parsed object: later duplicate keys win, as
`json.loads` builds its dict by successive insertion. -/
def jsonObjGet (kvs : List (String × Json)) (key : String) : Option Json :=
  (kvs.reverse.find? (fun kv => kv.1 == key)).map (·.2)

/-- `html.escape` with `quote=True`. -/
def htmlEscapeChar (c : Char) : List Char :=
  if c = '&' then "&amp;".data
  else if c = '<' then "&lt;".data
  else if c = '>' then "&gt;".data
  else if c = '"' then "&quot;".data
  else if c = '\x27' then "&#x27;".data
  else [c]

def htmlEscape (s : String) : String :=
  ⟨s.data.flatMap htmlEscapeChar⟩

/-- The `q_count`-numbered paragraph pair emitted for one kept FAQ
entry. -/
def renderFaqPair (n : Nat) (question answer : String) : String :=
  "<p><strong>Q" ++ toString n ++ ": " ++ htmlEscape question ++
    "</strong><br>A" ++ toString n ++ ": " ++ htmlEscape answer ++ "</p>"

/-- The question/answer lookup of one `mainEntity` item:
`item.get("name", "").strip()` and
`item.get("acceptedAnswer", {}).get("text", "").strip()`.
`none` models the `AttributeError` Python raises when the item (or its
`acceptedAnswer`) is not an object or a looked-up value is not a string
(those exceptions are not caught by `extract_methodology_from_faqschema`). -/
def jsonItemQA : Json → Option (String × String)
  | Json.obj kvs =>
    let q : Option String :=
      match jsonObjGet kvs "name" with
      | none => some ""
      | some (Json.str s) => some s
      | some _ => none
    let a : Option String :=
      match jsonObjGet kvs "acceptedAnswer" with
      | none => some ""
      | some (Json.obj kvs2) =>
        match jsonObjGet kvs2 "text" with
        | none => some ""
        | some (Json.str s) => some s
        | some _ => none
      | some _ => none
    match q, a with
    | some q, some a => some (pyStrip q, pyStrip a)
    | _, _ => none
  | _ => none

/-- The `for item in faq_data.get("mainEntity", [])` loop of
`extract_methodology_from_faqschema`, with the running `q_count` as first
argument: the counter advances for every item, kept or skipped. -/
def renderFaqs : Nat → List Json → Option (List String)
  | _, [] => some []
  | qCount, item :: rest =>
    match jsonItemQA item with
    | none => none
    | some (question, answer) =>
      match renderFaqs (qCount + 1) rest with
      | none => none
      | some faqs =>
        if question ≠ "" && answer ≠ "" then
          some (renderFaqPair (qCount + 1) question answer :: faqs)
        else
          some faqs

/-- `extract_methodology_from_faqschema(docx_path)`, over the paragraph
texts.  `none` models an uncaught exception (the `try` only catches
`json.JSONDecodeError`). -/
def extract_methodology_from_faqschema (paragraphTexts : List String) :
    Option String :=
  let faqSchemaStr := extract_faq_schema paragraphTexts
  if faqSchemaStr = "" then some ""
  else
    let cleanedJson := strCollapseWs (pyStrip faqSchemaStr)
    match jsonParse cleanedJson with
    | none => some ""
    | some faqData =>
      match faqData with
      | Json.obj kvs =>
        let entity :=
          match jsonObjGet kvs "mainEntity" with
          | none => some []
          | some (Json.arr xs) => some xs
          | some _ => none
        match entity with
        | none => none
        | some items =>
          match renderFaqs 0 items with
          | none => none
          | some faqs => some (strJoinSep "\n" faqs)
      | _ => none

/-! ### Claim C5: field extractors return "" on mismatch -/

theorem coverage_empty_of_no_match (tables : List Table)
    (h : ∀ t ∈ tables, ∀ r0 rest, t.rows = r0 :: rest →
      isReportTable (strJoinSep " " (r0.map (fun c => pyLower (pyStrip c)))) = false) :
    extract_report_coverage_table_with_style tables = "" := by
  induction tables with
  | nil => rfl
  | cons t ts ih =>
    rw [extract_report_coverage_table_with_style]
    rcases hr : t.rows with _ | ⟨r0, rest⟩
    · exact ih (fun u hu => h u (List.mem_cons_of_mem t hu))
    · dsimp only
      rw [if_neg (by rw [h t (List.mem_cons_self t ts) r0 rest hr]; simp)]
      exact ih (fun u hu => h u (List.mem_cons_of_mem t hu))

theorem methodology_empty_of_no_marker (paragraphTexts : List String)
    (h : findMarkerStart "FAQPage".data (getText paragraphTexts).data = none) :
    extract_methodology_from_faqschema paragraphTexts = some "" := by
  have hschema : extract_faq_schema paragraphTexts = "" := by
    unfold extract_faq_schema extract_json_block
    rw [h]
  unfold extract_methodology_from_faqschema
  rw [hschema]
  rfl

theorem methodology_empty_of_parse_failure (paragraphTexts : List String)
    (hne : extract_faq_schema paragraphTexts ≠ "")
    (h : jsonParse (strCollapseWs (pyStrip (extract_faq_schema paragraphTexts)))
      = none) :
    extract_methodology_from_faqschema paragraphTexts = some "" := by
  unfold extract_methodology_from_faqschema
  rw [if_neg hne]
  dsimp only
  rw [h]

/-- Claim C5: a field-level mismatch never propagates an exception and
yields the empty string: `extract_report_coverage_table_with_style`
returns `""` when no table's first row matches the keyword set, and
`extract_methodology_from_faqschema` returns `""` when the FAQPage JSON
marker is absent or the extracted block fails to parse. -/
theorem claim_C5_field_extractors_return_empty :
    (∀ tables : List Table,
      (∀ t ∈ tables, ∀ r0 rest, t.rows = r0 :: rest →
        isReportTable (strJoinSep " " (r0.map (fun c => pyLower (pyStrip c)))) = false) →
      extract_report_coverage_table_with_style tables = "")
    ∧ (∀ paragraphTexts : List String,
        findMarkerStart "FAQPage".data (getText paragraphTexts).data = none →
        extract_methodology_from_faqschema paragraphTexts = some "")
    ∧ (∀ paragraphTexts : List String,
        extract_faq_schema paragraphTexts ≠ "" →
        jsonParse (strCollapseWs (pyStrip (extract_faq_schema paragraphTexts))) = none →
        extract_methodology_from_faqschema paragraphTexts = some "") :=
  ⟨coverage_empty_of_no_match, methodology_empty_of_no_marker,
    methodology_empty_of_parse_failure⟩

/-- Witness for C5: a document whose only table has an unrelated header,
whose text has no FAQPage marker, and a document whose FAQPage block is
present but malformed. -/
theorem claim_C5_field_extractors_return_empty_witness :
    extract_report_coverage_table_with_style [⟨[["Topic", "Value"]]⟩] = ""
    ∧ extract_methodology_from_faqschema ["plain text only"] = some ""
    ∧ extract_methodology_from_faqschema
        ["\x7bbroken \"@type\": \"FAQPage\" oops"] = some "" :=
  ⟨claim_C5_field_extractors_return_empty.1 [⟨[["Topic", "Value"]]⟩]
     (by
       intro t ht r0 rest hr
       rcases List.mem_singleton.mp ht with rfl
       injection hr with h1 h2
       subst h1
       decide),
   claim_C5_field_extractors_return_empty.2.1 ["plain text only"] (by decide),
   claim_C5_field_extractors_return_empty.2.2
     ["\x7bbroken \"@type\": \"FAQPage\" oops"] (by decide) (by rfl)⟩

/-! ### Claim C9: FAQ numbering follows `mainEntity` position -/

/-- The per-entry renderer C9 compares the loop against: entry at 0-based
position `i` is kept iff its question and answer are non-empty, and is
then labelled `Q{i+1}`/`A{i+1}`. -/
def renderFaqAt (p : Nat × Json) : Option String :=
  match jsonItemQA p.2 with
  | none => none
  | some qa =>
    if qa.1 ≠ "" && qa.2 ≠ "" then some (renderFaqPair (p.1 + 1) qa.1 qa.2)
    else none

theorem renderFaqs_enumFrom (items : List Json) :
    ∀ (k : Nat) (out : List String), renderFaqs k items = some out →
      out = (items.enumFrom k).filterMap renderFaqAt := by
  induction items with
  | nil =>
    intro k out h
    rw [renderFaqs] at h
    cases h
    simp
  | cons item rest ih =>
    intro k out h
    rw [renderFaqs] at h
    rcases hqa : jsonItemQA item with _ | ⟨q, a⟩
    · rw [hqa] at h; cases h
    · rw [hqa] at h
      rcases hrec : renderFaqs (k + 1) rest with _ | ⟨faqs⟩
      · rw [hrec] at h; cases h
      · rw [hrec] at h
        have htail := ih (k + 1) faqs hrec
        simp only [] at h
        split at h <;> cases h
        · rename_i hkeep
          simp only [List.enumFrom, List.filterMap_cons]
          rw [show renderFaqAt (k, item) = some (renderFaqPair (k + 1) q a) by
            unfold renderFaqAt; rw [hqa]; dsimp only; rw [if_pos hkeep]]
          rw [htail]
        · rename_i hkeep
          simp only [List.enumFrom, List.filterMap_cons]
          rw [show renderFaqAt (k, item) = none by
            unfold renderFaqAt; rw [hqa]; dsimp only; rw [if_neg hkeep]]
          exact htail

/-- Claim C9: the question counter advances for every `mainEntity` entry,
including skipped ones, so each emitted `Q{n}:`/`A{n}:` label carries the
entry's 1-based position and skipped entries leave numbering gaps. -/
theorem claim_C9_faq_numbering (items : List Json) (out : List String)
    (h : renderFaqs 0 items = some out) :
    out = items.enum.filterMap renderFaqAt :=
  renderFaqs_enumFrom items 0 out h

def itemsC9 : List Json :=
  [Json.obj [("name", Json.str "First?"),
             ("acceptedAnswer", Json.obj [("text", Json.str "Yes.")])],
   Json.obj [("name", Json.str ""),
             ("acceptedAnswer", Json.obj [("text", Json.str "dropped")])],
   Json.obj [("name", Json.str "Third?"),
             ("acceptedAnswer", Json.obj [("text", Json.str "Also.")])]]

/-- Witness for C9: with the middle entry blank, the emitted labels are
`Q1` and `Q3` — position-based, with a gap at 2. -/
theorem claim_C9_faq_numbering_witness :
    ["<p><strong>Q1: First?</strong><br>A1: Yes.</p>",
     "<p><strong>Q3: Third?</strong><br>A3: Also.</p>"]
      = itemsC9.enum.filterMap renderFaqAt :=
  claim_C9_faq_numbering itemsC9 _ rfl

/-! ### Claim C7: the SEO-title scenario -/

/-- The scenario table of claim C7. -/
def seoScenarioTable : Table :=
  ⟨[["Report Attribute", "Details"], ["Revenue Forecast in 2030", "USD 4.5 Billion"]]⟩

/-- Counterexample to claim C7 as stated: the claimed output
`"<filename> Size ($4.5 Billion) 2030"` is not what the extractor
returns — `re.sub(r"USD", "$", ...)` replaces only the letters `USD`,
keeping the following space, so the value reads `"$ 4.5 Billion"`. -/
theorem claim_C7_counterexample :
    extract_seo_title "Widget_Market.docx" [seoScenarioTable]
      ≠ "Widget Market Size ($4.5 Billion) 2030" := by decide

/-- Claim C7 as amended: on the scenario table the SEO title is
`"<filename> Size ($ 4.5 Billion) 2030"` (with the space of `"USD 4.5"`
preserved), and with no matching row the bare filename-derived name is
returned. -/
theorem claim_C7_seo_title_scenario :
    extract_seo_title "Widget_Market.docx" [seoScenarioTable]
      = "Widget Market Size ($ 4.5 Billion) 2030"
    ∧ extract_seo_title "Widget_Market.docx"
        [⟨[["Report Attribute", "Details"], ["Base Year", "2024"]]⟩]
      = "Widget Market" :=
  ⟨rfl, rfl⟩

/-! ## Document model: runs and paragraphs -/

/-- A `python-docx` run as the extractor reads it.  `hyperlink` models the
`w:hyperlink` ancestor: `none` = the run is not inside a hyperlink;
`some none` = inside a hyperlink whose relationship id is missing or whose
relationship lookup raises; `some (some url)` = resolved to `url`. -/
structure Run where
  text : String
  bold : Bool
  italic : Bool
  hyperlink : Option (Option String)

/-- A `python-docx` paragraph as the extractor reads it: its text, its
runs, whether `pPr.numPr` is present (`is_list_item`), the numbering
level `ilvl` when present, and whether the run carries a `w:br`. -/
structure Para where
  text : String
  runs : List Run
  isNumPr : Bool
  ilvl : Option Nat

/-! ## `runs_to_html` — claim C4

The module defines `runs_to_html` three times (lines 190, 1571, 3969);
at call time the name is bound to the LAST definition, which has no
hyperlink handling.  Both the effective binding and the shadowed first
definition are embedded. -/

/-- The parts list of the effective `runs_to_html` (line 3969): bold and
italic dispatch only, empty runs dropped. -/
def runsToHtmlParts : List Run → List String
  | [] => []
  | run :: rest =>
    let txt := remove_emojis (pyStrip run.text)
    if txt = "" then runsToHtmlParts rest
    else if run.bold && run.italic then
      ("<b><i>" ++ txt ++ "</i></b>") :: runsToHtmlParts rest
    else if run.bold then ("<b>" ++ txt ++ "</b>") :: runsToHtmlParts rest
    else if run.italic then ("<i>" ++ txt ++ "</i>") :: runsToHtmlParts rest
    else txt :: runsToHtmlParts rest

/-- `runs_to_html(runs)` — the definition in force at module level
(extractor.py lines 3969-3984). -/
def runs_to_html (runs : List Run) : String :=
  pyStrip (strJoinSep " " (runsToHtmlParts runs))

/-- The parts list of the FIRST `runs_to_html` definition (line 190),
which wraps hyperlinked runs in an anchor and falls back to the plain
text when the relationship id is missing or resolution raises. -/
def runsToHtmlV1Parts : List Run → List String
  | [] => []
  | run :: rest =>
    let txt := remove_emojis (pyStrip run.text)
    if txt = "" then runsToHtmlV1Parts rest
    else
      match run.hyperlink with
      | some (some link) =>
        ("<a href=\"" ++ link ++ "\">" ++ txt ++ "</a>") :: runsToHtmlV1Parts rest
      | some none => txt :: runsToHtmlV1Parts rest
      | none =>
        if run.bold && run.italic then
          ("<b><i>" ++ txt ++ "</i></b>") :: runsToHtmlV1Parts rest
        else if run.bold then ("<b>" ++ txt ++ "</b>") :: runsToHtmlV1Parts rest
        else if run.italic then ("<i>" ++ txt ++ "</i>") :: runsToHtmlV1Parts rest
        else txt :: runsToHtmlV1Parts rest

/-- The first `runs_to_html` definition (extractor.py lines 190-217),
shadowed at module level by the later redefinitions. -/
def runs_to_html_v1 (runs : List Run) : String :=
  pyStrip (strJoinSep " " (runsToHtmlV1Parts runs))

/-! ### Substring containment through join and strip -/

theorem foldl_join_acc_pre (sep : String) (ps : List String) :
    ∀ acc : String, acc.data <+:
      (ps.foldl (fun acc q => acc ++ sep ++ q) acc).data := by
  induction ps with
  | nil => intro acc; exact List.prefix_refl _
  | cons q qs ih =>
    intro acc
    simp only [List.foldl_cons]
    refine List.IsPrefix.trans ?_ (ih (acc ++ sep ++ q))
    rw [String.data_append, String.data_append, List.append_assoc]
    exact List.prefix_append _ _

theorem foldl_join_mem_sub (sep : String) (ps : List String) :
    ∀ acc : String, ∀ q ∈ ps, q.data <:+:
      (ps.foldl (fun acc q => acc ++ sep ++ q) acc).data := by
  induction ps with
  | nil => intro acc q hq; cases hq
  | cons r rs ih =>
    intro acc q hq
    simp only [List.foldl_cons]
    rcases List.mem_cons.mp hq with rfl | hq
    · refine List.IsInfix.trans ?_
        (foldl_join_acc_pre sep rs (acc ++ sep ++ q)).isInfix
      rw [String.data_append, String.data_append]
      exact ⟨acc.data ++ sep.data, [], by simp⟩
    · exact ih (acc ++ sep ++ r) q hq

theorem strJoinSep_mem_sub {sep : String} {ps : List String} {q : String}
    (hq : q ∈ ps) : q.data <:+: (strJoinSep sep ps).data := by
  cases ps with
  | nil => cases hq
  | cons p rest =>
    rcases List.mem_cons.mp hq with rfl | hq
    · exact (foldl_join_acc_pre sep rest q).isInfix
    · exact foldl_join_mem_sub sep rest p q hq

theorem sub_dropWhile {P : Char → Bool} {p l : List Char}
    (hp : ∀ c, p.head? = some c → P c = false) (hne : p ≠ [])
    (h : p <:+: l) : p <:+: l.dropWhile P := by
  induction l with
  | nil =>
    exact absurd (List.eq_nil_of_infix_nil h) hne
  | cons c cs ih =>
    rw [List.dropWhile]
    split
    · rename_i hc
      rcases List.infix_cons_iff.mp h with hpre | hinf
      · exfalso
        cases p with
        | nil => exact hne rfl
        | cons a as =>
          have : a = c := (List.cons_prefix_cons.mp hpre).1
          subst this
          rw [hp a rfl] at hc
          cases hc
      · exact ih hinf
    · exact h

theorem sub_lcStrip {p l : List Char}
    (hhead : ∀ c, p.head? = some c → pyIsSpace c = false)
    (hlast : ∀ c, p.getLast? = some c → pyIsSpace c = false)
    (hne : p ≠ []) (h : p <:+: l) : p <:+: lcStrip l := by
  unfold lcStrip
  have h1 : p <:+: l.dropWhile pyIsSpace := sub_dropWhile hhead hne h
  have h2 : p.reverse <:+: (l.dropWhile pyIsSpace).reverse :=
    List.reverse_infix.mpr h1
  have h3 : p.reverse <:+: ((l.dropWhile pyIsSpace).reverse.dropWhile pyIsSpace) := by
    refine sub_dropWhile ?_ (by simpa using hne) h2
    intro c hc
    rw [List.head?_reverse] at hc
    exact hlast c hc
  have h4 := List.reverse_infix.mpr h3
  simpa using h4

/-! ### Claim C4: hyperlink handling of the inline formatter -/

theorem head?_append_left {l t : List Char} {a : Char} (h : l.head? = some a) :
    (l ++ t).head? = some a := by
  cases l with
  | nil => cases h
  | cons c cs =>
    simp only [List.head?_cons, Option.some.injEq] at h
    simp [h]

theorem runsToHtmlV1Parts_tail_subset (x : Run) (rest : List Run) :
    ∀ q ∈ runsToHtmlV1Parts rest, q ∈ runsToHtmlV1Parts (x :: rest) := by
  intro q hq
  rw [runsToHtmlV1Parts]
  split
  · exact hq
  · split
    · exact List.mem_cons_of_mem _ hq
    · exact List.mem_cons_of_mem _ hq
    · split
      · exact List.mem_cons_of_mem _ hq
      · split
        · exact List.mem_cons_of_mem _ hq
        · split
          · exact List.mem_cons_of_mem _ hq
          · exact List.mem_cons_of_mem _ hq

theorem runsToHtmlV1Parts_mem_link {runs : List Run} {r : Run} {url : String}
    (hm : r ∈ runs) (ht : remove_emojis (pyStrip r.text) ≠ "")
    (hl : r.hyperlink = some (some url)) :
    ("<a href=\"" ++ url ++ "\">" ++ remove_emojis (pyStrip r.text) ++ "</a>")
      ∈ runsToHtmlV1Parts runs := by
  induction runs with
  | nil => cases hm
  | cons x rest ih =>
    rcases List.mem_cons.mp hm with rfl | hm
    · rw [runsToHtmlV1Parts]
      rw [if_neg ht, hl]
      exact List.mem_cons_self _ _
    · exact runsToHtmlV1Parts_tail_subset x rest _ (ih hm)

theorem runsToHtmlV1Parts_mem_failed {runs : List Run} {r : Run}
    (hm : r ∈ runs) (ht : remove_emojis (pyStrip r.text) ≠ "")
    (hl : r.hyperlink = some none) :
    remove_emojis (pyStrip r.text) ∈ runsToHtmlV1Parts runs := by
  induction runs with
  | nil => cases hm
  | cons x rest ih =>
    rcases List.mem_cons.mp hm with rfl | hm
    · rw [runsToHtmlV1Parts]
      rw [if_neg ht, hl]
      exact List.mem_cons_self _ _
    · exact runsToHtmlV1Parts_tail_subset x rest _ (ih hm)

/-- Claim C4 as amended: in the FIRST definition of `runs_to_html`
(line 190), a run lying inside a hyperlink relationship is emitted
wrapped in an anchor whose href is the resolved target, and when
resolution fails its plain text is emitted (no exception). -/
theorem claim_C4_runs_to_html_v1_hyperlink (runs : List Run) (r : Run)
    (hmem : r ∈ runs) (htxt : remove_emojis (pyStrip r.text) ≠ "") :
    (∀ url, r.hyperlink = some (some url) →
      lcContains
        ("<a href=\"" ++ url ++ "\">" ++ remove_emojis (pyStrip r.text) ++ "</a>").data
        (runs_to_html_v1 runs).data = true)
    ∧ (r.hyperlink = some none →
      (∀ c, (remove_emojis (pyStrip r.text)).data.head? = some c →
        pyIsSpace c = false) →
      (∀ c, (remove_emojis (pyStrip r.text)).data.getLast? = some c →
        pyIsSpace c = false) →
      lcContains (remove_emojis (pyStrip r.text)).data
        (runs_to_html_v1 runs).data = true) := by
  constructor
  · intro url hl
    rw [lcContains_iff]
    have hmemp := runsToHtmlV1Parts_mem_link hmem htxt hl
    have hjoin := @strJoinSep_mem_sub " " _ _ hmemp
    have hh : ("<a href=\"" ++ url ++ "\">" ++ remove_emojis (pyStrip r.text)
        ++ "</a>").data.head? = some '<' := by
      rw [String.data_append, String.data_append, String.data_append]
      exact head?_append_left (head?_append_left (head?_append_left rfl))
    have hg : ("<a href=\"" ++ url ++ "\">" ++ remove_emojis (pyStrip r.text)
        ++ "</a>").data.getLast? = some '>' := by
      rw [String.data_append, List.getLast?_append_of_ne_nil _ (by decide)]
      rfl
    show _ <:+: lcStrip (strJoinSep " " (runsToHtmlV1Parts runs)).data
    refine sub_lcStrip ?_ ?_ ?_ hjoin
    · intro c hc
      rw [hh] at hc
      cases hc
      rfl
    · intro c hc
      rw [hg] at hc
      cases hc
      rfl
    · intro hnil
      rw [hnil] at hh
      cases hh
  · intro hl hhead hlast
    rw [lcContains_iff]
    have hmemp := runsToHtmlV1Parts_mem_failed hmem htxt hl
    have hjoin := @strJoinSep_mem_sub " " _ _ hmemp
    show _ <:+: lcStrip (strJoinSep " " (runsToHtmlV1Parts runs)).data
    refine sub_lcStrip hhead hlast ?_ hjoin
    intro hnil
    exact htxt (congrArg String.mk hnil)

/-- Witness for the amended C4 at concrete runs. -/
theorem claim_C4_runs_to_html_v1_hyperlink_witness :
    lcContains
      ("<a href=\"https://example.com/r\">Visit</a>" : String).data
      (runs_to_html_v1
        [⟨"Intro ", false, false, none⟩,
         ⟨"Visit", false, false, some (some "https://example.com/r")⟩]).data = true :=
  ((claim_C4_runs_to_html_v1_hyperlink
      [⟨"Intro ", false, false, none⟩,
       ⟨"Visit", false, false, some (some "https://example.com/r")⟩]
      ⟨"Visit", false, false, some (some "https://example.com/r")⟩
      (List.mem_cons_of_mem _ (List.mem_cons_self _ _)) (by decide)).1
    "https://example.com/r" rfl)

/-- Counterexample to claim C4 as stated: the `runs_to_html` binding in
force at module level (the line-3969 redefinition) ignores hyperlink
relationships entirely — a resolved hyperlink run is emitted as plain
text with no anchor tag. -/
theorem claim_C4_counterexample :
    runs_to_html [⟨"Visit the site", false, false,
        some (some "https://example.com/report")⟩] = "Visit the site"
    ∧ strContains (runs_to_html [⟨"Visit the site", false, false,
        some (some "https://example.com/report")⟩]) "<a" = false :=
  ⟨rfl, by decide⟩

/-! ## `extract_toc` (extractor.py lines 296-1027) — claim C1 -/

/-- `is_list_item(para)`: whether `pPr.numPr` is present. -/
def is_list_item (p : Para) : Bool := p.isNumPr

/-- The bullet-like characters checked by `determine_toc_logic`
(includes `-` and `+`). -/
def detBulletChars : List Char :=
  ['•', '-', '–', '○', '◦', '‣', '▪', '▫', '*', '+']

/-- The bullet-like characters checked inside `extract_toc`'s three
logics (no plain hyphen). -/
def tocBulletChars : List Char :=
  ['•', '–', '○', '◦', '‣', '▪', '▫', '*', '+']

/-- `re.match(r'^\d+[\.\)]', text)`: digits followed by a dot or a
closing parenthesis. -/
def hasNumberingPrefix (l : List Char) : Bool :=
  !(l.takeWhile isAsciiDigit).isEmpty &&
  (match l.dropWhile isAsciiDigit with
   | '.' :: _ => true
   | ')' :: _ => true
   | _ => false)

/-- Logic 3's numbering test:
`re.match(r'^\d+[\.]\)') or re.match(r'^\d+[\.)]')`. -/
def hasNumbering3 (l : List Char) : Bool :=
  (!(l.takeWhile isAsciiDigit).isEmpty &&
    (match l.dropWhile isAsciiDigit with
     | '.' :: ')' :: _ => true
     | _ => false)) || hasNumberingPrefix l

/-- The list-membership test of `determine_toc_logic`. -/
def detInList (p : Para) (text : String) : Bool :=
  is_list_item p || detBulletChars.any (fun ch => lcContains [ch] text.data) ||
    hasNumberingPrefix text.data

/-- The bold test used throughout the TOC logic: a bold run with
non-blank text, or literal `<strong>`/`<b>` markup in the text. -/
def boldRunOrTag (p : Para) (text : String) : Bool :=
  (p.runs.any fun r => r.bold && pyStrip r.text ≠ "") ||
    strContains text "<strong>" || strContains text "<b>"

/-- `is_bold_text(para)` of `extract_toc`: `False` outright when the
paragraph has no runs (the markup check is then unreachable). -/
def is_bold_text (p : Para) : Bool :=
  if p.runs.isEmpty then false
  else boldRunOrTag p (pyStrip p.text)

/-- The scan state of `determine_toc_logic`. -/
structure DetState where
  execBold : Bool
  execInList : Bool
  firstBold : Bool
  firstInList : Bool
  paraCount : Nat
  foundExec : Bool

def detStep (st : DetState) (p : Para) : DetState :=
  let text := pyStrip p.text
  if text = "" then st
  else if strContains text "Executive Summary" then
    { st with
      foundExec := true
      execBold := boldRunOrTag p text
      execInList := detInList p text }
  else if !st.foundExec then st
  else
    let isBold := boldRunOrTag p text
    let isInList := detInList p text
    let st := { st with paraCount := st.paraCount + 1 }
    if st.paraCount = 1 then
      { st with firstBold := isBold, firstInList := isInList }
    else st

/-- `determine_toc_logic(doc)`. -/
def determine_toc_logic (paras : List Para) : Nat :=
  let st := paras.foldl detStep ⟨false, false, false, false, 0, false⟩
  if st.paraCount ≥ 1 then
    if st.execBold && st.execInList && st.firstInList && !st.firstBold then 2
    else if st.execBold && st.firstInList && !st.firstBold then 1
    else if st.execBold && st.firstInList && st.firstBold then 3
    else if st.execBold && st.firstBold && !st.firstInList then 3
    else 1
  else 1

/-- The greedy-with-backtracking tail of
`re.sub(r'^\d+(\.\d+)*[\.\)]\s*', '', ·)` after the initial digits:
consume as many `.digits` groups as possible, backing off until a final
`.` or `)` can be consumed.  Structured on fuel so it evaluates in the
kernel. -/
def numPrefixTail : Nat → List Char → Option (List Char)
  | 0, _ => none
  | fuel + 1, rest =>
    let finishHere : Option (List Char) :=
      match rest with
      | '.' :: r2 => some r2
      | ')' :: r2 => some r2
      | _ => none
    match rest with
    | '.' :: r2 =>
      if !(r2.takeWhile isAsciiDigit).isEmpty then
        match numPrefixTail fuel (r2.dropWhile isAsciiDigit) with
        | some out => some out
        | none => finishHere
      else finishHere
    | _ => finishHere

/-- `re.sub(r'^\d+(\.\d+)*[\.\)]\s*', '', ·)`. -/
def stripNumPrefix (l : List Char) : List Char :=
  if (l.takeWhile isAsciiDigit).isEmpty then l
  else
    match numPrefixTail (l.length + 1) (l.dropWhile isAsciiDigit) with
    | some rest => rest.dropWhile pyIsSpace
    | none => l

/-- `re.sub(r'^[•\-–]\s*', '', ·)`. -/
def stripBulletPrefix : List Char → List Char
  | [] => []
  | c :: rest =>
    if c = '•' || c = '-' || c = '–' then rest.dropWhile pyIsSpace
    else c :: rest

/-- `clean_heading(text)` of `extract_toc`. -/
def clean_heading (text : String) : String :=
  let t := remove_emojis (pyStrip text)
  let t := stripNumPrefix t.data
  let t := stripBulletPrefix t
  pyStrip ⟨lcCollapseWs t⟩

/-- `get_list_style_type(para, text)` (the paragraph argument is never
read). -/
def get_list_style_type (text : String) : String :=
  if strContains text "•" || strContains text "*" then "bullet"
  else if strContains text "○" || strContains text "◦" then "circle"
  else if strContains text "–" || strContains text "—" then "dash"
  else if hasNumberingPrefix text.data then "number"
  else if strContains text "▪" || strContains text "▫" then "square"
  else "bullet"

def main_level_patterns : List String :=
  ["Benchmarking of Market Leaders",
   "Recent Product Developments and Approvals",
   "Strategic Collaborations and M&A",
   "Market Share Analysis",
   "Competitive Strategies"]

/-- `is_main_level_item(para, text, parent_list_style)` (the paragraph
argument is only passed to `get_list_style_type`, which ignores it). -/
def is_main_level_item (text : String) (parentListStyle : Option String) : Bool :=
  let currentStyle := get_list_style_type text
  match parentListStyle with
  | none => true
  | some pls =>
    if currentStyle ≠ pls then true
    else if (strContains text "<b>" || strContains text "<strong>") &&
        !(strEndsWith (pyStrip text) ":") then true
    else main_level_patterns.any (fun pat => strContains text pat)

/-- The mutable scan state of `extract_toc`'s paragraph loop.
`formattedContent` models the Python local `formatted_content`, which on
some paths is read before the current iteration assigns it (`none` =
never assigned so far; reading it then raises `NameError`). -/
structure TocState where
  output : List String
  capture : Bool
  insideList : Bool
  listDepth : Nat
  parentListStyle : Option String
  currentListStyle : Option String
  formattedContent : Option String

def initTocState : TocState := ⟨[], false, false, 0, none, none, none⟩

/-- `"List of Figures" in "\n".join(html_output[-10:])`. -/
def lastTenHasLoF (output : List String) : Bool :=
  strContains (strJoinSep "\n" (listLastN 10 output)) "List of Figures"

/-- Close all currently open lists (`for _ in range(list_depth):
append "</ul>"`). -/
def tocCloseAll (st : TocState) : TocState :=
  { st with
    output := st.output ++ List.replicate st.listDepth "</ul>"
    insideList := false, listDepth := 0 }

/-- The colon-parent test `":" in fc and fc.strip().endswith(":")`. -/
def colonParent (fc : String) : Bool :=
  strContains fc ":" && strEndsWith (pyStrip fc) ":"

/-- The list-style detection shared by logics 1 and 2. -/
def listStyleOf (text : String) (hasBulletChars hasNumbering : Bool) : String :=
  if hasBulletChars then
    (if strContains text "•" || strContains text "*" then "bullet"
     else if strContains text "○" || strContains text "◦" then "circle"
     else if strContains text "–" then "dash"
     else "bullet")
  else if hasNumbering then "number"
  else "bullet"

/-- One paragraph of LOGIC 1 (extractor.py lines 509-684). -/
def tocLogic1Step (st : TocState) (p : Para) (text : String) (isBold : Bool) :
    Option TocState :=
  let isWordListItem := is_list_item p
  let hasBulletChars := tocBulletChars.any (fun ch => lcContains [ch] text.data)
  let hasNumbering := hasNumberingPrefix text.data
  let isNestedList := isWordListItem || hasBulletChars || hasNumbering
  if isBold then
    let isInList := hasBulletChars || hasNumbering || isWordListItem
    if isInList then
      let fc := runs_to_html_v1 p.runs
      if colonParent fc && !lastTenHasLoF st.output then
        let st := if st.insideList then tocCloseAll st else st
        some { st with
          output := st.output ++
            ["<ul>", "<li><p><strong>" ++ fc ++ "</strong></p>", "<ul>"]
          insideList := true, listDepth := 2, formattedContent := some fc }
      else
        let st := if !st.insideList then
            { st with
              output := st.output ++ ["<ul>"], insideList := true
              listDepth := 1 }
          else st
        some { st with
          output := st.output ++ ["<li><p>" ++ fc ++ "</p></li>"]
          formattedContent := some fc }
    else
      let st := if st.insideList then tocCloseAll st else st
      let ht := clean_heading text
      if ht ≠ "" then
        let ht := strReplace (strReplace ht "<b>" "") "</b>" ""
        some { st with output := st.output ++ ["\n<strong>" ++ ht ++ "</strong>"] }
      else some st
  else
    if isNestedList then
      let fc := runs_to_html_v1 p.runs
      let cls := listStyleOf text hasBulletChars hasNumbering
      if colonParent fc && !lastTenHasLoF st.output then
        let st := if st.insideList then tocCloseAll st else st
        some { st with
          output := st.output ++
            ["<ul>", "<li><p><strong>" ++ fc ++ "</strong></p>", "<ul>"]
          insideList := true, listDepth := 2, parentListStyle := some cls
          currentListStyle := some cls, formattedContent := some fc }
      else
        if strContains fc "Strategy Analysis:" then
          let st := if st.insideList && st.listDepth > 1 then
              { st with
                output := st.output ++ ["</ul>", "</li>", "</ul>"]
                insideList := false, listDepth := 0 }
            else st
          let st := if !st.insideList then
              { st with
                output := st.output ++ ["<ul>"], insideList := true
                listDepth := 1 }
            else st
          some { st with
            output := st.output ++ ["<li><p>" ++ fc ++ "</p></li>"]
            currentListStyle := some cls, formattedContent := some fc }
        else
          let shouldMain := is_main_level_item fc st.parentListStyle
          let st := if shouldMain && st.insideList && st.listDepth > 1 then
              { st with
                output := st.output ++ ["</ul>", "</li>"]
                listDepth := 1, parentListStyle := some cls }
            else st
          let st := if !st.insideList then
              { st with
                output := st.output ++ ["<ul>"], insideList := true
                listDepth := 1, parentListStyle := some cls }
            else st
          some { st with
            output := st.output ++ ["<li><p>" ++ fc ++ "</p></li>"]
            currentListStyle := some cls, formattedContent := some fc }
    else
      match st.formattedContent with
      | none => none
      | some fcStale =>
        if colonParent fcStale then
          let st := if st.insideList then tocCloseAll st else st
          some { st with
            output := st.output ++
              ["<ul>", "<li><p><strong>" ++ fcStale ++ "</strong></p>", "<ul>"]
            insideList := true, listDepth := 2 }
        else
          let st := if st.insideList then tocCloseAll st else st
          let fc := runs_to_html_v1 p.runs
          if fc ≠ "" then
            some { st with
              output := st.output ++ ["<p>" ++ fc ++ "</p>"]
              formattedContent := some fc }
          else some { st with formattedContent := some fc }

/-- One paragraph of LOGIC 2 (extractor.py lines 686-825). -/
def tocLogic2Step (st : TocState) (p : Para) (text : String) (isBold : Bool) :
    Option TocState :=
  if isBold then
    let st := if st.insideList then tocCloseAll st else st
    let ht := clean_heading text
    if ht ≠ "" then
      let ht := strReplace (strReplace ht "<b>" "") "</b>" ""
      some { st with output := st.output ++ ["\n<strong>" ++ ht ++ "</strong>"] }
    else some st
  else
    let isWordListItem := is_list_item p
    let hasBulletChars := tocBulletChars.any (fun ch => lcContains [ch] text.data)
    let hasNumbering := hasNumberingPrefix text.data
    let isNestedList := isWordListItem || hasBulletChars || hasNumbering
    if isNestedList then
      let fc := runs_to_html_v1 p.runs
      let cls := listStyleOf text hasBulletChars hasNumbering
      if (colonParent fc || strContains fc "Leading Companies") &&
          !lastTenHasLoF st.output then
        let st := if st.insideList then tocCloseAll st else st
        some { st with
               output := st.output ++
                 ["<ul>", "<li><p><strong>" ++ fc ++ "</strong></p>", "<ul>"]
               insideList := true
               listDepth := 2
               parentListStyle := some cls
               currentListStyle := some cls
               formattedContent := some fc }
      else
        if strContains fc "Strategy Analysis:" ||
            strContains fc "Market Share by Key Players" ||
            strContains fc "Competitive Strategies and Positioning" then
          let st := if st.insideList && st.listDepth > 1 then
              { st with
                output := st.output ++ ["</ul>", "</li>", "</ul>"]
                insideList := false
                listDepth := 0 }
            else st
          let st := if !st.insideList then
              { st with
                output := st.output ++ ["<ul>"]
                insideList := true
                listDepth := 1 }
            else st
          some { st with
                 output := st.output ++ ["<li><p>" ++ fc ++ "</p></li>"]
                 currentListStyle := some cls
                 formattedContent := some fc }
        else
          let shouldMain := is_main_level_item fc st.parentListStyle
          let st := if shouldMain && st.insideList && st.listDepth > 1 then
              { st with
                output := st.output ++ ["</ul>", "</li>"]
                listDepth := 1
                parentListStyle := some cls }
            else st
          let st := if !st.insideList then
              { st with
                output := st.output ++ ["<ul>"]
                insideList := true
                listDepth := 1
                parentListStyle := some cls }
            else st
          some { st with
                 output := st.output ++ ["<li><p>" ++ fc ++ "</p></li>"]
                 currentListStyle := some cls
                 formattedContent := some fc }
    else
      match st.formattedContent with
      | none => none
      | some fcStale =>
        if colonParent fcStale then
          let st := if st.insideList then tocCloseAll st else st
          some { st with
                 output := st.output ++
                   ["<ul>", "<li><p><strong>" ++ fcStale ++ "</strong></p>", "<ul>"]
                 insideList := true
                 listDepth := 2 }
        else
          let st := if st.insideList then tocCloseAll st else st
          let fc := runs_to_html_v1 p.runs
          if fc ≠ "" then
            some { st with
                   output := st.output ++ ["<p>" ++ fc ++ "</p>"]
                   formattedContent := some fc }
          else some { st with formattedContent := some fc }

/-- One paragraph of LOGIC 3 (extractor.py lines 827-1020).
`formatted_content` is assigned unconditionally at the top, so no
stale read can occur here; `current_list_style` is never assigned in
this logic, so `parent_list_style := current_list_style` copies
whatever earlier value the loop variable holds. -/
def tocLogic3Step (st : TocState) (p : Para) (text : String) (isBold : Bool) :
    Option TocState :=
  let fc0 := runs_to_html_v1 p.runs
  let isWordListItem := is_list_item p
  let hasBulletChars := tocBulletChars.any (fun ch => lcContains [ch] text.data)
  let hasNumbering := hasNumbering3 text.data
  let isListItemDetected := isWordListItem || hasBulletChars || hasNumbering
  let st := { st with formattedContent := some fc0 }
  if isBold && strContains text "•" then
    let st := if st.insideList then tocCloseAll st else st
    match (strSplitChar text '•').map pyStrip |>.filter (· ≠ "") with
    | [] => some st
    | p0 :: bullets =>
      let ht := clean_heading p0
      let st := if ht ≠ "" then
          { st with output := st.output ++ ["\n<strong>" ++ ht ++ "</strong>"] }
        else st
      if bullets ≠ [] then
        let items := bullets.filterMap (fun item =>
          let ic := pyStrip (remove_emojis item)
          if ic ≠ "" then some ("<li><p>" ++ ic ++ "</p></li>") else none)
        some { st with output := st.output ++ ["<ul>"] ++ items ++ ["</ul>"] }
      else some st
  else
  if isListItemDetected then
    let fc := strReplace (strReplace (strReplace (strReplace fc0
      "<b>" "") "</b>" "") "<strong>" "") "</strong>" ""
    let st := { st with formattedContent := some fc }
    let isParent :=
      (colonParent fc ||
        (strContains fc "Psychiatric Digital Biomarkers Market Analysis" &&
          (strContains fc "North America" || strContains fc "Europe" ||
           strContains fc "Asia-Pacific" || strContains fc "Latin America" ||
           strContains fc "Middle East"))) && !lastTenHasLoF st.output
    if isParent then
      let st := if st.insideList then tocCloseAll st else st
      some { st with
             output := st.output ++
               ["<ul>", "<li><p><strong>" ++ fc ++ "</strong></p>", "<ul>"]
             insideList := true
             listDepth := 2
             parentListStyle := st.currentListStyle }
    else
      let isGrandChild := colonParent fc && !lastTenHasLoF st.output
      if isGrandChild then
        if st.insideList && st.listDepth > 1 then
          some { st with
                 output := st.output ++
                   ["<li><p><strong>" ++ fc ++ "</strong></p>", "<ul>"]
                 listDepth := 3 }
        else
          let st := if !st.insideList then
              { st with
                output := st.output ++ ["<ul>"]
                insideList := true
                listDepth := 1 }
            else st
          some { st with output := st.output ++ ["<li><p>" ++ fc ++ "</p></li>"] }
      else if strContains fc "Country-Level Breakdown:" then
        let st := if !st.insideList then
            { st with
              output := st.output ++ ["<ul>"]
              insideList := true
              listDepth := 1 }
          else st
        some { st with
               output := st.output ++
                 ["<li><p><strong>" ++ fc ++ "</strong></p>", "<ul>"]
               listDepth := 2 }
      else
        let shouldMain := is_main_level_item fc st.parentListStyle
        let st := if shouldMain && st.insideList && st.listDepth > 1 then
            { st with
              output := st.output ++ ["</ul>", "</li>"]
              listDepth := 1
              parentListStyle := st.currentListStyle }
          else st
        let st := if !st.insideList then
            { st with
              output := st.output ++ ["<ul>"]
              insideList := true
              listDepth := 1
              parentListStyle := st.currentListStyle }
          else st
        some { st with output := st.output ++ ["<li><p>" ++ fc ++ "</p></li>"] }
  else if isBold then
    let st := if st.insideList then tocCloseAll st else st
    let ht := clean_heading text
    if ht ≠ "" then
      some { st with output := st.output ++ ["\n<strong>" ++ ht ++ "</strong>"] }
    else some st
  else if colonParent fc0 && !strContains fc0 "Country-Level Breakdown:" then
    let st := if st.insideList then tocCloseAll st else st
    some { st with
           output := st.output ++
             ["<ul>", "<li><p><strong>" ++ fc0 ++ "</strong></p>", "<ul>"]
           insideList := true
           listDepth := 2 }
  else
    let st := if st.insideList then tocCloseAll st else st
    if fc0 ≠ "" then
      some { st with output := st.output ++ ["<p>" ++ fc0 ++ "</p>"] }
    else some st

/-- One iteration of `extract_toc`'s paragraph loop. -/
def tocParaStep (logicType : Nat) (st : TocState) (p : Para) : Option TocState :=
  let text := pyStrip p.text
  if text = "" then some st
  else
    let isBold := is_bold_text p
    if !st.capture && strContains text "Executive Summary" then
      let st := { st with capture := true }
      if isBold then
        let headingText := clean_heading text
        if strContains text "•" then
          match (strSplitChar text '•').map pyStrip |>.filter (· ≠ "") with
          | [] => some st
          | p0 :: bullets =>
            let st :=
              { st with output := st.output ++
                  ["\n<strong>" ++ clean_heading p0 ++ "</strong>"] }
            if bullets ≠ [] then
              let items := bullets.filterMap (fun item =>
                let ic := pyStrip (remove_emojis item)
                if ic ≠ "" then some ("<li><p>" ++ ic ++ "</p></li>") else none)
              some { st with output := st.output ++ ["<ul>"] ++ items ++ ["</ul>"] }
            else some st
        else
          if headingText ≠ "" then
            let headingText :=
              strReplace (strReplace headingText "<b>" "") "</b>" ""
            some { st with output := st.output ++
                ["\n<strong>" ++ headingText ++ "</strong>"] }
          else some st
      else some st
    else if st.capture then
      if logicType = 1 then tocLogic1Step st p text isBold
      else if logicType = 2 then tocLogic2Step st p text isBold
      else if logicType = 3 then tocLogic3Step st p text isBold
      else some st
    else some st

/-- `extract_toc(doc)`: dispatch on `determine_toc_logic`, fold the
paragraph loop, close any lists left open, and join on newlines.
`none` models the `NameError` raised when a logic-1/2 branch reads
`formatted_content` before any iteration assigned it. -/
def extract_toc (paras : List Para) : Option String :=
  let logicType := determine_toc_logic paras
  match paras.foldlM (tocParaStep logicType) initTocState with
  | none => none
  | some st =>
    let st := if st.insideList then
        { st with output := st.output ++ List.replicate st.listDepth "</ul>" }
      else st
    some (strJoinSep "\n" st.output)

/-- A logic-3 document: bold "Executive Summary", a bold numbered first
item, then a numbered parent heading and a "Country-Level Breakdown:"
child item. -/
def tocDocC1 : List Para :=
  [⟨"Executive Summary", [⟨"Executive Summary", true, false, none⟩], false, none⟩,
   ⟨"Market Introduction", [⟨"Market Introduction", true, false, none⟩], true, none⟩,
   ⟨"Regional Analysis:", [⟨"Regional Analysis:", false, false, none⟩], true, none⟩,
   ⟨"Country-Level Breakdown: US and Canada",
     [⟨"Country-Level Breakdown: US and Canada", false, false, none⟩], true, none⟩]

set_option maxRecDepth 4096 in
/-- C1: refuted.  `extract_toc` is claimed to emit balanced lists
(`"<ul>"` count = `"</ul>"` count) on every document.  On `tocDocC1`
the "Country-Level Breakdown:" branch (lines 946-956) appends a
`<li><p><strong>…</strong></p>` plus an extra `"<ul>"` while resetting
`list_depth` to 2 even though two levels were already open, so the
end-of-document close loop emits only two `"</ul>"`: the output opens
four lists and closes three. -/
theorem claim_C1_toc_list_balance :
    extract_toc tocDocC1 =
      some ("\n<strong>Executive Summary</strong>\n<ul>\n<li><p>Market Introduction</p></li>\n</ul>\n<ul>\n<li><p><strong>Regional Analysis:</strong></p>\n<ul>\n<li><p><strong>Country-Level Breakdown: US and Canada</strong></p>\n<ul>\n</ul>\n</ul>") ∧
    (extract_toc tocDocC1).map
        (fun out => (strCount out "<ul>", strCount out "</ul>")) =
      some (4, 3) := by
  constructor
  · rfl
  · rfl

/-! ## `extract_title` (extractor.py lines 62-131, 1468-1543, 1592-3226)
— claims C2, C3, C6

The title extractor only reads paragraph texts, table cell texts and the
filename, so it is embedded over `(docxPath, paragraphs, tables)`.  Its
regular expressions are translated into token lists interpreted by a
small fuel-indexed matcher with the same lazy/greedy backtracking
order. -/

/-- Strip a case-insensitive literal (already lower-case) from the
front. -/
def ciStripLit : List Char → List Char → Option (List Char)
  | [], l => some l
  | p :: ps, c :: cs => if p = pyLowerChar c then ciStripLit ps cs else none
  | _ :: _, [] => none

/-- One token of a translated regular expression. -/
inductive RTok where
  | lit : String → RTok
  | litCS : String → RTok
  | ws1 : RTok
  | wsStar : RTok
  | lazyAny : RTok
  | lazyNoDot : RTok
  | year : RTok
  | cls1 : (Char → Bool) → RTok
  | clsStar : (Char → Bool) → RTok
  | clsPlus : (Char → Bool) → RTok
  | opt : List RTok → RTok
  | starGreedy : List RTok → RTok
  | alt : List (List RTok) → RTok
  | eos : RTok

mutual

/-- Anchored token-list matching with the regex backtracking order:
literals and classes are deterministic, `\s+`/`\s*`/class stars munch
maximally (every use is followed by a token that cannot start with a
class character), optionals and greedy stars try the longer parse
first, lazy wildcards try the shorter skip first, alternatives are
tried in order.  Returns the remainder after the match. -/
def rtMatch : Nat → List RTok → List Char → Option (List Char)
  | 0, _, _ => none
  | _ + 1, [], l => some l
  | fuel + 1, t :: ts, l =>
    match t with
    | .lit s =>
      match ciStripLit s.data l with
      | some l2 => rtMatch fuel ts l2
      | none => none
    | .litCS s =>
      if lcIsPrefixOf s.data l then rtMatch fuel ts (l.drop s.data.length)
      else none
    | .ws1 =>
      if (l.takeWhile pyIsSpace).isEmpty then none
      else rtMatch fuel ts (l.dropWhile pyIsSpace)
    | .wsStar => rtMatch fuel ts (l.dropWhile pyIsSpace)
    | .lazyAny => rtSkip fuel (fun _ => true) ts l
    | .lazyNoDot => rtSkip fuel (fun c => c ≠ '.') ts l
    | .year =>
      match l with
      | '2' :: '0' :: a :: b :: r =>
        if isAsciiDigit a && isAsciiDigit b then rtMatch fuel ts r else none
      | _ => none
    | .cls1 p =>
      match l with
      | c :: r => if p c then rtMatch fuel ts r else none
      | [] => none
    | .clsStar p => rtMatch fuel ts (l.dropWhile p)
    | .clsPlus p =>
      if (l.takeWhile p).isEmpty then none
      else rtMatch fuel ts (l.dropWhile p)
    | .opt g =>
      match rtMatch fuel (g ++ ts) l with
      | some r => some r
      | none => rtMatch fuel ts l
    | .starGreedy g =>
      match rtMatch fuel (g ++ RTok.starGreedy g :: ts) l with
      | some r => some r
      | none => rtMatch fuel ts l
    | .alt gs => rtAlt fuel gs ts l
    | .eos => match l with
      | [] => rtMatch fuel ts []
      | _ :: _ => none

/-- Lazy wildcard: try the continuation, else skip one admissible
character. -/
def rtSkip : Nat → (Char → Bool) → List RTok → List Char → Option (List Char)
  | 0, _, _, _ => none
  | fuel + 1, p, ts, l =>
    match rtMatch fuel ts l with
    | some r => some r
    | none =>
      match l with
      | c :: cs => if p c then rtSkip fuel p ts cs else none
      | [] => none

/-- Ordered alternatives, each continuing with the rest of the
pattern. -/
def rtAlt : Nat → List (List RTok) → List RTok → List Char → Option (List Char)
  | 0, _, _, _ => none
  | _ + 1, [], _, _ => none
  | fuel + 1, g :: gs, ts, l =>
    match rtMatch fuel (g ++ ts) l with
    | some r => some r
    | none => rtAlt fuel gs ts l
end

/-- Generous fuel for the token matcher: the scanner only ever descends
as deep as the actual backtracking search, the bound is never reached on
the pattern/text shapes of this module. -/
def rtFuelFor (l : List Char) : Nat :=
  let n := l.length + 8
  n * n * n * n + 1000

/-- Anchored match test. -/
def rtMatches (ts : List RTok) (l : List Char) : Bool :=
  (rtMatch (rtFuelFor l) ts l).isSome

/-- `re.search`: try the pattern at each start position left to right;
returns the start index and the remainder after the match. -/
def rtSearchAux : Nat → Nat → List RTok → List Char → Option (Nat × List Char)
  | 0, _, _, _ => none
  | fuel + 1, idx, ts, l =>
    match rtMatch (rtFuelFor l) ts l with
    | some r => some (idx, r)
    | none =>
      match l with
      | _ :: cs => rtSearchAux fuel (idx + 1) ts cs
      | [] => none

def rtSearch (ts : List RTok) (l : List Char) : Option (Nat × List Char) :=
  rtSearchAux (l.length + 1) 0 ts l

def rtSearches (ts : List RTok) (l : List Char) : Bool :=
  (rtSearch ts l).isSome

/-- End index (exclusive) of the first match of `ts` in `l`. -/
def rtSearchEnd (ts : List RTok) (l : List Char) : Option Nat :=
  match rtSearch ts l with
  | some (_, rem) => some (l.length - rem.length)
  | none => none

/-- `str.split()` with no argument: split on whitespace runs, dropping
empty pieces. -/
def splitWsAux : Nat → List Char → List String
  | 0, _ => []
  | fuel + 1, l =>
    let l1 := l.dropWhile pyIsSpace
    if l1.isEmpty then []
    else
      (⟨l1.takeWhile (fun c => !pyIsSpace c)⟩ : String) ::
        splitWsAux fuel (l1.dropWhile (fun c => !pyIsSpace c))

def pySplitWs (s : String) : List String := splitWsAux (s.data.length + 1) s.data

/-- `len(re.findall(r"\bby\s+\w", low))`: count of word-boundary "by"
followed by whitespace and a word character (inputs are already
lower-cased at every call site). -/
def byCountAux : Nat → Bool → List Char → Nat
  | 0, _, _ => 0
  | _ + 1, _, [] => 0
  | fuel + 1, prevW, c :: cs =>
    if !prevW && c = 'b' then
      match cs with
      | 'y' :: rest =>
        if !(rest.takeWhile pyIsSpace).isEmpty then
          match rest.dropWhile pyIsSpace with
          | d :: ds =>
            if pyIsWord d then 1 + byCountAux fuel true ds
            else byCountAux fuel (pyIsWord c) cs
          | [] => byCountAux fuel (pyIsWord c) cs
        else byCountAux fuel (pyIsWord c) cs
      | _ => byCountAux fuel (pyIsWord c) cs
    else byCountAux fuel (pyIsWord c) cs

def byCount (s : String) : Nat := byCountAux (s.data.length + 1) false s.data

/-- `20\d{2}` at the head of the list. -/
def yearAt : List Char → Bool
  | '2' :: '0' :: a :: b :: _ => isAsciiDigit a && isAsciiDigit b
  | _ => false

/-- `20\d{2}\s*[\-–]\s*20\d{2}` anchored; returns the remainder. -/
def matchYearRangeAt : List Char → Option (List Char)
  | '2' :: '0' :: a :: b :: rest =>
    if isAsciiDigit a && isAsciiDigit b then
      match rest.dropWhile pyIsSpace with
      | c :: r2 =>
        if c = '-' || c = '–' then
          match r2.dropWhile pyIsSpace with
          | '2' :: '0' :: e :: f :: r4 =>
            if isAsciiDigit e && isAsciiDigit f then some r4 else none
          | _ => none
        else none
      | [] => none
    else none
  | _ => none

def searchYearRangeEndAux : Nat → Nat → List Char → Option Nat
  | 0, _, _ => none
  | _ + 1, _, [] => none
  | fuel + 1, idx, c :: cs =>
    match matchYearRangeAt (c :: cs) with
    | some rem => some (idx + ((c :: cs).length - rem.length))
    | none => searchYearRangeEndAux fuel (idx + 1) cs

/-- End index of the first `20\d{2}\s*[\-–]\s*20\d{2}` match. -/
def searchYearRangeEnd (l : List Char) : Option Nat :=
  searchYearRangeEndAux (l.length + 1) 0 l

/-- `_year_range_present` (line 80). -/
def strHasYearRange (s : String) : Bool := (searchYearRangeEnd s.data).isSome

/-- Index of the first `20\d{2}` occurrence. -/
def findYearStartAux : Nat → Nat → List Char → Option Nat
  | 0, _, _ => none
  | _ + 1, _, [] => none
  | fuel + 1, idx, c :: cs =>
    if yearAt (c :: cs) then some idx
    else findYearStartAux fuel (idx + 1) cs

def findYearStart (l : List Char) : Option Nat :=
  findYearStartAux (l.length + 1) 0 l

/-- End index (exclusive) of `re.search(r'20\d{2}.*?20\d{2}', ·)`:
earliest start with a second year after it, lazily extended
(`.` may match anything here as each use collapses whitespace first or
sets DOTALL). -/
def searchYearPairEndAux : Nat → Nat → List Char → Option Nat
  | 0, _, _ => none
  | _ + 1, _, [] => none
  | fuel + 1, idx, c :: cs =>
    if yearAt (c :: cs) then
      match findYearStart ((c :: cs).drop 4) with
      | some k => some (idx + 4 + k + 4)
      | none => searchYearPairEndAux fuel (idx + 1) cs
    else searchYearPairEndAux fuel (idx + 1) cs

def searchYearPairEnd (l : List Char) : Option Nat :=
  searchYearPairEndAux (l.length + 1) 0 l

/-- Python `str.title()` on ASCII letters: the first letter of each
letter run is upper-cased, the rest lower-cased. -/
def pyTitleAux : Bool → List Char → List Char
  | _, [] => []
  | prevA, c :: cs =>
    let isA := isAsciiAlpha c
    (if isA && !prevA then pyUpperChar c
     else if isA then pyLowerChar c
     else c) :: pyTitleAux isA cs

def pyTitle (s : String) : String := ⟨pyTitleAux false s.data⟩

/-- `s.split(sep, 1)` for a one-character separator: the part before the
first occurrence and the rest, when the separator occurs. -/
def splitOnce (sep : Char) (l : List Char) : Option (List Char × List Char) :=
  if (l.dropWhile (fun c => c ≠ sep)).isEmpty then none
  else some (l.takeWhile (fun c => c ≠ sep), (l.dropWhile (fun c => c ≠ sep)).drop 1)

/-- `re.split(r"[:\-–]", text, maxsplit=1)`: split at the first colon,
hyphen or en-dash. -/
def splitOnceAnySep (l : List Char) : Option (List Char × List Char) :=
  let notSep := fun c => c ≠ ':' && c ≠ '-' && c ≠ '–'
  if (l.dropWhile notSep).isEmpty then none
  else some (l.takeWhile notSep, (l.dropWhile notSep).drop 1)

/-- `[-–\s]` of the header patterns. -/
def dashWsCls (c : Char) : Bool := c = '-' || c = '–' || pyIsSpace c
/-- `[-\s]` of the `_inline_title` reject pattern. -/
def hyWsCls (c : Char) : Bool := c = '-' || pyIsSpace c
/-- `[:–-]`. -/
def sepCls (c : Char) : Bool := c = ':' || c = '–' || c = '-'
/-- `[\s:–-]`. -/
def trailCls (c : Char) : Bool := pyIsSpace c || sepCls c

/-- `^\s*(?:[A-Za-z]\.)?(?:\d+(?:\.\d+)*)?[\.\)]?\s*` shared by
`HEADER_LINE_RE`, `REPORT_TITLE_INLINE_RE` and `_inline_title`'s reject
pattern. -/
def labelPrefixToks : List RTok :=
  [.wsStar, .opt [.cls1 isAsciiAlpha, .litCS "."],
   .opt [.cls1 isAsciiDigit, .clsStar isAsciiDigit,
     .starGreedy [.litCS ".", .cls1 isAsciiDigit, .clsStar isAsciiDigit]],
   .opt [.cls1 (fun c => c = '.' || c = ')')], .wsStar]

/-- The alternatives of `HEADER_LINE_RE` (lines 1468-1476), in pattern
order. -/
def headerPhrases : List (List RTok) :=
  [[.lit "long", .clsStar dashWsCls, .lit "form", .wsStar, .lit "report",
    .wsStar, .lit "title"],
   [.lit "report", .wsStar, .lit "title",
    .opt [.wsStar, .litCS "(", .lit "long", .clsStar dashWsCls, .lit "form",
      .litCS ")"],
    .opt [.wsStar, .lit "format"]],
   [.lit "full", .wsStar, .lit "title",
    .opt [.wsStar, .litCS "(", .lit "structured", .litCS ")"],
    .wsStar, .opt [.litCS ":"]],
   [.lit "full", .wsStar, .lit "report", .wsStar, .lit "title"],
   [.lit "title", .wsStar, .litCS "(", .lit "long", .clsStar dashWsCls,
    .lit "form", .litCS ")"]]

/-- `HEADER_LINE_RE.match(text)` as a Boolean. -/
def headerLineMatch (s : String) : Bool :=
  rtMatches (labelPrefixToks ++ [.alt headerPhrases, .clsStar trailCls, .eos]) s.data

/-- `_is_section_heading_title` (lines 1479-1488). -/
def is_section_heading_title (title : String) : Bool :=
  if title = "" || title.length < 10 then false
  else
    let low := pyLower title
    if strContains low "market segmentation" && strContains low "forecast scope" then true
    else rtSearches [.lit "market", .wsStar, .litCS ":", .wsStar, .lit "market",
      .ws1, .lit "segmentation"] low.data

/-- The alternatives of `REPORT_TITLE_INLINE_RE` (lines 1490-1506), in
pattern order. -/
def reportTitlePhrases : List (List RTok) :=
  [[.lit "report", .wsStar, .lit "title",
    .opt [.wsStar, .litCS "(", .lit "long", .clsStar dashWsCls, .lit "form",
      .litCS ")"]],
   [.lit "full", .wsStar, .lit "title"],
   [.lit "full", .wsStar, .lit "report", .wsStar, .lit "title"],
   [.lit "title", .wsStar, .litCS "(", .lit "long", .clsStar dashWsCls,
    .lit "form", .litCS ")"]]

/-- `REPORT_TITLE_INLINE_RE.match(text)`: the remainder after the label
and the `\s*[:–-]?\s*` separator is the `(.+?)\s*$` group up to its
trailing whitespace. -/
def reportTitleInlineRest (l : List Char) : Option (List Char) :=
  rtMatch (rtFuelFor l)
    (labelPrefixToks ++ [.alt reportTitlePhrases, .wsStar, .opt [.cls1 sepCls],
      .wsStar]) l

/-- `_extract_labeled_inline_title` (lines 1508-1543). -/
def extract_labeled_inline_title (text : String) : String :=
  let t := norm text
  match reportTitleInlineRest t.data with
  | none => ""
  | some rem =>
    let candidate := norm (⟨rem⟩ : String)
    if candidate = "" then ""
    else
      let low := pyLower candidate
      let looksLongForm := strContains low "market" &&
        (strContains low "segment revenue estimation" ||
         (strContains low "forecast" && strHasYearRange candidate) ||
         (byCount low ≥ 2 && strHasYearRange candidate))
      if !looksLongForm then ""
      else
        match searchYearRangeEnd candidate.data with
        | some e => pyStrip ⟨candidate.data.take e⟩
        | none => candidate

/-- The reject pattern inside `_inline_title` (line 74). -/
def inlineRejectMatch (s : String) : Bool :=
  rtMatches (labelPrefixToks ++
    [.alt [[.lit "report", .wsStar, .lit "title"],
           [.lit "full", .wsStar, .lit "title"],
           [.lit "full", .wsStar, .lit "report", .wsStar, .lit "title"],
           [.lit "title", .wsStar, .litCS "(", .lit "long", .clsStar hyWsCls,
            .lit "form", .litCS ")"]],
     .clsStar trailCls, .eos]) s.data

/-- `_inline_title` (lines 70-78). -/
def inline_title (text : String) : String :=
  match splitOnceAnySep text.data with
  | none => ""
  | some (_, rightRaw) =>
    let right := pyStrip ⟨rightRaw⟩
    if right ≠ "" && !inlineRejectMatch right then
      if right.length ≥ 25 &&
          (strContains (pyLower right) "market" ||
           strContains (pyLower right) " by " ||
           strContains (pyLower right) "segment revenue") then right
      else ""
    else ""

/-- Word boundary `\b` between an optional previous character and the
next character. -/
def wordBnd (prev : Option Char) (c : Char) : Bool :=
  match prev with
  | none => pyIsWord c
  | some p => pyIsWord p ≠ pyIsWord c

/-- Case-insensitive list equality (for the `\2` backreference under
`re.IGNORECASE`). -/
def ciEqList (a b : List Char) : Bool :=
  a.length = b.length &&
    (a.zip b).all (fun pc => pyLowerChar pc.1 = pyLowerChar pc.2)

/-- After the duplicate `(.+?Market)` group: `\s+\2(\s+By\s+)`; returns
the matched `\s+By\s+` text and the remainder. -/
def dupContinuation (x : List Char) (rest : List Char) :
    Option (List Char × List Char) :=
  let ws1 := rest.takeWhile pyIsSpace
  if ws1.isEmpty then none
  else
    let r1 := rest.drop ws1.length
    if ciEqList x (r1.take x.length) then
      let r2 := r1.drop x.length
      let ws2 := r2.takeWhile pyIsSpace
      if ws2.isEmpty then none
      else
        match r2.drop ws2.length with
        | b :: y :: r3 =>
          if pyLowerChar b = 'b' && pyLowerChar y = 'y' then
            let ws3 := r3.takeWhile pyIsSpace
            if ws3.isEmpty then none
            else some (ws2 ++ [b, y] ++ ws3, r3.drop ws3.length)
          else none
        | _ => none
    else none

/-- Lazy search for the `(.+?Market)` group of the duplicate-market
pattern: extend the group one character at a time (`.` bars newlines)
and, whenever it ends in "Market" (case-insensitively), try the
continuation. -/
def findDupX : Nat → List Char → List Char →
    Option (List Char × List Char × List Char)
  | 0, _, _ => none
  | fuel + 1, accRev, rest =>
    if ciEqList (accRev.take 6) "tekram".data then
      match dupContinuation accRev.reverse rest with
      | some (g3, rem) => some (accRev.reverse, g3, rem)
      | none =>
        match rest with
        | c :: cs =>
          if c ≠ '\n' then findDupX fuel (c :: accRev) cs else none
        | [] => none
    else
      match rest with
      | c :: cs => if c ≠ '\n' then findDupX fuel (c :: accRev) cs else none
      | [] => none

/-- Try the duplicate-market pattern anchored here (the caller has
checked `\b`): optional `Global\s+` first (greedy), then the lazy group.
Returns the replacement text `\1\2\3` and the remainder. -/
def tryDupMarket (l : List Char) : Option (List Char × List Char) :=
  let withGlobal :=
    if ciEqList (l.take 6) "global".data then
      let r0 := l.drop 6
      let ws := r0.takeWhile pyIsSpace
      if ws.isEmpty then none
      else
        match findDupX (r0.length + 1) [] (r0.drop ws.length) with
        | some (x, g3, rem) => some (l.take 6 ++ ws ++ x ++ g3, rem)
        | none => none
    else none
  match withGlobal with
  | some r => some r
  | none =>
    match findDupX (l.length + 1) [] l with
    | some (x, g3, rem) => some (x ++ g3, rem)
    | none => none

/-- `re.sub(r"\b(Global\s+)?(.+?Market)\s+\2(\s+By\s+)", r"\1\2\3", ·,
flags=re.I)` (lines 91-96): left-to-right non-overlapping scan. -/
def dupMarketScan : Nat → Option Char → List Char → List Char
  | 0, _, l => l
  | _ + 1, _, [] => []
  | fuel + 1, prev, c :: cs =>
    if wordBnd prev c then
      match tryDupMarket (c :: cs) with
      | some (repl, rem) => repl ++ dupMarketScan fuel repl.getLast? rem
      | none => c :: dupMarketScan fuel (some c) cs
    else c :: dupMarketScan fuel (some c) cs

/-- Remove every `\s*\(...\)` whose parenthesised text (no inner `)`)
satisfies `p`, scanning left to right. -/
def parenSub (p : List Char → Bool) : Nat → List Char → List Char
  | 0, l => l
  | _ + 1, [] => []
  | fuel + 1, c :: cs =>
    let afterWs := (c :: cs).dropWhile pyIsSpace
    match afterWs with
    | '(' :: inner =>
      let body := inner.takeWhile (fun d => d ≠ ')')
      match inner.drop body.length with
      | ')' :: rem =>
        if p body then parenSub p fuel rem
        else c :: parenSub p fuel cs
      | _ => c :: parenSub p fuel cs
    | _ => c :: parenSub p fuel cs

/-- `re.sub(r"\s{2,}", " ", ·)`: only runs of two or more whitespace
characters collapse to a single space. -/
def collapse2Ws : Nat → List Char → List Char
  | 0, l => l
  | _ + 1, [] => []
  | fuel + 1, c :: cs =>
    if pyIsSpace c && !(cs.takeWhile pyIsSpace).isEmpty then
      ' ' :: collapse2Ws fuel (cs.dropWhile pyIsSpace)
    else c :: collapse2Ws fuel cs

/-- Case-insensitive containment. -/
def ciContains (needle : String) (l : List Char) : Bool :=
  lcContains needle.data (lcLower l)

/-- `_clean_final_title` (lines 84-102). -/
def clean_final_title (title : String) : String :=
  if title = "" || title.length < 5 then title
  else
    let t := match rtMatch (rtFuelFor title.data)
        [.wsStar, .litCS "(", .lit "structured", .litCS ")", .wsStar,
         .litCS ":", .wsStar] title.data with
      | some rem => rem
      | none => title.data
    let t := (pyStrip (⟨t⟩ : String)).data
    let t := dupMarketScan (t.length + 1) none t
    let t := parenSub (fun body => ciContains "this is the" body) (t.length + 1) t
    let t := parenSub (fun body => ciEqList (body.take 7) "in 2024".data)
      (t.length + 1) t
    let t := parenSub (fun body => ciContains "dimension of segmentation" body)
      (t.length + 1) t
    pyStrip ⟨collapse2Ws (t.length + 1) t⟩

/-- `_ensure_filename_start_and_year` (lines 105-131). -/
def ensure_filename_start_and_year (title filename : String) : String :=
  let titleLower := pyLower title
  let filenameLower := pyLower filename
  let filenameNormalized := strReplace (strReplace filenameLower "-" " ") "_" " "
  let titleNormalized := strReplace (strReplace titleLower "-" " ") "_" " "
  let filenameKeywords := (pySplitWs filenameNormalized).filter
    (fun w => w ∉ ["market", "the", "and", "or"])
  let matchingKeywords := (filenameKeywords.filter
    (fun kw => strContains titleNormalized kw)).length
  let byC := byCount titleLower
  let looksComplete := strContains titleLower " by " &&
    strContains titleLower "market" &&
    (matchingKeywords ≥ min 2 filenameKeywords.length || byC ≥ 2)
  let title := if !looksComplete &&
      matchingKeywords < min 3 filenameKeywords.length &&
      !strStartsWith titleLower filenameLower then filename ++ " " ++ title
    else title
  let title := if !strHasYearRange title then title ++ " 2024" ++ DASH ++ "2030"
    else title
  clean_final_title (norm title)

/-! ### `extract_segment_values` (extractor.py lines 1950-2635) -/

/-- `s.strip()` of a character list, as a string. -/
def lcStr (l : List Char) : String := pyStrip ⟨l⟩

/-- First char is an ASCII lowercase letter (`val[0].islower()`). -/
def headIsLower (s : String) : Bool :=
  match s.data with
  | c :: _ => isAsciiLower c
  | [] => false

/-- First char is an ASCII uppercase letter (`val[0].isupper()`). -/
def headIsUpper (s : String) : Bool :=
  match s.data with
  | c :: _ => isAsciiUpper c
  | [] => false

/-- `s[0].upper() + s[1:]`. -/
def upperFirst (s : String) : String :=
  match s.data with
  | c :: cs => ⟨pyUpperChar c :: cs⟩
  | [] => s

/-- `re.match(r'^by\s+', ·)` (case-insensitive callers pass `re.I` or an
already lower-cased string). -/
def byPrefixMatch (l : List Char) : Bool :=
  match l with
  | b :: y :: rest =>
    pyLowerChar b = 'b' && pyLowerChar y = 'y' &&
      !(rest.takeWhile pyIsSpace).isEmpty
  | _ => false

/-- Group of `<lit>\s+([^.]*?)(?:\.|$)` searched in `l`: the text after
the first match of `toks` up to the first period. -/
def groupToDot (toks : List RTok) (l : List Char) : Option (List Char) :=
  match rtSearch toks l with
  | some (_, rem) => some (rem.takeWhile (fun c => c ≠ '.'))
  | none => none

/-- `re.split(r',\s*(?:and\s+)?', ·)` ("and" is case-sensitive and must
be followed by whitespace, else it stays in the piece). -/
def commaAndSplitAux : Nat → List Char → List (List Char)
  | 0, l => [l]
  | fuel + 1, l =>
    let pre := l.takeWhile (fun c => c ≠ ',')
    match l.drop pre.length with
    | [] => [pre]
    | _ :: rest =>
      let afterWs := rest.dropWhile pyIsSpace
      let next :=
        if afterWs.take 3 = ['a', 'n', 'd'] &&
            !((afterWs.drop 3).takeWhile pyIsSpace).isEmpty then
          (afterWs.drop 3).dropWhile pyIsSpace
        else afterWs
      pre :: commaAndSplitAux fuel next
  termination_by fuel l => fuel

def commaAndSplit (l : List Char) : List (List Char) :=
  commaAndSplitAux (l.length + 1) l

/-- `re.split(r',\s*', ·)`. -/
def commaWsSplitAux : Nat → List Char → List (List Char)
  | 0, l => [l]
  | fuel + 1, l =>
    let pre := l.takeWhile (fun c => c ≠ ',')
    match l.drop pre.length with
    | [] => [pre]
    | _ :: rest => pre :: commaWsSplitAux fuel (rest.dropWhile pyIsSpace)

def commaWsSplit (l : List Char) : List (List Char) :=
  commaWsSplitAux (l.length + 1) l

/-- Does one of `words` start at `l` (optionally case-insensitively,
optionally requiring a word boundary after it)? -/
def wordSepAt (words : List String) (ci reqBnd : Bool) (l : List Char) : Bool :=
  words.any (fun w =>
    let hd := l.take w.data.length
    (if ci then ciEqList hd w.data else hd = w.data) &&
    (!reqBnd ||
      match l.drop w.data.length with
      | c :: _ => !pyIsWord c
      | [] => true))

/-- `re.split(r'\s+(?:w1|w2|...)', part, 1)[0]`: the text before the
first whitespace run followed by one of the separator words. -/
def cutAtWordSep (words : List String) (ci reqBnd : Bool) :
    Nat → List Char → List Char
  | 0, l => l
  | _ + 1, [] => []
  | fuel + 1, c :: cs =>
    if pyIsSpace c &&
        wordSepAt words ci reqBnd ((c :: cs).dropWhile pyIsSpace) then []
    else c :: cutAtWordSep words ci reqBnd fuel cs

def cutWords (words : List String) (ci reqBnd : Bool) (l : List Char) :
    List Char :=
  cutAtWordSep words ci reqBnd (l.length + 1) l

/-- `re.sub(r'^(the|a|an)\s+', '', ·, flags=re.I)` (and the
The/This/These/That variant): the alternatives are tried in pattern
order, each requiring following whitespace. -/
def stripWordPrefix (words : List String) (l : List Char) : List Char :=
  match words.find? (fun w =>
    ciEqList (l.take w.data.length) w.data &&
      !((l.drop w.data.length).takeWhile pyIsSpace).isEmpty) with
  | some w => (l.drop w.data.length).dropWhile pyIsSpace
  | none => l

/-- `re.sub(r'\b(And|To|Of|In|For|With|The)\b', lambda m: lower, ·)`:
case-sensitive whole-word replacement by the lower-cased word. -/
def subWordsLowerAux (words : List String) : Nat → Option Char → List Char → List Char
  | 0, _, l => l
  | _ + 1, _, [] => []
  | fuel + 1, prev, c :: cs =>
    if wordBnd prev c then
      match words.find? (fun w =>
        (c :: cs).take w.data.length = w.data &&
          (match (c :: cs).drop w.data.length with
           | d :: _ => !pyIsWord d
           | [] => true)) with
      | some w =>
        w.data.map pyLowerChar ++
          subWordsLowerAux words fuel (some (pyLowerChar (w.data.getLastD c)))
            ((c :: cs).drop w.data.length)
      | none => c :: subWordsLowerAux words fuel (some c) cs
    else c :: subWordsLowerAux words fuel (some c) cs

def subWordsLower (words : List String) (s : String) : String :=
  ⟨subWordsLowerAux words (s.data.length + 1) none s.data⟩

/-- `re.sub(r'\b(ECMO|ECLS|ARDS|MSU|ASCs|ELISA|CLIA|IHC|NGS)\b',
lambda m: m.group(1).upper(), ·, flags=re.I)`: case-insensitive
whole-word match, the matched text is upper-cased. -/
def subWordsUpperAux (words : List String) : Nat → Option Char → List Char → List Char
  | 0, _, l => l
  | _ + 1, _, [] => []
  | fuel + 1, prev, c :: cs =>
    if wordBnd prev c then
      match words.find? (fun w =>
        ciEqList ((c :: cs).take w.data.length) w.data &&
          (match (c :: cs).drop w.data.length with
           | d :: _ => !pyIsWord d
           | [] => true)) with
      | some w =>
        ((c :: cs).take w.data.length).map pyUpperChar ++
          subWordsUpperAux words fuel (some (pyUpperChar (w.data.getLastD c)))
            ((c :: cs).drop w.data.length)
      | none => c :: subWordsUpperAux words fuel (some c) cs
    else c :: subWordsUpperAux words fuel (some c) cs

def subWordsUpper (words : List String) (s : String) : String :=
  ⟨subWordsUpperAux words (s.data.length + 1) none s.data⟩

def acronymWords : List String :=
  ["ECMO", "ECLS", "ARDS", "MSU", "ASCs", "ELISA", "CLIA", "IHC", "NGS"]

def titleSmallWords : List String :=
  ["And", "To", "Of", "In", "For", "With", "The"]

/-- `re.sub(r'([A-Z][a-z]+)-To-([A-Z][a-z]+)', r'\1-to-\2', ·)`
(case-sensitive; the `-to-` variant of line 2124/2188 rewrites the
match to itself and is omitted as an identity). -/
def bridgeToSubAux : Nat → List Char → List Char
  | 0, l => l
  | _ + 1, [] => []
  | fuel + 1, c :: cs =>
    if isAsciiUpper c && !(cs.takeWhile isAsciiLower).isEmpty then
      let run := cs.takeWhile isAsciiLower
      let rest := cs.drop run.length
      match rest with
      | '-' :: 'T' :: 'o' :: '-' :: d :: ds =>
        if isAsciiUpper d && !(ds.takeWhile isAsciiLower).isEmpty then
          let run2 := ds.takeWhile isAsciiLower
          c :: run ++ ['-', 't', 'o', '-', d] ++ run2 ++
            bridgeToSubAux fuel (ds.drop run2.length)
        else c :: bridgeToSubAux fuel cs
      | _ => c :: bridgeToSubAux fuel cs
    else c :: bridgeToSubAux fuel cs

def bridgeToSub (s : String) : String := ⟨bridgeToSubAux (s.data.length + 1) s.data⟩

/-- First `\((...)\)` group whose body is non-empty, `)`-free and all
satisfies `p` char-wise — used for `\(([^)]+)\)`, `\(([A-Z]+)\)` and
`\(([A-Za-z]+)\)`. -/
def firstParenBody (p : Char → Bool) : Nat → List Char → Option (List Char)
  | 0, _ => none
  | _ + 1, [] => none
  | fuel + 1, c :: cs =>
    if c = '(' then
      let body := cs.takeWhile p
      if !body.isEmpty && (cs.drop body.length).head? = some ')' then some body
      else firstParenBody p fuel cs
    else firstParenBody p fuel cs

def firstParen (l : List Char) : Option (List Char) :=
  firstParenBody (fun c => c ≠ ')') (l.length + 1) l

/-- `re.sub(r'\s*\([^)]+\)', '', ·)`. -/
def stripParens (l : List Char) : List Char :=
  parenSub (fun body => !body.isEmpty) (l.length + 1) l

/-- `re.match(r'^[A-Z]{2,}$', ·)`. -/
def upperAbbrevOnly (l : List Char) : Bool :=
  l.length ≥ 2 && l.all isAsciiUpper

/-- The part of `s` before the first occurrence of `pat`
(`s.split(pat)[0]`; `s` itself when `pat` does not occur). -/
def beforeFirstSub (pat : List Char) : Nat → List Char → List Char
  | 0, l => l
  | _ + 1, [] => []
  | fuel + 1, c :: cs =>
    if lcIsPrefixOf pat (c :: cs) then []
    else c :: beforeFirstSub pat fuel cs

/-- `re.match(r'^([A-Z][a-zA-Z0-9\s&]+(?:\([A-Za-z0-9\s,]+\))?)\s*[:]', ·)`
(line 2329; also the `^`-anchored `re.search` on line 2397): returns
the group.  The main class excludes both `(` and `:`, so the greedy run
is deterministic; the optional parenthesis group is tried first. -/
def capColonMatch (l : List Char) : Option (List Char) :=
  let mainCls := fun c => isAsciiAlnum c || pyIsSpace c || c = '&'
  let innCls := fun c => isAsciiAlnum c || pyIsSpace c || c = ','
  match l with
  | c :: rest =>
    if isAsciiUpper c then
      let run := rest.takeWhile mainCls
      if run.isEmpty then none
      else
        let after := rest.drop run.length
        let withParen : Option (List Char) :=
          match after with
          | '(' :: inn =>
            let body := inn.takeWhile innCls
            if !body.isEmpty && (inn.drop body.length).head? = some ')' then
              if ((inn.drop (body.length + 1)).dropWhile pyIsSpace).head? = some ':' then
                some (c :: run ++ '(' :: body ++ [')'])
              else none
            else none
          | _ => none
        match withParen with
        | some g => some g
        | none =>
          if (after.dropWhile pyIsSpace).head? = some ':' then some (c :: run)
          else none
    else none
  | [] => none

/-- `re.match(r'^[A-Z][a-zA-Z0-9\s&\-]+(?:\([A-Za-z0-9\s,\-]+\))?$', ·)`
(line 2447) as a Boolean. -/
def headingFullMatch (l : List Char) : Bool :=
  let mainCls := fun c => isAsciiAlnum c || pyIsSpace c || c = '&' || c = '-'
  let innCls := fun c => isAsciiAlnum c || pyIsSpace c || c = ',' || c = '-'
  match l with
  | c :: rest =>
    if isAsciiUpper c then
      let run := rest.takeWhile mainCls
      if run.isEmpty then false
      else
        match rest.drop run.length with
        | [] => true
        | '(' :: inn =>
          let body := inn.takeWhile innCls
          !body.isEmpty && inn.drop body.length = [')']
        | _ => false
    else false
  | [] => false

/-- `re.match(r'^([A-Z][A-Za-z0-9\s&\-]+(?:\([A-Za-z0-9\s,\-]+\))?)', ·)`
(line 2454): the greedy group. -/
def headingGroupMatch (l : List Char) : Option (List Char) :=
  let mainCls := fun c => isAsciiAlnum c || pyIsSpace c || c = '&' || c = '-'
  let innCls := fun c => isAsciiAlnum c || pyIsSpace c || c = ',' || c = '-'
  match l with
  | c :: rest =>
    if isAsciiUpper c then
      let run := rest.takeWhile mainCls
      if run.isEmpty then none
      else
        match rest.drop run.length with
        | '(' :: inn =>
          let body := inn.takeWhile innCls
          if !body.isEmpty && (inn.drop body.length).head? = some ')' then
            some (c :: run ++ '(' :: body ++ [')'])
          else some (c :: run)
        | _ => some (c :: run)
    else none
  | [] => none

/-- `re.match(r'^([A-Z][a-z]+(?:\s+[a-z]+)*)', ·)` (line 2055):
an upper-case letter, a lower-case run, then greedily further
whitespace-separated lower-case words. -/
def lowerWordsStar : Nat → List Char → List Char
  | 0, _ => []
  | fuel + 1, l =>
    let ws := l.takeWhile pyIsSpace
    if ws.isEmpty then []
    else
      let after := l.drop ws.length
      let run := after.takeWhile isAsciiLower
      if run.isEmpty then []
      else ws ++ run ++ lowerWordsStar fuel (after.drop run.length)

def firstCapLower (l : List Char) : Option (List Char) :=
  match l with
  | c :: rest =>
    if isAsciiUpper c then
      let run := rest.takeWhile isAsciiLower
      if run.isEmpty then none
      else some (c :: run ++ lowerWordsStar (l.length + 1) (rest.drop run.length))
    else none
  | [] => none

/-- `re.match(r'^([A-Z][a-z]+(?:\s+[A-Z][a-z]+)*)', ·)` (line 2198). -/
def capWordsStar : Nat → List Char → List Char
  | 0, _ => []
  | fuel + 1, l =>
    let ws := l.takeWhile pyIsSpace
    if ws.isEmpty then []
    else
      let after := l.drop ws.length
      match after with
      | d :: rest2 =>
        if isAsciiUpper d then
          let run := rest2.takeWhile isAsciiLower
          if run.isEmpty then []
          else ws ++ d :: run ++ capWordsStar fuel (rest2.drop run.length)
        else []
      | [] => []

def regionCapWords (l : List Char) : Option (List Char) :=
  match l with
  | c :: rest =>
    if isAsciiUpper c then
      let run := rest.takeWhile isAsciiLower
      if run.isEmpty then none
      else some (c :: run ++ capWordsStar (l.length + 1) (rest.drop run.length))
    else none
  | [] => none

/-- `re.match(r'^([^.]+?)\s+(?:are|is)\s+the\s+(?:leading|dominant)', ·,
re.I)` (line 2069): the lazy dot-free group before the verb phrase. -/
def leadingMatchAux : Nat → List Char → List Char → Option (List Char)
  | 0, _, _ => none
  | fuel + 1, accRev, rest =>
    if !accRev.isEmpty &&
        rtMatches [.ws1, .alt [[.lit "are"], [.lit "is"]], .ws1, .lit "the",
          .ws1, .alt [[.lit "leading"], [.lit "dominant"]]] rest then
      some accRev.reverse
    else
      match rest with
      | c :: cs => if c ≠ '.' then leadingMatchAux fuel (c :: accRev) cs else none
      | [] => none

def leadingMatch (l : List Char) : Option (List Char) :=
  leadingMatchAux (l.length + 1) [] l

/-- `re.match(r'^([A-Z][^,]+(?:,\s*[A-Z][^,]+){0,5}(?:,\s*and\s+[A-Z][^,]+)?)', ·)`
(line 2295): a comma-separated run of up to six capitalized pieces with
an optional ", and X" tail; repetitions are greedy with backtracking,
but the comma-free pieces are themselves deterministic maximal runs, so
the group is assembled greedily piece by piece. -/
def commaCapPiece (l : List Char) : Option (List Char) :=
  match l with
  | c :: rest =>
    if isAsciiUpper c then
      let run := rest.takeWhile (fun d => d ≠ ',')
      if run.isEmpty then none else some (c :: run)
    else none
  | [] => none

def valueListReps : Nat → List Char → List Char
  | 0, _ => []
  | n + 1, l =>
    match l with
    | ',' :: rest =>
      let ws := rest.takeWhile pyIsSpace
      let afterWs := rest.drop ws.length
      match commaCapPiece afterWs with
      | some piece =>
        ',' :: ws ++ piece ++ valueListReps n (afterWs.drop piece.length)
      | none => []
    | _ => []

/-- The optional `(?:,\s*and\s+[A-Z][^,]+)?` tail. -/
def valueListAndTail (l : List Char) : List Char :=
  match l with
  | ',' :: rest =>
    let ws := rest.takeWhile pyIsSpace
    let a := rest.drop ws.length
    if a.take 3 = ['a', 'n', 'd'] &&
        !((a.drop 3).takeWhile pyIsSpace).isEmpty then
      let ws2 := (a.drop 3).takeWhile pyIsSpace
      let b := (a.drop 3).drop ws2.length
      match commaCapPiece b with
      | some piece => ',' :: ws ++ ['a', 'n', 'd'] ++ ws2 ++ piece
      | none => []
    else []
  | _ => []

def valueListMatch (l : List Char) : Option (List Char) :=
  match commaCapPiece l with
  | some p0 =>
    let reps := valueListReps 5 (l.drop p0.length)
    let rest := l.drop (p0.length + reps.length)
    some (p0 ++ reps ++ valueListAndTail rest)
  | none => none

/-- `re.sub(r',\s*and\s+([A-Z][^,]+)', r', \1', ·)` (line 2299). -/
def subAndCapAux : Nat → List Char → List Char
  | 0, l => l
  | _ + 1, [] => []
  | fuel + 1, c :: cs =>
    if c = ',' then
      let a := cs.dropWhile pyIsSpace
      if a.take 3 = ['a', 'n', 'd'] &&
          !((a.drop 3).takeWhile pyIsSpace).isEmpty then
        match commaCapPiece ((a.drop 3).dropWhile pyIsSpace) with
        | some piece =>
          ',' :: ' ' :: piece ++
            subAndCapAux fuel
              (((a.drop 3).dropWhile pyIsSpace).drop piece.length)
        | none => c :: subAndCapAux fuel cs
      else c :: subAndCapAux fuel cs
    else c :: subAndCapAux fuel cs

def subAndCap (l : List Char) : List Char := subAndCapAux (l.length + 1) l

/-- `re.split(r',\s*(?:and\s+)?(?!\s*\([A-Z]+\))', ·)` (line 2215): the
separator is rejected (and the greedy `and` given back) when what
follows is an upper-case parenthesised abbreviation. -/
def abbrevAhead (l : List Char) : Bool :=
  match l.dropWhile pyIsSpace with
  | '(' :: inn =>
    let body := inn.takeWhile isAsciiUpper
    !body.isEmpty && (inn.drop body.length).head? = some ')'
  | _ => false

def commaSplitNoParenAux : Nat → List Char → List (List Char)
  | 0, l => [l]
  | fuel + 1, l =>
    let pre := l.takeWhile (fun c => c ≠ ',')
    match l.drop pre.length with
    | [] => [pre]
    | _ :: rest =>
      let afterWs := rest.dropWhile pyIsSpace
      let afterAnd :=
        if afterWs.take 3 = ['a', 'n', 'd'] &&
            !((afterWs.drop 3).takeWhile pyIsSpace).isEmpty then
          some ((afterWs.drop 3).dropWhile pyIsSpace)
        else none
      match afterAnd with
      | some aa =>
        if !abbrevAhead aa then pre :: commaSplitNoParenAux fuel aa
        else if !abbrevAhead afterWs then pre :: commaSplitNoParenAux fuel afterWs
        else
          match commaSplitNoParenAux fuel rest with
          | h :: t => (pre ++ ',' :: h) :: t
          | [] => [pre ++ [',']]
      | none =>
        if !abbrevAhead afterWs then pre :: commaSplitNoParenAux fuel afterWs
        else
          match commaSplitNoParenAux fuel rest with
          | h :: t => (pre ++ ',' :: h) :: t
          | [] => [pre ++ [',']]

def commaSplitNoParen (l : List Char) : List (List Char) :=
  commaSplitNoParenAux (l.length + 1) l

/-- Pattern 1 (lines 2000-2015): `encompassing X, Y, and Z`. -/
def esvP1 (headerPara : String) : List String :=
  match groupToDot [.lit "encompassing", .ws1] headerPara.data with
  | none => []
  | some g =>
    (commaAndSplit (lcStrip g)).filterMap (fun partL =>
      let part := lcStr partL
      if part ≠ "" then
        let mainValue := lcStr (cutWords
          ["remain", "represent", "are", "account", "these", "treatments"]
          false false part.data)
        if mainValue ≠ "" && mainValue.length > 2 then
          let mainValue := if headIsLower mainValue then upperFirst mainValue
            else mainValue
          if mainValue.length < 100 &&
              pyLower mainValue ∉ ["the", "market", "segment"] then
            let mainValue := lcStr (stripWordPrefix ["the", "a", "an"]
              mainValue.data)
            if mainValue ≠ "" then some mainValue else none
          else none
        else none
      else none)

/-- Pattern 1b (lines 2018-2048): `(broadly )?divided into X, Y, and Z`. -/
def esvP1b (headerPara : String) : List String :=
  match groupToDot [.lit "divided into", .ws1] headerPara.data with
  | none => []
  | some g =>
    (commaAndSplit (lcStrip g)).filterMap (fun partL =>
      let part := lcStr partL
      if part ≠ "" then
        let mainValue := lcStr (cutWords
          ["together", "represent", "are", "is", "expected", "projected",
           "because", "due", "gaining"] false false part.data)
        if mainValue ≠ "" && mainValue.length > 2 then
          let mainValue :=
            if headIsLower mainValue then
              let mv := pyTitle mainValue
              let mv := if !strContains (pyLower mv) "ecmo" then
                  subWordsLower titleSmallWords mv
                else mv
              if mv ≠ "" then subWordsUpper acronymWords (upperFirst mv) else mv
            else mainValue
          if mainValue.length < 100 &&
              pyLower mainValue ∉ ["the", "market", "segment"] then
            let mainValue := lcStr (stripWordPrefix ["the", "a", "an"]
              mainValue.data)
            if mainValue ≠ "" then some mainValue else none
          else none
        else none
      else none)

/-- Pattern 2a (lines 2052-2065): a leading capitalized phrase before
`represents`/`remains`. -/
def esvP2a (headerPara headerLower : String) : List String :=
  if strContains headerLower "represents" || strContains headerLower "remains" then
    match firstCapLower headerPara.data with
    | none => []
    | some g =>
      let firstValue := lcStr g
      let firstValue := lcStr (cutWords
        ["represents", "remains", "is", "are", "account"] false false
        firstValue.data)
      if firstValue ≠ "" && firstValue.length < 50 &&
          pyLower firstValue ∉ ["the", "by", "market"] then
        [if headIsLower firstValue then pyTitle firstValue else firstValue]
      else []
  else []

/-- Pattern 2b (lines 2069-2077): `X, Y, and Z are the leading ...`. -/
def esvP2b (headerPara : String) : List String :=
  match leadingMatch headerPara.data with
  | none => []
  | some g =>
    (commaAndSplit (lcStrip g)).filterMap (fun partL =>
      let part := lcStr partL
      if part ≠ "" && part.length > 3 && headIsUpper part && part.length < 80
      then some part else none)

/-- Pattern 2c (lines 2080-2130): `finds usage in X, Y (ABBR), Z`. -/
def esvP2c (headerPara : String) : List String :=
  match groupToDot [.lit "finds usage in", .ws1] headerPara.data with
  | none => []
  | some g =>
    (commaAndSplit (lcStrip g)).filterMap (fun partL =>
      let part := lcStr partL
      if part ≠ "" then
        let mainValue :=
          if strContains part "(" && strContains part ")" then
            match firstParenBody isAsciiUpper (part.data.length + 1) part.data with
            | some ab =>
              if ab.length ≥ 3 then part
              else lcStr (part.data.takeWhile (fun c => c ≠ '('))
            | none => lcStr (part.data.takeWhile (fun c => c ≠ '('))
          else part
        let mainValue := lcStr (cutWords
          ["is", "are", "projected", "expected", "account", "driven", "given"]
          false false mainValue.data)
        if mainValue ≠ "" && mainValue.length > 3 then
          let mainValue := if headIsLower mainValue then pyTitle mainValue
            else mainValue
          let mainValue :=
            if strContains mainValue "(" && strContains mainValue ")" then
              match firstParenBody isAsciiAlpha (mainValue.data.length + 1)
                  mainValue.data with
              | some ab =>
                let mainPart := lcStr (mainValue.data.takeWhile (fun c => c ≠ '('))
                let abbrevU : String := ⟨ab.map pyUpperChar⟩
                let mainPart := subWordsLower titleSmallWords (pyTitle mainPart)
                let mainPart := bridgeToSub mainPart
                let mainPart := if mainPart ≠ "" then upperFirst mainPart
                  else mainPart
                mainPart ++ " (" ++ abbrevU ++ ")"
              | none => mainValue
            else mainValue
          if mainValue.length < 100 then some mainValue else none
        else none
      else none)

/-- Pattern 2d (lines 2133-2147): `(find(s) )?applications across X, Y, Z`. -/
def esvP2d (headerPara : String) : List String :=
  match groupToDot [.lit "applications", .ws1, .lit "across", .ws1]
      headerPara.data with
  | none => []
  | some g =>
    let valueText := lcStrip g
    let valueText :=
      match rtMatch (rtFuelFor valueText)
          [.opt [.lit "a", .ws1, .lit "wide", .ws1, .lit "range", .ws1,
            .lit "of", .ws1]] valueText with
      | some rem => lcStrip rem
      | none => valueText
    (commaAndSplit valueText).filterMap (fun partL =>
      let part := lcStr partL
      if part ≠ "" then
        let mainValue := lcStr (cutWords
          ["lead", "dominat", "remain", "represent", "account", "continue",
           "expand"] true false part.data)
        if mainValue ≠ "" && mainValue.length < 100 then
          some (if headIsLower mainValue then pyTitle mainValue else mainValue)
        else none
      else none)

/-- Pattern 2e (lines 2150-2168): `available across (a wide spectrum )– X, Y`. -/
def esvP2e (headerPara : String) : List String :=
  let availDash := groupToDot
    [.lit "available", .ws1, .lit "across", .ws1,
     .opt [.lit "a", .ws1, .lit "wide", .ws1, .lit "spectrum", .wsStar],
     .cls1 (fun c => c = '–' || c = '-'), .wsStar] headerPara.data
  let avail := match availDash with
    | some g => some g
    | none => groupToDot [.lit "available", .ws1, .lit "across", .ws1]
        headerPara.data
  match avail with
  | none => []
  | some g =>
    let valueText := lcStrip g
    let valueText :=
      match rtMatch (rtFuelFor valueText)
          [.opt [.lit "a", .ws1, .lit "wide", .ws1, .lit "spectrum", .wsStar],
           .cls1 (fun c => c = '–' || c = '-'), .wsStar] valueText with
      | some rem => lcStrip rem
      | none => valueText
    (commaAndSplit valueText).filterMap (fun partL =>
      let part := lcStr partL
      if part ≠ "" then
        let mainValue := lcStr (cutWords
          ["serve", "serves", "remain", "represent", "account", "are", "is"]
          true true part.data)
        if mainValue ≠ "" && mainValue.length < 80 then some mainValue else none
      else none)

/-- Pattern 3 (lines 2171-2193): `(adoption )?spans X, Y, and Z`. -/
def esvP3 (headerPara : String) : List String :=
  match groupToDot [.lit "spans", .ws1] headerPara.data with
  | none => []
  | some g =>
    (commaAndSplit (lcStrip g)).filterMap (fun partL =>
      let part := lcStr partL
      if part ≠ "" then
        let mainValue := lcStr (cutWords
          ["given", "dominate", "show", "large", "tertiary"] false false
          part.data)
        if mainValue ≠ "" && mainValue.length > 3 then
          let mainValue :=
            if headIsLower mainValue then
              let mv := subWordsLower titleSmallWords (pyTitle mainValue)
              let mv := bridgeToSub mv
              if mv ≠ "" then upperFirst mv else mv
            else mainValue
          if mainValue.length < 100 then some mainValue else none
        else none
      else none)

/-- Pattern 4a (lines 2196-2208): a region name before `represents`
(only for the region section; de-duplicated against earlier values). -/
def esvP4a (headerPara headerLower sectionType : String) (values : List String) :
    List String :=
  if sectionType = "region" && strContains headerLower "represents" then
    match regionCapWords headerPara.data with
    | none => []
    | some g =>
      let regionValue := lcStr g
      let regionValue := lcStr (cutWords
        ["represents", "is", "remains", "follows", "supported"] false false
        regionValue.data)
      if regionValue ≠ "" && regionValue.length < 50 &&
          pyLower regionValue ∉ ["the", "by", "market"] then
        let regionValue := if headIsLower regionValue then pyTitle regionValue
          else regionValue
        if regionValue ∉ values then [regionValue] else []
      else []
  else []

/-- Pattern 4 (lines 2211-2226): `distributed across X, Y, and Z (ABBR)`. -/
def esvP4 (headerPara : String) : List String :=
  match groupToDot [.lit "distributed across", .ws1] headerPara.data with
  | none => []
  | some g =>
    (commaSplitNoParen (lcStrip g)).filterMap (fun partL =>
      let part := lcStr partL
      if part ≠ "" then
        let mainValue := lcStr (stripParens part.data)
        if mainValue ≠ "" && mainValue.length > 3 then
          let mainValue := if headIsLower mainValue then upperFirst mainValue
            else mainValue
          if mainValue.length < 80 then some mainValue else none
        else none
      else none)

/-- The trigger phrases of the header-mining block (lines 1979-1996). -/
def esvTriggerPhrases : List String :=
  ["divided into", "finds usage in", "applications across",
   "find applications across", "available across", "spans", "includes",
   "comprises", "distributed across", "usage in", "encompassing", "remains",
   "represents", "leading", "category", "area"]

/-- The header-mining part of `extract_segment_values`
(lines 1957-2247): returns the collected values, whether the trigger
block ran, and the (possibly description-reassigned) header text. -/
def esvHeaderMine (header0 : String) (sectionType : String) :
    List String × Bool × String :=
  let headerLower0 := pyLower header0
  let (headerPara, headerLower) :=
    if byPrefixMatch headerLower0.data then
      match splitOnce '\n' header0.data with
      | some (_, rest) =>
        let d := lcStr rest
        (d, pyLower d)
      | none => (header0, headerLower0)
    else (header0, headerLower0)
  if esvTriggerPhrases.any (fun p => strContains headerLower p) then
    let vs := esvP1 headerPara ++ esvP1b headerPara ++
      esvP2a headerPara headerLower ++ esvP2b headerPara ++
      esvP2c headerPara ++ esvP2d headerPara ++ esvP2e headerPara ++
      esvP3 headerPara
    let vs := vs ++ esvP4a headerPara headerLower sectionType vs
    (vs ++ esvP4 headerPara, true, headerPara)
  else ([], false, headerPara)

def startsWithAny (s : String) (ps : List String) : Bool :=
  ps.any (fun p => strStartsWith s p)

def excludePhrases : List String :=
  ["market analysis", "market share", "this segment", "this area",
   "this region", "key stakeholders", "projected share"]

def regionNames : List String :=
  ["north america", "europe", "asia-pacific", "latin america", "middle east",
   "africa", "asia pacific", "lamea"]

def regionVerbList : List String :=
  ["influence", "market size", "volume", "diagnostics", "methodology",
   "process", "research", "data sources"]

def regionKeywords13 : List String :=
  ["north america", "south america", "europe", "asia", "pacific",
   "latin america", "middle east", "africa", "lamea", "apac", "emea",
   "america", "oceania"]

def invalidRegionTerms : List String :=
  ["influence", "market size", "volume", "diagnostics", "methodology",
   "process", "research", "data sources", "government", "regulatory",
   "historical", "overview", "emerging", "technological", "stakeholders"]

def sentenceVerbs : List String :=
  ["is employed", "are used", "is used", "are employed", "focuses on",
   "targeting", "including", "such as", "helps in", "provides", "allows",
   "enables", "ensures", "aims to", "seeks to", "designed to", "used to",
   "intended to"]

def sentenceIndicators1 : List String :=
  ["is employed", "are used", "is used", "are employed", "focuses on",
   "targeting", "including", "such as"]

def sentenceIndicators2 : List String :=
  ["is employed", "are used", "is used", "are employed", "focuses on",
   "targeting", "including", "such as", "helps in", "provides",
   "across various", "each targeting", "each with"]

def descPhrases1 : List String :=
  ["increased", "access to", "growth rate", "expected to", "impact", "trend",
   "outlook", "driven by", "the largest", "the dominant", "patients with",
   "g-csf is", "targeted", "treatments", "improve patient", "outcomes",
   "healthcare", "infrastructure"]

def genericSingles : List String :=
  ["impact", "trend", "outlook", "growth", "share", "market", "targeted"]

def headingDescPhr : List String :=
  ["the primary", "this segment", "this application"]

def validStartsExcl1 : List String :=
  ["by ", "the ", "this ", "these ", "aml ", "market", "key ", "the global",
   "other ", "projected "]

def validStartsExcl2 : List String :=
  ["by ", "the ", "this ", "these ", "market", "key ", "other ", "rest of",
   "projected "]

def headingStartsExcl : List String :=
  ["by ", "the ", "this ", "these ", "market", "key ", "projected ",
   "products such", "the g-csf market"]

def invalidPatternsFirst6 : List String :=
  ["impact", "trend", "outlook", "growth", "share", "targeted"]

def invalidPatternsRest : List String :=
  ["increased", "access to", "growth rate", "expected to", "driven by",
   "the largest", "improve patient", "treatments to", "outcomes",
   "healthcare infrastructure", "reflects", "differences in",
   "definition and scope", "overview of", "research methodology",
   "research process", "primary and secondary", "data sources",
   "emerging opportunities", "technological advances", "across various",
   "each targeting", "each with", "vary widely", "government and regulatory",
   "historical market", "market size and volume", "this is the most",
   "this is the critical", "dimension of segmentation", "in 2024,",
   "in 2024 ", "the most critical dimension"]

/-- Case-insensitive order-preserving de-duplication of the early
return (lines 2231-2242). -/
def esvDedupCI (values : List String) : List String :=
  (values.foldl (fun (acc : List String × List String) v =>
    let vv := pyStrip v
    if vv = "" then acc
    else if pyLower vv ∈ acc.2 then acc
    else (acc.1 ++ [vv], acc.2 ++ [pyLower vv])) ([], [])).1

/-- The same-paragraph newline mining (lines 2251-2272). -/
def esvNewlineMine (headerPara : String) (values : List String) : List String :=
  if strContains headerPara "\n" then
    match strSplitChar headerPara '\n' with
    | [] => values
    | _ :: tail =>
      tail.foldl (fun vs line =>
        let line := pyStrip line
        if line ≠ "" && line.length > 10 && strContains line "," then
          (commaAndSplit line.data).foldl (fun vs2 valL =>
            let val := lcStr valL
            let val := lcStr (cutWords
              ["remain", "are", "encompass", "represent", "account", "drive",
               "continue", "include", "comprise"] true false val.data)
            if val ≠ "" && val.length > 3 && headIsUpper val then
              if val.length < 80 && val ∉ vs2 then vs2 ++ [val] else vs2
            else vs2) vs
        else vs) values
  else values

/-- The comma-separated first-line mining (lines 2292-2308). -/
def esvCommaMine (values : List String) (firstLine : String) : List String :=
  if strContains firstLine "," && firstLine.length < 200 then
    match valueListMatch firstLine.data with
    | some g =>
      let valueText := lcStr g
      let valueText : String := ⟨subAndCap valueText.data⟩
      (commaWsSplit valueText.data).foldl (fun vs valL =>
        let val := lcStr valL
        let val := lcStr (cutWords
          ["remain", "are", "encompass", "represent", "account", "drive",
           "continue", "include", "comprise"] true false val.data)
        if val ≠ "" && val.length > 3 && headIsUpper val then
          if val.length < 80 && val ∉ vs then vs ++ [val] else vs
        else vs) values
    | none => values
  else values

/-- The colon-heading branch (lines 2330-2389). -/
def esvColonProcess (sectionType : String) (values : List String)
    (g : List Char) : List String :=
  let value := lcStr g
  let value :=
    if strContains value "(" && strContains value ")" then
      match firstParen value.data with
      | some body =>
        if !upperAbbrevOnly (lcStrip body) then lcStr (stripParens value.data)
        else value
      | none => value
    else value
  let value := lcStr (stripWordPrefix ["the", "this", "these", "that"] value.data)
  let valueLower := pyLower value
  let isRegionName := regionNames.any (fun r => strContains valueLower r)
  if isRegionName && sectionType ≠ "region" then values
  else if sectionType = "region" && !isRegionName &&
      (value.length > 40 ||
        regionVerbList.any (fun t => strContains valueLower t)) then values
  else
    let isValid := value.length < 70 &&
      !startsWithAny valueLower validStartsExcl1 &&
      (pySplitWs value).length ≤ 10 &&
      value ∉ values &&
      !strContains valueLower "market analysis" &&
      !strContains valueLower "market share" &&
      !strContains valueLower "projected share" &&
      !strContains valueLower "the market" &&
      !strContains valueLower "the end users" &&
      !strContains valueLower "end-user" &&
      !strStartsWith valueLower "oem" &&
      !strStartsWith valueLower "rest of"
    if isValid then
      if strStartsWith valueLower "diagnostic" then
        if strContains valueLower "laborator" ||
            strContains valueLower "service" ||
            strContains valueLower "center" then values ++ [value]
        else values
      else
        let value := if strContains value " and " && sectionType ≠ "region" then
            strReplace value " and " " & "
          else value
        values ++ [value]
    else values

/-- The colon-heading-at-start-of-long-paragraph branch
(lines 2394-2435). -/
def esvAltProcess (sectionType : String) (values : List String)
    (textLower : String) (g : List Char) : List String :=
  if sentenceIndicators1.any (fun ind => strContains textLower ind) then values
  else
    let value := lcStr g
    let value :=
      if strContains value "(" && strContains value ")" then
        match firstParen value.data with
        | some body =>
          if !upperAbbrevOnly (lcStrip body) then lcStr (stripParens value.data)
          else value
        | none => value
      else value
    let value := lcStr (stripWordPrefix ["the", "this", "these", "that"] value.data)
    let valueLower := pyLower value
    let isRegionName := regionNames.any (fun r => strContains valueLower r)
    if isRegionName && sectionType ≠ "region" then values
    else if value.length < 70 &&
        !startsWithAny valueLower validStartsExcl2 &&
        (pySplitWs value).length ≤ 10 &&
        value ∉ values &&
        !strContains valueLower "market analysis" &&
        !strContains valueLower "market share" &&
        !strContains valueLower "projected share" then
      let value := if strContains value " and " && sectionType ≠ "region" then
          strReplace value " and " " & "
        else value
      values ++ [value]
    else values

/-- The standalone-heading detection (lines 2445-2467). -/
def esvHeadingValue (text : String) : Option String :=
  if headingFullMatch (pyStrip text).data then some (pyStrip text)
  else
    match headingGroupMatch text.data with
    | some g =>
      let ph := lcStr g
      let remaining := lcStr (text.data.drop ph.length)
      if remaining = "" then some ph
      else if headIsLower remaining then some ph
      else if (pySplitWs ph).length ≤ 8 && ph.length ≤ 80 then some ph
      else none
    | none => none

/-- The standalone-heading branch (lines 2469-2525). -/
def esvHeadingProcess (sectionType : String) (values : List String)
    (pv : String) : List String :=
  let valueLower := pyLower pv
  let isHeadingLike := pv.length ≤ 80 && (pySplitWs pv).length ≤ 8 &&
    !hasNumberingPrefix pv.data &&
    !startsWithAny valueLower headingStartsExcl &&
    !strContains valueLower "market analysis" &&
    !strContains valueLower "market share" &&
    !strContains valueLower "projected share" &&
    pv ∉ values
  if isHeadingLike then
    let isRegionName := regionNames.any (fun r => strContains valueLower r)
    if isRegionName && sectionType ≠ "region" then values
    else
      let value := lcStr (stripWordPrefix ["the", "this", "these", "that"] pv.data)
      let valueLower := pyLower value
      if sentenceIndicators2.any (fun i => strContains valueLower i) then values
      else if descPhrases1.any (fun p => strContains valueLower p) then values
      else if (pySplitWs value).length = 1 && valueLower ∈ genericSingles then
        values
      else if value.length > 60 then
        if (["to", "for", "with"].any (fun w => strContains valueLower w)) &&
            (strContains valueLower "across" ||
             strContains valueLower "various" ||
             strContains valueLower "each") then values
        else if (pySplitWs value).length > 8 then values
        else if headIsLower value then values
        else if headingDescPhr.any (fun p => strContains valueLower p) then
          values
        else if 3 ≤ value.length && value.length ≤ 80 then values ++ [value]
        else values
      else if 3 ≤ value.length && value.length ≤ 80 then values ++ [value]
      else values
  else values

/-- The region-section post-filter and LAMEA expansion
(lines 2528-2558). -/
def esvRegionFilter (paras : List String) (paraIdx : Nat)
    (values : List String) : List String :=
  if values ≠ [] then
    let valid := values.filter (fun v =>
      let vl := pyLower v
      (regionNames ++ regionKeywords13).any (fun r => strContains vl r) &&
      !invalidRegionTerms.any (fun t => strContains vl t))
    let values := if valid ≠ [] then valid else values
    let found := ((paras.drop paraIdx).take 25).any (fun p =>
      let pl := pyLower p
      strContains pl "latin america" && strContains pl "middle east" &&
        strContains pl "africa")
    values.map (fun v =>
      let vl := pyLower v
      if (strContains vl "rest of" || strContains vl "lamea") && found then
        "Latin America, Middle East & Africa"
      else v)
  else values

def descPhrasesFinal : List String :=
  ["the primary", "this segment", "this sub-segment", "this application",
   "the end users", "the market", "the largest", "the dominant",
   "this is the", "the most critical"]

/-- The final value cleanup (lines 2560-2633). -/
def esvFinalClean (sectionType : String) (values : List String) : List String :=
  values.filterMap (fun val =>
    let val := if strContains val "(e.g." then
        lcStr (beforeFirstSub "(e.g.".data (val.data.length + 1) val.data)
      else val
    if val = "" then none
    else
      let vl := pyLower val
      if sectionType = "region" &&
          (!regionKeywords13.any (fun r => strContains vl r) ||
           invalidRegionTerms.any (fun t => strContains vl t)) then none
      else if sentenceVerbs.any (fun v => strContains vl v) then none
      else if vl ∈ invalidPatternsFirst6 ||
          invalidPatternsRest.any (fun p => strContains vl p) then none
      else if val.length > 60 &&
          (["to", "for", "with", "and", "of", "in", "at", "on", "by"].any
            (fun w => strContains vl w)) &&
          ((["to", "for", "with", "of", "in", "at", "on", "by"].filter
            (fun w => w ∈ pySplitWs vl)).length > 2) then none
      else if headIsLower val then none
      else if descPhrasesFinal.any (fun p => strContains vl p) then none
      else some val)


/-- The paragraph loop of `extract_segment_values` (lines 2274-2525):
walk up to 20 paragraphs after the header, stopping at the next
`By ...` header. -/
def esvLoop (paras : List String) (sectionType : String) (stop : Nat) :
    Nat → Nat → List String → Bool → List String
  | 0, _, values, _ => values
  | fuel + 1, i, values, skipIntro =>
    if i ≥ stop then values
    else
      let text0 := pyStrip (paras.getD i "")
      if text0 = "" then esvLoop paras sectionType stop fuel (i + 1) values skipIntro
      else if byPrefixMatch text0.data then values
      else if text0.length < 3 then
        esvLoop paras sectionType stop fuel (i + 1) values skipIntro
      else
        let firstLine := if strContains text0 "\n" then
            lcStr (text0.data.takeWhile (fun c => c ≠ '\n'))
          else text0
        let values := esvCommaMine values firstLine
        let text := firstLine
        let textLower := pyLower text
        let startsCapHeading :=
          match text.data with
          | c :: d :: _ =>
            isAsciiUpper c && (isAsciiAlnum d || pyIsSpace d || d = '&' || d = '-')
          | _ => false
        if skipIntro && text.length > 100 && !startsCapHeading then
          esvLoop paras sectionType stop fuel (i + 1) values false
        else if excludePhrases.any (fun p => strStartsWith textLower p) then
          esvLoop paras sectionType stop fuel (i + 1) values false
        else
          let m := capColonMatch text.data
          let values := match m with
            | some g => esvColonProcess sectionType values g
            | none => values
          let values := if m.isNone && text.length > 50 then
              match capColonMatch (text.data.take 100) with
              | some g => esvAltProcess sectionType values textLower g
              | none => values
            else values
          let values := if m.isNone && text.length > 0 then
              match esvHeadingValue text with
              | some pv => esvHeadingProcess sectionType values pv
              | none => values
            else values
          esvLoop paras sectionType stop fuel (i + 1) values false

/-- `extract_segment_values(para_idx, section_type)` (lines 1950-2635)
over the document's paragraph texts; called on enumerate indices only,
so out-of-range indexing is modelled by the empty header text.
`max_paras` is the default 20 at every call site. -/
def extract_segment_values (paras : List String) (paraIdx : Nat)
    (sectionType : String) : List String :=
  let header0 := pyStrip (paras.getD paraIdx "")
  let (values0, entered, headerPara1) :=
    if header0 ≠ "" && header0.length > 20 then esvHeaderMine header0 sectionType
    else ([], false, header0)
  if entered && sectionType ∈ ["treatment", "phase", "output_power"] &&
      2 ≤ values0.length then
    (esvDedupCI values0).take 8
  else
    let values1 := esvNewlineMine headerPara1 values0
    let stop := min (paraIdx + 21) paras.length
    let values2 := esvLoop paras sectionType stop (stop + 1) (paraIdx + 1)
      values1 true
    let values3 := if sectionType = "region" then
        esvRegionFilter paras paraIdx values2
      else values2
    (esvFinalClean sectionType values3).take 8

/-! ### Segmentation-section detection and the constructed title
(extractor.py lines 1779-3092) -/

def rtM (toks : List RTok) (s : String) : Bool := rtMatches toks s.data

/-- The `segments` dictionary: which section headers were seen and
their header texts. -/
structure Segs where
  phase : Option String
  outputPower : Option String
  treatment : Option String
  diagnostic : Option String
  enduser : Option String
  distribution : Option String
  region : Option String

def emptySegs : Segs := ⟨none, none, none, none, none, none, none⟩

/-- `len(segments)`. -/
def Segs.size (s : Segs) : Nat :=
  [s.phase.isSome, s.outputPower.isSome, s.treatment.isSome,
   s.diagnostic.isSome, s.enduser.isSome, s.distribution.isSome,
   s.region.isSome].count true

/-- The `segment_indices` dictionary. -/
structure SegIdx where
  phase : Option Nat
  outputPower : Option Nat
  treatment : Option Nat
  diagnostic : Option Nat
  enduser : Option Nat
  distribution : Option Nat
  region : Option Nat

def emptySegIdx : SegIdx := ⟨none, none, none, none, none, none, none⟩

/-- The dynamic long-paragraph detailed-title extraction
(lines 1888-1900): `({fn}.*?Market).*?By\s+Treatment\s+Type.*?
Forecast.*?(20\d{2}.*?20\d{2})` under `re.I | re.S`, then the
`(.*?Forecast.*?20\d{2}.*?20\d{2})` prefix of the whitespace-collapsed
group. -/
def detailedFromLongPara (fnNoMarket : String) (cleanText : String) :
    Option String :=
  match rtSearch
      [.lit fnNoMarket, .lazyAny, .lit "market", .lazyAny, .lit "by", .ws1,
       .lit "treatment", .ws1, .lit "type", .lazyAny, .lit "forecast",
       .lazyAny, .year, .lazyAny, .year] cleanText.data with
  | none => none
  | some (start, rem) =>
    let g0 := (cleanText.data.drop start).take
      (cleanText.data.length - start - rem.length)
    let ct : String := ⟨lcCollapseWs (lcStrip g0)⟩
    match rtMatch (rtFuelFor ct.data)
        [.lazyAny, .lit "forecast", .lazyAny, .year, .lazyAny, .year] ct.data with
    | some rem2 =>
      some (clean_final_title (norm
        (lcStr (ct.data.take (ct.data.length - rem2.length)))))
    | none => none

/-- One paragraph of the `segments` scan (lines 1783-1883): the checks
are independent `if`s on the emoji-cleaned text. -/
def segScanUpdate (segs : Segs × Bool) (cleanText : String) : Segs × Bool :=
  let ctl := pyLower cleanText
  let n := cleanText.length
  let noMA := !strContains ctl "market analysis"
  let (s, found) := segs
  let (s, found) :=
    if strContains ctl "by phase type" &&
        (noMA && (n < 120 || strStartsWith ctl "by phase type" ||
          rtM [.lit "by", .ws1, .lit "phase", .ws1, .lit "type",
            .cls1 pyIsSpace] ctl)) then
      ({ s with phase := some cleanText }, true)
    else (s, found)
  let (s, found) :=
    if (strContains ctl "by output power" || strContains ctl "by power output") &&
        (noMA && (n < 140 || strStartsWith ctl "by output power" ||
          strStartsWith ctl "by power output" ||
          rtM [.lit "by", .ws1, .alt [[.lit "output", .ws1, .lit "power"],
            [.lit "power", .ws1, .lit "output"]], .cls1 pyIsSpace] ctl)) then
      ({ s with outputPower := some cleanText }, true)
    else (s, found)
  let (s, found) :=
    if (strContains ctl "by treatment type" || strContains ctl "by application") &&
        (noMA && (n < 100 || strStartsWith ctl "by application" ||
          strStartsWith ctl "by treatment type" ||
          rtM [.lit "by", .ws1, .alt [[.lit "treatment", .ws1, .lit "type"],
            [.lit "application"]], .cls1 pyIsSpace] ctl)) then
      ({ s with treatment := some cleanText }, true)
    else (s, found)
  let (s, found) :=
    if (strContains ctl "by diagnostic approach" ||
        strContains ctl "by diagnostic technology" ||
        (strContains ctl "by type" && !strContains ctl "by phase type") ||
        strContains ctl "by product type" ||
        strContains ctl "by type of product") &&
        (noMA && (n < 100 || strStartsWith ctl "by product type" ||
          strStartsWith ctl "by type" || strStartsWith ctl "by diagnostic" ||
          rtM [.lit "by", .ws1, .opt [.lit "product", .ws1], .lit "type",
            .cls1 pyIsSpace] ctl)) then
      if s.diagnostic.isNone then ({ s with diagnostic := some cleanText }, true)
      else (s, found)
    else (s, found)
  let (s, found) :=
    if (strContains ctl "by end-user" || strContains ctl "by end user") &&
        (noMA && (n < 100 || strStartsWith ctl "by end user" ||
          strStartsWith ctl "by end-user" ||
          rtM [.lit "by", .ws1, .lit "end", .opt [.cls1 hyWsCls], .lit "user",
            .cls1 pyIsSpace] ctl)) then
      ({ s with enduser := some cleanText }, true)
    else (s, found)
  let (s, found) :=
    if strContains ctl "by distribution channel" && n < 100 && noMA then
      ({ s with distribution := some cleanText }, true)
    else (s, found)
  let (s, found) :=
    if (strContains ctl "by region" || strContains ctl "by geography") &&
        (noMA && (n < 100 || strStartsWith ctl "by region" ||
          strStartsWith ctl "by geography" ||
          rtM [.lit "by", .ws1, .alt [[.lit "region"], [.lit "geography"]],
            .cls1 pyIsSpace] ctl)) then
      ({ s with region := some cleanText }, true)
    else (s, found)
  (s, found)

/-- The `segments` scan (lines 1783-1900), which can return a detailed
title straight from a long paragraph. -/
def segScan (fnNoMarket : String) : List String → Segs × Bool →
    Sum String (Segs × Bool)
  | [], st => .inr st
  | p :: ps, st =>
    let text := pyStrip p
    if text = "" then segScan fnNoMarket ps st
    else
      let cleanText := remove_emojis text
      let ctl := pyLower cleanText
      let st := segScanUpdate st cleanText
      if cleanText.length > 150 && strContains ctl "by treatment type" &&
          strContains ctl "by diagnostic approach" then
        match detailedFromLongPara fnNoMarket cleanText with
        | some t => .inl t
        | none => segScan fnNoMarket ps st
      else segScan fnNoMarket ps st

/-- One paragraph of the `segment_indices` scan (lines 1907-1946): an
`elif` chain on the raw stripped text (no emoji removal here). -/
def segIdxUpdate (si : SegIdx) (paraIdx : Nat) (text : String) : SegIdx :=
  let ctl := pyLower text
  let n := text.length
  if strContains ctl "market analysis" then si
  else if strContains ctl "by phase type" then
    if n < 140 || strStartsWith ctl "by phase type" ||
        rtM [.lit "by", .ws1, .lit "phase", .ws1, .lit "type",
          .cls1 pyIsSpace] ctl then
      { si with phase := some paraIdx }
    else si
  else if strContains ctl "by output power" || strContains ctl "by power output" then
    if n < 160 || strStartsWith ctl "by output power" ||
        strStartsWith ctl "by power output" ||
        rtM [.lit "by", .ws1, .alt [[.lit "output", .ws1, .lit "power"],
          [.lit "power", .ws1, .lit "output"]], .cls1 pyIsSpace] ctl then
      { si with outputPower := some paraIdx }
    else si
  else if strContains ctl "by diagnostic technology" ||
      strContains ctl "by diagnostic approach" ||
      (strContains ctl "by type" && !strContains ctl "by phase type") ||
      strContains ctl "by product type" ||
      strContains ctl "by type of product" then
    if n < 100 || strStartsWith ctl "by product type" ||
        strStartsWith ctl "by type" || strStartsWith ctl "by diagnostic" ||
        rtM [.lit "by", .ws1, .opt [.lit "product", .ws1], .lit "type",
          .cls1 pyIsSpace] ctl then
      if si.diagnostic.isNone then { si with diagnostic := some paraIdx }
      else si
    else si
  else if strContains ctl "by treatment type" || strContains ctl "by application" then
    if n < 100 || strStartsWith ctl "by application" ||
        strStartsWith ctl "by treatment type" ||
        rtM [.lit "by", .ws1, .alt [[.lit "treatment", .ws1, .lit "type"],
          [.lit "application"]], .cls1 pyIsSpace] ctl then
      { si with treatment := some paraIdx }
    else si
  else if strContains ctl "by end-user" || strContains ctl "by end user" then
    if n < 100 || strStartsWith ctl "by end user" ||
        strStartsWith ctl "by end-user" ||
        rtM [.lit "by", .ws1, .lit "end", .opt [.cls1 hyWsCls], .lit "user",
          .cls1 pyIsSpace] ctl then
      { si with enduser := some paraIdx }
    else si
  else if strContains ctl "by distribution channel" then
    if n < 100 || strStartsWith ctl "by distribution channel" ||
        rtM [.lit "by", .ws1, .lit "distribution", .ws1, .lit "channel",
          .cls1 pyIsSpace] ctl then
      { si with distribution := some paraIdx }
    else si
  else if strContains ctl "by region" || strContains ctl "by geography" then
    if n < 100 || strStartsWith ctl "by region" ||
        strStartsWith ctl "by geography" ||
        rtM [.lit "by", .ws1, .alt [[.lit "region"], [.lit "geography"]],
          .cls1 pyIsSpace] ctl then
      { si with region := some paraIdx }
    else si
  else si

/-- The `segment_indices` scan (lines 1906-1946). -/
def segIdxScan (paras : List String) : SegIdx :=
  (paras.enum.foldl (fun si pr =>
    let text := pyStrip pr.2
    if text = "" then si else segIdxUpdate si pr.1 text) emptySegIdx)

/-- `re.search(r'(\([A-Z0-9\-]+\))', filename)` (line 2641): the first
parenthesised run of capitals/digits/hyphens, parentheses included. -/
def searchParenAbbrevFile : Nat → List Char → Option String
  | 0, _ => none
  | _ + 1, [] => none
  | fuel + 1, c :: cs =>
    if c = '(' then
      let body := cs.takeWhile (fun d => isAsciiUpper d || isAsciiDigit d || d = '-')
      if !body.isEmpty && (cs.drop body.length).head? = some ')' then
        some ⟨'(' :: body ++ [')']⟩
      else searchParenAbbrevFile fuel cs
    else searchParenAbbrevFile fuel cs

/-- `s.split(pat, 1)`. -/
def splitOnceSubAux (pat : List Char) : Nat → List Char → List Char →
    Option (List Char × List Char)
  | 0, _, _ => none
  | _ + 1, accRev, [] => if lcIsPrefixOf pat [] then some (accRev.reverse, []) else none
  | fuel + 1, accRev, c :: cs =>
    if lcIsPrefixOf pat (c :: cs) && !pat.isEmpty then
      some (accRev.reverse, (c :: cs).drop pat.length)
    else splitOnceSubAux pat fuel (c :: accRev) cs

def splitOnceSub (pat l : List Char) : Option (List Char × List Char) :=
  splitOnceSubAux pat (l.length + 1) [] l

/-- `re.search(r'\(([A-Z][A-Z0-9\-]{1,})\)', text)` (line 2676): start
index of `(` and the inner group. -/
def parenAbbrevSearch : Nat → Nat → List Char → Option (Nat × List Char)
  | 0, _, _ => none
  | _ + 1, _, [] => none
  | fuel + 1, idx, c :: cs =>
    if c = '(' then
      match cs with
      | d :: ds =>
        if isAsciiUpper d then
          let body := ds.takeWhile (fun e => isAsciiUpper e || isAsciiDigit e || e = '-')
          if !body.isEmpty && (ds.drop body.length).head? = some ')' then
            some (idx, d :: body)
          else parenAbbrevSearch fuel (idx + 1) cs
        else parenAbbrevSearch fuel (idx + 1) cs
      | [] => none
    else parenAbbrevSearch fuel (idx + 1) cs

/-- The abbreviation scan over the first 20 paragraphs
(lines 2660-2696). -/
def abbrevScan (paras : List String) (marketKeywords : List String) :
    Option String :=
  (paras.take 20).foldl (fun acc text =>
    match acc with
    | some _ => acc
    | none =>
      let tl := pyLower text
      if marketKeywords.any (fun kw => strContains tl kw) then
        let viaParen :=
          match parenAbbrevSearch (text.data.length + 1) 0 text.data with
          | some (pos, inner) =>
            let start := pos - 100
            let ctx := pyLower ⟨(text.data.drop start).take (pos + 50 - start)⟩
            if marketKeywords.any (fun kw => strContains ctx kw) then
              some ("(" ++ (⟨inner⟩ : String) ++ ")")
            else none
          | none => none
        match viaParen with
        | some a => some a
        | none =>
          if (strContains tl "polyglycerol polyricinoleate" ||
              strContains tl "pgpr") && ciContains "(pgpr)" text.data then
            some "(PGPR)"
          else if (strContains tl "acute myeloid leukemia" ||
              strContains tl "aml diagnostics") && ciContains "(aml)" text.data then
            some "(AML)"
          else none
      else none) none

/-- `re.sub(r'(\d)\s*[-]\s*(\d)', r'\1–\2', ·)` (line 2781). -/
def digitDashSubAux : Nat → List Char → List Char
  | 0, l => l
  | _ + 1, [] => []
  | fuel + 1, c :: cs =>
    if isAsciiDigit c then
      let ws1 := cs.takeWhile pyIsSpace
      match cs.drop ws1.length with
      | '-' :: r2 =>
        let ws2 := r2.takeWhile pyIsSpace
        match r2.drop ws2.length with
        | d :: ds =>
          if isAsciiDigit d then c :: '–' :: d :: digitDashSubAux fuel ds
          else c :: digitDashSubAux fuel cs
        | [] => c :: digitDashSubAux fuel cs
      | _ => c :: digitDashSubAux fuel cs
    else c :: digitDashSubAux fuel cs

/-- The always-running medical mapping loop of the diagnostic block
(lines 2803-2816; the `if is_medical:` above it only guards a dead
`expected_order` assignment). -/
def diagMedicalFold (vals : List String) : List String :=
  vals.foldl (fun acc val =>
    let vl := pyLower val
    let acc := if strContains vl "molecular diagnostics" &&
        "Molecular Diagnostics" ∉ acc then acc ++ ["Molecular Diagnostics"]
      else acc
    let acc := if strContains vl "flow cytometry" && "Flow Cytometry" ∉ acc then
        acc ++ ["Flow Cytometry"]
      else acc
    let acc := if (strContains vl "ngs" ||
        strContains vl "next generation sequencing" ||
        strContains vl "next-gen sequencing") && "NGS" ∉ acc then acc ++ ["NGS"]
      else acc
    let acc := if strContains vl "liquid biopsy" && "Liquid Biopsy" ∉ acc then
        acc ++ ["Liquid Biopsy"]
      else acc
    let acc := if (strContains vl "immunohistochemistry" ||
        (strContains vl "ihc" && vl ≠ "others")) && "IHC" ∉ acc then
        acc ++ ["IHC"]
      else acc
    let acc := if (strContains vl "others" || val = "Others") &&
        "Others" ∉ acc then acc ++ ["Others"]
      else acc
    acc) []

/-- Document-wide NGS search (lines 2819-2824). -/
def ngsDocSearch (paras : List String) : Bool :=
  paras.any (fun p =>
    let pl := pyLower p
    (strContains pl "ngs" || strContains pl "next generation sequencing") &&
      strContains (⟨pl.data.take 100⟩ : String) "diagnostic")

/-- Document-wide Liquid Biopsy search (lines 2825-2830). -/
def lbDocSearch (paras : List String) : Bool :=
  paras.any (fun p =>
    let pl := pyLower p
    strContains pl "liquid biopsy" &&
      strContains (⟨pl.data.take 100⟩ : String) "diagnostic")

/-- `ordered = [p for p in preferred if p in vals] + [v for v in vals
if v not in ordered]`. -/
def orderPreferred (pref vals : List String) : List String :=
  let ord := pref.filter (fun p => p ∈ vals)
  ord ++ vals.filter (fun v => v ∉ ord)

/-- The generic-type cleanup of the diagnostic block (lines 2845-2858). -/
def genericDiagFold (vals : List String) : List String :=
  vals.foldl (fun acc val =>
    let vl := pyLower val
    if strContains vl "innovator" && strContains vl "g-csf" then
      acc ++ ["Innovator G-CSF"]
    else if strContains vl "biosimilar" then acc ++ ["Biosimilars"]
    else if val ∉ acc then acc ++ [val]
    else acc) []

/-- The treatment-value cleanup (lines 2884-2925). -/
def treatmentFold (vals : List String) : List String :=
  vals.foldl (fun acc val =>
    let vl := pyLower val
    if strContains vl "disease diagnosis" then acc ++ ["Disease Diagnosis"]
    else if strContains vl "prognostic" then acc ++ ["Prognostic Determination"]
    else if strContains vl "treatment monitoring" then
      acc ++ ["Treatment Monitoring"]
    else if strContains vl "recurrence" then acc ++ ["Recurrence Detection"]
    else if strContains vl "chemotherapy-induced neutropenia" then
      if "Chemotherapy-Induced Neutropenia" ∉ acc then
        acc ++ ["Chemotherapy-Induced Neutropenia"]
      else acc
    else if strContains vl "bone marrow failure" then
      if "Bone Marrow Failure" ∉ acc then acc ++ ["Bone Marrow Failure"] else acc
    else if strContains vl "stem cell transplantation" ||
        strContains vl "hematopoietic stem cell" ||
        strContains vl "post-hematopoietic" then
      if "Stem Cell Transplantation" ∉ acc then
        acc ++ ["Stem Cell Transplantation"]
      else acc
    else if strContains vl "chronic neutropenia" then
      if "Chronic Neutropenia" ∉ acc then acc ++ ["Chronic Neutropenia"] else acc
    else if val ∉ acc then
      let val := if strContains vl "bridge" && strContains vl "lung" then
          (⟨lcReplaceCI "bridge-to-lung".data "Bridge-to-Lung".data val.data⟩ : String)
        else val
      if strContains vl "other" && strContains vl "industrial" then
        if "Industrial" ∉ acc then acc ++ ["Industrial"] else acc
      else if strContains vl "other application" then
        if "Industrial" ∉ acc then acc ++ ["Industrial"] else acc
      else acc ++ [val]
    else acc) []

/-- The end-user-value cleanup (lines 2939-2985). -/
def enduserFold (vals : List String) : List String :=
  vals.foldl (fun acc val =>
    let vl := pyLower val
    if strContains vl "hospitals" then
      if "Hospitals" ∉ acc then acc ++ ["Hospitals"] else acc
    else if strContains vl "diagnostic laborator" then
      if "Diagnostic Laboratories" ∉ acc then acc ++ ["Diagnostic Laboratories"]
      else acc
    else if strContains vl "research" &&
        (strContains vl "institut" || strContains vl "academic") then
      if "Research Institutions" ∉ acc then acc ++ ["Research Institutions"]
      else acc
    else if strContains vl "hospital" then
      if "Hospitals" ∉ acc then acc ++ ["Hospitals"] else acc
    else if strContains vl "oncology clinic" then
      if "Oncology Clinics" ∉ acc then acc ++ ["Oncology Clinics"] else acc
    else if strContains vl "ambulatory" &&
        (strContains vl "surgical" || strContains vl "surgery") then
      if "Ambulatory Surgical Centers" ∉ acc then
        acc ++ ["Ambulatory Surgical Centers"]
      else acc
    else if strContains vl "homecare" || strContains vl "home care" then
      if "Homecare Settings" ∉ acc then acc ++ ["Homecare Settings"] else acc
    else if strContains vl "pharmaceutical" then
      if !strContains (strJoinSep " " acc) "Pharmaceutical" then
        acc ++ ["Pharmaceuticals"]
      else acc
    else if strContains vl "food" then
      if "Food Industry" ∉ acc then acc ++ ["Food Industry"] else acc
    else if strContains vl "cosmetic" then
      if "Cosmetics & Personal Care" ∉ acc then
        acc ++ ["Cosmetics & Personal Care"]
      else acc
    else if strContains vl "agricultural" || strContains vl "agriculture" then
      if "Agriculture" ∉ acc then acc ++ ["Agriculture"] else acc
    else if strContains vl "industrial" || strContains vl "other" then
      if "Industrial" ∉ acc then acc ++ ["Industrial"] else acc
    else if val ∉ acc then acc ++ [val]
    else acc) []

/-- The distribution-value cleanup (lines 3026-3043). -/
def distributionFold (vals : List String) : List String :=
  vals.foldl (fun acc val =>
    let vl := pyLower val
    if strContains vl "supermarket" || strContains vl "hypermarket" then
      if "Supermarkets" ∉ acc then acc ++ ["Supermarkets"] else acc
    else if strContains vl "online" && strContains vl "retail" then
      if "Online Retail" ∉ acc then acc ++ ["Online Retail"] else acc
    else if strContains vl "convenience" && strContains vl "store" then
      if "Convenience Stores" ∉ acc then acc ++ ["Convenience Stores"] else acc
    else if strContains vl "foodservice" || strContains vl "food service" then
      if "Foodservice" ∉ acc then acc ++ ["Foodservice"] else acc
    else if val ∉ acc then acc ++ [val]
    else acc) []

/-- Construction of the detailed title from segmentation sections
(extractor.py lines 2637-3092). -/
def constructTitle (paras : List String) (filename : String) (segs : Segs)
    (si : SegIdx) : String :=
  let preservedAbbrev := searchParenAbbrevFile (filename.data.length + 1)
    filename.data
  let baseMarketName :=
    match preservedAbbrev with
    | some pa =>
      match splitOnceSub pa.data filename.data with
      | some (bf, af) =>
        let before := pyStrip (strReplace (strReplace (⟨bf⟩ : String) "-" " ") "_" " ")
        let after := pyStrip (strReplace (strReplace (⟨af⟩ : String) "-" " ") "_" " ")
        pyStrip (before ++ " " ++ pa ++ " " ++ after)
      | none => pyStrip (" " ++ pa ++ " ")
    | none => strReplace (strReplace filename "-" " ") "_" " "
  let marketKeywords := (pySplitWs
    (strReplace (pyLower baseMarketName) " market" "")).filter
    (fun w => w.length > 3)
  let abbreviation := abbrevScan paras marketKeywords
  let abbreviation :=
    match preservedAbbrev, abbreviation with
    | some pa, some ab =>
      if pyLower pa = pyLower ab then none
      else if strContains (pyLower baseMarketName) (pyLower ab) then none
      else some ab
    | _, ab => ab
  let abbreviation :=
    if preservedAbbrev.isSome then none
    else match abbreviation with
      | some ab =>
        if strContains (pyLower baseMarketName) (pyLower ab) then none
        else some ab
      | none => none
  let baseMarketName :=
    match abbreviation with
    | some ab =>
      if strContains (pyLower baseMarketName) "diagnostics" then
        strReplace baseMarketName " Diagnostics" (" " ++ ab ++ " Diagnostics")
      else if strContains (pyLower baseMarketName) "market" then
        strReplace baseMarketName " Market" (" " ++ ab ++ " Market")
      else baseMarketName ++ " " ++ ab
    | none => baseMarketName
  let baseMarketName :=
    if !strEndsWith (pyLower baseMarketName) "market" then
      baseMarketName ++ " Market"
    else baseMarketName
  let baseMarketName :=
    match preservedAbbrev with
    | some pa =>
      if strContains (⟨pa.data.map pyUpperChar⟩ : String) "(G-CSF)" &&
          strContains (pyLower baseMarketName)
            "granulocyte colony stimulating factors" then
        "G-CSF (Granulocyte Colony Stimulating Factors) Market"
      else baseMarketName
    | none => baseMarketName
  let isGcsf := strContains (pyLower baseMarketName) "g-csf"
  let titleParts := [baseMarketName]
  let titleParts := titleParts ++
    (if segs.phase.isSome && si.phase.isSome then
      let pv := extract_segment_values paras (si.phase.getD 0) "phase"
      if pv ≠ [] then
        let cleaned := pv.foldl (fun acc val =>
          let v := pyStrip val
          if v = "" then acc
          else
            let v := if pyLower v = "single phase" then "Single Phase"
              else if pyLower v = "three phase" then "Three Phase" else v
            if v ∉ acc then acc ++ [v] else acc) []
        if cleaned ≠ [] then
          ["By Phase Type (" ++ strJoinSep ", " (cleaned.take 6) ++ ")"]
        else []
      else []
    else [])
  let titleParts := titleParts ++
    (if segs.outputPower.isSome && si.outputPower.isSome then
      let ov := extract_segment_values paras (si.outputPower.getD 0)
        "output_power"
      if ov ≠ [] then
        let cleaned := ov.foldl (fun acc val =>
          let v := norm val
          if v = "" then acc
          else
            let v : String := ⟨digitDashSubAux (v.data.length + 1) v.data⟩
            if v ∉ acc then acc ++ [v] else acc) []
        if cleaned ≠ [] then
          ["By Output Power (" ++ strJoinSep ", " (cleaned.take 6) ++ ")"]
        else []
      else []
    else [])
  let titleParts := titleParts ++
    (if segs.diagnostic.isSome && si.diagnostic.isSome then
      let dv := extract_segment_values paras (si.diagnostic.getD 0) "diagnostic"
      if dv ≠ [] then
        let segText := pyLower (segs.diagnostic.getD "")
        let isGenericType := strContains segText "type" ||
          strContains segText "product type"
        let cleaned := diagMedicalFold dv
        let cleaned := if "NGS" ∉ cleaned && ngsDocSearch paras then
            cleaned ++ ["NGS"]
          else cleaned
        let cleaned := if "Liquid Biopsy" ∉ cleaned && lbDocSearch paras then
            cleaned ++ ["Liquid Biopsy"]
          else cleaned
        if cleaned ≠ [] then
          let ordered := orderPreferred
            ["Molecular Diagnostics", "Flow Cytometry", "NGS", "Liquid Biopsy",
             "IHC", "Others"] cleaned
          ["By Technology (" ++ strJoinSep ", " (ordered.take 6) ++ ")"]
        else if isGenericType then
          let c2 := genericDiagFold dv
          if c2 ≠ [] then
            if strContains segText "type of product" || isGcsf then
              ["by Type (" ++ strJoinSep ", " (c2.take 6) ++ ")"]
            else ["By Product Type (" ++ strJoinSep ", " (c2.take 6) ++ ")"]
          else []
        else
          let c3 := (dv.filter (fun v => v.length < 50)).take 6
          if c3 ≠ [] then ["By Product Type (" ++ strJoinSep ", " c3 ++ ")"]
          else []
      else []
    else [])
  let titleParts := titleParts ++
    (if segs.treatment.isSome && si.treatment.isSome then
      let tv := extract_segment_values paras (si.treatment.getD 0) "treatment"
      if tv ≠ [] then
        let cleaned := treatmentFold tv
        if cleaned ≠ [] then
          ["By Application (" ++ strJoinSep ", " (cleaned.take 6) ++ ")"]
        else []
      else []
    else [])
  let titleParts := titleParts ++
    (if segs.enduser.isSome && si.enduser.isSome then
      let ev := extract_segment_values paras (si.enduser.getD 0) "enduser"
      if ev ≠ [] then
        let cleaned := enduserFold ev
        let cleaned := if isGcsf && "Ambulatory Surgical Centers" ∉ cleaned &&
            paras.any (fun p =>
              let pl := pyLower p
              strContains pl "ambulatory" &&
                (strContains pl "surgical center" || strContains pl "asc")) then
            cleaned ++ ["Ambulatory Surgical Centers"]
          else cleaned
        let cleaned := if isGcsf && cleaned ≠ [] then
            orderPreferred ["Hospitals", "Oncology Clinics",
              "Ambulatory Surgical Centers", "Homecare Settings"] cleaned
          else cleaned
        if cleaned ≠ [] then
          if isGcsf then
            ["by End-User (" ++ strJoinSep ", " (cleaned.take 6) ++ ")"]
          else
            let segText := pyLower (segs.enduser.getD "")
            if !strContains segText "industry" then
              ["By End User (" ++ strJoinSep ", " (cleaned.take 6) ++ ")"]
            else
              ["By End-User Industry (" ++ strJoinSep ", " (cleaned.take 6) ++ ")"]
        else []
      else []
    else [])
  let titleParts := titleParts ++
    (if segs.distribution.isSome && si.distribution.isSome then
      let dv := extract_segment_values paras (si.distribution.getD 0)
        "distribution"
      if dv ≠ [] then
        let cleaned := distributionFold dv
        if cleaned ≠ [] then
          if isGcsf then
            ["by Distribution Channel (" ++ strJoinSep ", " (cleaned.take 6) ++ ")"]
          else
            ["By Distribution Channel (" ++ strJoinSep ", " (cleaned.take 6) ++ ")"]
        else []
      else []
    else [])
  let titleParts := titleParts ++
    (if segs.region.isSome then
      if isGcsf then ["by Region"] else ["By Geography"]
    else if segs.size ≥ 2 then
      if isGcsf then ["by Region"] else ["By Geography"]
    else [])
  let titleParts := titleParts ++
    ["Segment Revenue Estimation, Forecast, 2024–2030"]
  let separator := if isGcsf then ", " else "; "
  let constructed :=
    match titleParts with
    | marketName :: s0 :: rest =>
      marketName ++ " " ++ s0 ++
        (if rest ≠ [] then separator ++ strJoinSep separator rest else "")
    | _ => strJoinSep separator titleParts
  clean_final_title (norm constructed)

/-! ### The priority chains of `extract_title` (lines 1596-1775 and
3094-3226) -/

/-- Priority -1 (lines 1599-1624): a standalone report-title label line
with the title in the same paragraph after a newline or in the next
block. -/
def pm1LongForm (restPart : String) : Bool :=
  let low := pyLower restPart
  let hasSeg := strContains low "segment revenue estimation" &&
    strContains low "forecast"
  let hasYr := strHasYearRange restPart
  (hasSeg && hasYr) ||
    (byCount low ≥ 2 && strContains low "market" && hasYr)

def pm1Loop (filename : String) : List String → Option String
  | [] => none
  | text :: rest =>
    let clean := remove_emojis text
    let try1 :=
      if strContains clean "\n" then
        let firstLine := lcStr (clean.data.takeWhile (fun c => c ≠ '\n'))
        let restPart := lcStr ((clean.data.dropWhile (fun c => c ≠ '\n')).drop 1)
        if headerLineMatch firstLine && restPart.length ≥ 40 &&
            pm1LongForm restPart then
          some (ensure_filename_start_and_year (norm restPart) filename)
        else none
      else none
    match try1 with
    | some t => some t
    | none =>
      if !headerLineMatch clean then pm1Loop filename rest
      else
        match rest with
        | [] => none
        | nextBlock :: _ =>
          let nextText := remove_emojis nextBlock
          if nextText.length < 40 then pm1Loop filename rest
          else if pm1LongForm nextText then
            some (ensure_filename_start_and_year (norm nextText) filename)
          else pm1Loop filename rest

/-- First `some` produced by `f` over a list. -/
def findSomeStr (f : String → Option String) : List String → Option String
  | [] => none
  | x :: xs =>
    match f x with
    | some r => some r
    | none => findSomeStr f xs

/-- The report-title table chain (lines 1651-1668). -/
def tableReportTitleChain (filename : String) (tables : List Table) :
    Option String :=
  tables.foldl (fun acc table =>
    match acc with
    | some _ => acc
    | none =>
      (table.rows.enum.foldl (fun acc2 rowPr =>
        match acc2 with
        | some _ => acc2
        | none =>
          let rIdx := rowPr.1
          let row := rowPr.2
          row.enum.foldl (fun acc3 cellPr =>
            match acc3 with
            | some _ => acc3
            | none =>
              let cIdx := cellPr.1
              let cellText := pyLower (pyStrip cellPr.2)
              if cellText = "" then none
              else if strContains cellText "report title" ||
                  strContains cellText "full title" ||
                  strContains cellText "full report title" then
                let inl := extract_labeled_inline_title (remove_emojis cellPr.2)
                if inl ≠ "" then
                  some (ensure_filename_start_and_year inl filename)
                else
                  let nxtCell := if cIdx + 1 < row.length then
                      pyStrip (row.getD (cIdx + 1) "")
                    else ""
                  if nxtCell ≠ "" then
                    some (ensure_filename_start_and_year nxtCell filename)
                  else
                    let nxtRow := if rIdx + 1 < table.rows.length then
                        pyStrip ((table.rows.getD (rIdx + 1) []).getD cIdx "")
                      else ""
                    if nxtRow ≠ "" then
                      some (ensure_filename_start_and_year nxtRow filename)
                    else none
              else none) none) none)) none

/-- The capture chain (lines 1639-1649). -/
def captureChain (filename : String) : List String → Option String
  | [] => none
  | text :: rest =>
    let text := remove_emojis text
    if headerLineMatch text then
      let inl := inline_title text
      if inl ≠ "" then some (ensure_filename_start_and_year inl filename)
      else
        match rest with
        | [] => none
        | nxt :: _ => some (ensure_filename_start_and_year (remove_emojis nxt)
            filename)
    else captureChain filename rest

/-- The filename+forecast candidate collection (lines 1671-1687);
`inl` returns short-circuit, candidates accumulate. -/
def ffLoop (filenameLow : String) : List String → List String →
    Sum String (List String)
  | [], cands => .inr cands
  | text :: rest, cands =>
    let low := pyLower text
    let inl :=
      if strStartsWith low "full report title" ||
          strStartsWith low "full title" then inline_title text
      else ""
    if inl ≠ "" then .inl inl
    else if strStartsWith low filenameLow && strContains low "forecast" then
      if is_section_heading_title text then ffLoop filenameLow rest cands
      else ffLoop filenameLow rest (cands ++ [text])
    else ffLoop filenameLow rest cands

def filenameForecastChain (filename filenameLow : String)
    (blocks : List String) : Option String :=
  match ffLoop filenameLow blocks [] with
  | .inl inl => some (ensure_filename_start_and_year inl filename)
  | .inr cands =>
    if cands ≠ [] then
      match cands.find? (fun t => !strContains t "(e.g.") with
      | some t => some (ensure_filename_start_and_year t filename)
      | none => some (ensure_filename_start_and_year (cands.getD 0 "") filename)
    else none

/-- `re.sub(r'^(?:The\s+)?Global\s+', '', ·, flags=re.I)`. -/
def stripTheGlobal (l : List Char) : List Char :=
  match rtMatch (rtFuelFor l)
      [.opt [.lit "the", .ws1], .lit "global", .ws1] l with
  | some rem => rem
  | none => l

def detailedPattern1Toks : List RTok :=
  [.lazyAny, .lit "market", .ws1, .lit "by", .ws1, .lit "treatment", .ws1,
   .lit "type", .lazyAny, .lit "segment", .ws1, .lit "revenue", .ws1,
   .lit "estimation", .lazyAny, .lit "forecast", .lazyAny, .year, .lazyAny,
   .year]

def detailedPattern2Toks : List RTok :=
  [.lazyAny, .lit "market", .ws1, .lit "by", .ws1, .lit "treatment", .ws1,
   .lit "type", .lazyAny, .lit "by", .ws1, .lit "diagnostic", .ws1,
   .lit "approach", .lazyAny, .lit "by", .ws1, .lit "end", .clsStar hyWsCls,
   .lit "user", .lazyAny, .lit "by", .ws1, .lit "region", .lazyAny,
   .lit "forecast", .lazyAny, .year, .lazyAny, .year]

/-- The detailed-title paragraph scan (lines 1708-1755). -/
def detailedParaScan (filename filenameNormalized : String)
    (paras : List String) : Option String :=
  let filenameKeywords := (pySplitWs
    (strReplace filenameNormalized " market" "")).filter
    (fun w => w ≠ "" && w.length > 2)
  findSomeStr (fun para =>
    let text := pyStrip para
    if text = "" then none
    else
      let cleanText := pyStrip ⟨lcCollapseWs (remove_emojis text).data⟩
      let ctl := pyLower cleanText
      if strContains ctl "by treatment type" &&
          strContains ctl "by diagnostic approach" &&
          strContains ctl "forecast" &&
          (searchYearPairEnd cleanText.data).isSome then
        let matching := (filenameKeywords.filter
          (fun kw => strContains ctl (pyLower kw))).length
        if matching ≥ min 2 filenameKeywords.length ||
            rtSearches detailedPattern2Toks cleanText.data then
          match searchYearPairEnd cleanText.data with
          | none => none
          | some endPos =>
            let kwAlts : List (List RTok) :=
              match filenameKeywords.take 2 with
              | [] => [[.lazyAny, .lit "market"]]
              | [a] => [[.lit a, .lazyAny, .lit "market"]]
              | a :: b :: _ => [[.lit a], [.lit b, .lazyAny, .lit "market"]]
            let marketPat := rtSearch
              [.alt ([[.lit "x", .opt [.cls1 hyWsCls], .lit "linked", .lazyAny,
                .lit "market"]] ++ kwAlts),
               .ws1, .lit "by", .ws1, .lit "treatment", .ws1, .lit "type"]
              cleanText.data
            let fullTitle :=
              match marketPat with
              | some (startPos, _) =>
                lcStr ((cleanText.data.drop startPos).take (endPos - startPos))
              | none =>
                match rtSearch [.cls1 isAsciiAlpha, .lazyNoDot, .lit "market",
                    .ws1, .lit "by", .ws1, .lit "treatment", .ws1, .lit "type"]
                    cleanText.data with
                | some (startPos, _) =>
                  lcStr ((cleanText.data.drop startPos).take (endPos - startPos))
                | none => lcStr (cleanText.data.take endPos)
            let fullTitle := lcStr (stripTheGlobal fullTitle.data)
            some (clean_final_title (norm fullTitle))
        else none
      else none) paras

/-- The detailed-title table scan (lines 1758-1775). -/
def detailedTableScan (filenameNormalized : String) (tables : List Table) :
    Option String :=
  let fnNoMarket := strReplace filenameNormalized " market" ""
  findSomeStr (fun cellText =>
    let ct := pyStrip cellText
    if ct = "" then none
    else
      let clean := pyStrip ⟨lcCollapseWs (remove_emojis ct).data⟩
      match rtSearch detailedPattern1Toks clean.data with
      | none => none
      | some (startPos, rem) =>
        let g0 := lcStr ((clean.data.drop startPos).take
          (clean.data.length - startPos - rem.length))
        let fullTitle :=
          match searchYearPairEnd g0.data with
          | some e => lcStr (g0.data.take e)
          | none => g0
        let fullTitle :=
          if strContains (pyLower fullTitle) fnNoMarket then
            (⟨stripTheGlobal fullTitle.data⟩ : String)
          else fullTitle
        some (clean_final_title (norm fullTitle)))
    (tables.flatMap (fun t => t.rows.flatMap id))

/-- `(?:^the\s+)?global\s+[^.]*?\s+market` under `re.I` (lines
3123-3128): the `^`-anchored alternative is only available at position
0.  Returns the matched span. -/
def globalTitleSearch (l : List Char) : Option (Nat × List Char) :=
  let base : List RTok := [.lit "global", .ws1, .lazyNoDot, .ws1, .lit "market"]
  match rtMatch (rtFuelFor l) ([.lit "the", .ws1] ++ base) l with
  | some rem => some (0, rem)
  | none => rtSearch base l

def bySegmentToks : List RTok :=
  [.lit "by", .ws1, .alt [[.lit "application"], [.lit "product", .ws1,
    .lit "type"], [.lit "type"], [.lit "end", .clsStar hyWsCls, .lit "user"],
    [.lit "region"], [.lit "geography"]]]

def bySegmentToksWithSegment : List RTok :=
  [.lit "by", .ws1, .alt [[.lit "application"], [.lit "product", .ws1,
    .lit "type"], [.lit "type"], [.lit "end", .clsStar hyWsCls, .lit "user"],
    [.lit "region"], [.lit "geography"], [.lit "segment"]]]

/-- The title pattern of Priority 4 (line 3203): as the trailing groups
are lazy/optional with nothing after them, the group is the optional
The/Global prefixes plus the shortest period-free stretch ending in
"market". -/
def p4TitleMatch (l : List Char) : Option (List Char) :=
  let tryWith (pre : List RTok) : Option (List Char) :=
    match rtMatch (rtFuelFor l) (pre ++ [.lazyNoDot, .lit "market"]) l with
    | some rem => some (l.take (l.length - rem.length))
    | none => none
  match tryWith [.lit "the", .ws1, .lit "global", .ws1] with
  | some g => some g
  | none =>
    match tryWith [.lit "the", .ws1] with
    | some g => some g
    | none =>
      match tryWith [.lit "global", .ws1] with
      | some g => some g
      | none => tryWith []

/-- One paragraph of the NEW-LOGIC scan (lines 3103-3208). -/
def newLogicPara (filename : String) (filenameKeywords : List String)
    (minKeywords : Nat) (para : String) : Option String :=
  let text := pyStrip para
  if text = "" then none
  else
    let cleanText := pyStrip ⟨lcCollapseWs (remove_emojis text).data⟩
    if strEndsWith cleanText ":" && cleanText.length > 100 then none
    else
      let textLower := pyLower cleanText
      let hasMarketKeywords := filenameKeywords.any
        (fun kw => kw.length > 3 && strContains textLower kw)
      if cleanText.length < 20 && !hasMarketKeywords then none
      else
        let textNormalized := strReplace (strReplace textLower "-" " ") "_" " "
        let matching := (filenameKeywords.filter
          (fun kw => strContains textNormalized kw)).length
        let p1 :=
          match globalTitleSearch cleanText.data with
          | some (startPos, rem) =>
            let extracted := lcStr ((cleanText.data.drop startPos).take
              (cleanText.data.length - startPos - rem.length))
            if matching ≥ minKeywords &&
                !is_section_heading_title extracted then
              some (ensure_filename_start_and_year extracted filename)
            else none
          | none => none
        match p1 with
        | some t => some t
        | none =>
          let p15 :=
            if strContains textLower "market" &&
                rtSearches bySegmentToks textLower.data &&
                matching ≥ minKeywords &&
                (strContains textLower "forecast" ||
                  (findYearStart cleanText.data).isSome) then
              match searchYearPairEnd cleanText.data with
              | some e =>
                let fullTitle := lcStr (cleanText.data.take e)
                let fullTitle := lcStr (stripTheGlobal fullTitle.data)
                if !is_section_heading_title fullTitle then
                  some (clean_final_title (norm fullTitle))
                else none
              | none => none
            else none
          match p15 with
          | some t => some t
          | none =>
            let startsWithCapital :=
              match cleanText.data with
              | c :: d :: _ =>
                isAsciiUpper c ||
                  ((c = '"' || c.toNat = 39) && isAsciiUpper d)
              | [c] => isAsciiUpper c
              | [] => false
            let p2 :=
              if startsWithCapital && matching ≥ minKeywords &&
                  strContains textLower "market" && cleanText.length < 400 &&
                  !hasNumberingPrefix cleanText.data then
                match rtMatch (rtFuelFor cleanText.data)
                    [.lazyAny, .lit "market", .lazyAny, .lit "forecast",
                     .lazyAny, .year, .lazyAny, .year] cleanText.data with
                | some rem =>
                  let titleText := lcStr (cleanText.data.take
                    (cleanText.data.length - rem.length))
                  let titleText := lcStr (stripTheGlobal titleText.data)
                  if !is_section_heading_title titleText then
                    some (ensure_filename_start_and_year titleText filename)
                  else none
                | none =>
                  match rtMatch (rtFuelFor cleanText.data)
                      [.lazyNoDot, .lit "market"] cleanText.data with
                  | some rem =>
                    let titleText := lcStr (cleanText.data.take
                      (cleanText.data.length - rem.length))
                    if (pySplitWs titleText).length ≥ 3 &&
                        !is_section_heading_title titleText then
                      some (ensure_filename_start_and_year titleText filename)
                    else none
                  | none => none
              else none
            match p2 with
            | some t => some t
            | none =>
              let p3 :=
                if rtSearches [.lit "forecast", .wsStar,
                    .cls1 (fun c => c = ',' || c = ':'), .wsStar, .year,
                    .cls1 (fun c => pyIsSpace c || c = '-' || c = '–'), .year]
                    textLower.data &&
                    (matching ≥ minKeywords || strContains textLower "market")
                then
                  match rtSearchEnd [.lit "forecast", .wsStar,
                      .cls1 (fun c => c = ',' || c = ':')] textLower.data with
                  | some e =>
                    let titlePart := lcStr (cleanText.data.take e)
                    if strContains (pyLower titlePart) "market" &&
                        !is_section_heading_title cleanText then
                      some (ensure_filename_start_and_year cleanText filename)
                    else none
                  | none => none
                else none
              match p3 with
              | some t => some t
              | none =>
                if matching ≥ minKeywords && strContains textLower "market" &&
                    cleanText.length < 200 && startsWithCapital &&
                    !hasNumberingPrefix cleanText.data then
                  match p4TitleMatch cleanText.data with
                  | some g =>
                    let titleText := lcStr g
                    let titleText := lcStr (stripTheGlobal titleText.data)
                    if (pySplitWs titleText).length ≥ 3 &&
                        !is_section_heading_title titleText then
                      some (ensure_filename_start_and_year titleText filename)
                    else none
                  | none => none
                else none

/-- `extract_title(docx_path)` (extractor.py lines 1592-3226), over the
document's paragraph texts and table cell texts. -/
def extract_title (docxPath : String) (paragraphs : List String)
    (tables : List Table) : String :=
  let filename := pySplitextRoot (osBasename docxPath)
  let filenameLow := pyLower filename
  let blocks := (paragraphs.map pyStrip).filter (fun t => t ≠ "")
  match pm1Loop filename blocks with
  | some t => t
  | none =>
  match findSomeStr (fun text =>
      let inl := extract_labeled_inline_title (remove_emojis text)
      if inl ≠ "" then some (ensure_filename_start_and_year inl filename)
      else none) blocks with
  | some t => t
  | none =>
  match findSomeStr (fun cell =>
      let inl := extract_labeled_inline_title (remove_emojis cell)
      if inl ≠ "" then some (ensure_filename_start_and_year inl filename)
      else none) (tables.flatMap (fun t => t.rows.flatMap id)) with
  | some t => t
  | none =>
  match captureChain filename blocks with
  | some t => t
  | none =>
  match tableReportTitleChain filename tables with
  | some t => t
  | none =>
  match filenameForecastChain filename filenameLow blocks with
  | some t => t
  | none =>
  let filenameNormalized := strReplace (strReplace filenameLow "-" " ") "_" " "
  match detailedParaScan filename filenameNormalized paragraphs with
  | some t => t
  | none =>
  match detailedTableScan filenameNormalized tables with
  | some t => t
  | none =>
  let fnNoMarket := strReplace filenameNormalized " market" ""
  match segScan fnNoMarket paragraphs (emptySegs, false) with
  | .inl t => t
  | .inr (segs, segmentationFound) =>
  if segmentationFound && segs.size ≥ 2 then
    constructTitle paragraphs filename segs (segIdxScan paragraphs)
  else
  let filenameKeywords := (pySplitWs filenameNormalized).filter
    (fun w => w ∉ ["market", "the", "and", "or", "global"])
  let minKeywords := if filenameKeywords.length > 2 then
      max 2 (min filenameKeywords.length 3)
    else filenameKeywords.length
  match findSomeStr (newLogicPara filename filenameKeywords minKeywords)
      (paragraphs.take 50) with
  | some t => t
  | none =>
  let hasSegmentation := (paragraphs.take 100).any (fun p =>
    rtSearches bySegmentToksWithSegment (pyLower (pyStrip p)).data)
  if hasSegmentation then
    let baseTitle := strReplace (strReplace filename "-" " ") "_" " "
    let baseTitle := if !strEndsWith (pyLower baseTitle) "market" then
        baseTitle ++ " Market"
      else baseTitle
    ensure_filename_start_and_year baseTitle filename
  else "Title Not Available"

/-- A document with a "By Product Type" section listing the canned-meat
values, a "By Region" section with region names, and no explicit title
paragraph. -/
def cannedMeatDoc : List String :=
  ["Market Segmentation", "By Product Type", "Canned Beef: popular choice.",
   "Canned Chicken: lean option.", "Canned Pork: savory.",
   "Canned Fish: omega rich.", "Specialty Canned Meats: niche.", "By Region",
   "North America: largest.", "Europe: mature."]

def cannedMeatExpected : String :=
  "Canned Meat Market By Product Type (Canned Beef, Canned Chicken, Canned Pork, Canned Fish, Specialty Canned Meats); By Geography; Segment Revenue Estimation, Forecast, 2024–2030"

set_option maxRecDepth 8192 in
/-- C3: confirmed.  On a Canned Meat Market document with a "By Product
Type" marker followed by the five canned-meat values and a "By Region"
marker followed by region names, `extract_title` constructs exactly the
expected title: it contains the product-type segment list, contains
"By Geography", and ends with the standard forecast suffix. -/
theorem claim_C3_canned_meat_title :
    extract_title "Canned Meat Market.docx" cannedMeatDoc [] =
      cannedMeatExpected ∧
    strContains cannedMeatExpected
      "By Product Type (Canned Beef, Canned Chicken, Canned Pork, Canned Fish, Specialty Canned Meats)" = true ∧
    strContains cannedMeatExpected "By Geography" = true ∧
    strEndsWith cannedMeatExpected
      "Segment Revenue Estimation, Forecast, 2024–2030" = true := by
  refine ⟨by rfl, by rfl, by rfl, by rfl⟩

set_option maxRecDepth 8192 in
/-- C2 counterexample: a document satisfying all four side conditions of
the claim — its only paragraph is not a labeled title line, there are no
tables, the paragraph is not filename-anchored, and no segmentation
marker occurs — on which `extract_title` does NOT return the sentinel:
the NEW-LOGIC Priority-4 heuristic accepts the narrative sentence
"The cheese market is growing steadily." and returns
"The cheese market 2024–2030". -/
theorem claim_C2_counterexample :
    headerLineMatch "The cheese market is growing steadily." = false ∧
    extract_labeled_inline_title "The cheese market is growing steadily." = "" ∧
    strStartsWith (pyLower "The cheese market is growing steadily.")
      (pyLower "Cheese") = false ∧
    rtSearches bySegmentToksWithSegment
      (pyLower "The cheese market is growing steadily.").data = false ∧
    extract_title "Cheese.docx" ["The cheese market is growing steadily."] [] =
      "The cheese market 2024–2030" := by
  refine ⟨by rfl, by rfl, by rfl, by rfl, by rfl⟩

set_option maxRecDepth 8192 in
/-- C6 counterexample: the per-segment value list is NOT deduplicated
case-insensitively on the paragraph-mining path.  Both "Alpha" and
"ALPHA" — equal up to case — survive into the returned list, because
the mining loop's duplicate checks (`value not in values`) and the
final cleanup compare values case-sensitively; only the early header
return (lines 2230-2242) deduplicates by lower-case. -/
theorem claim_C6_counterexample :
    extract_segment_values
      ["By Product Type", "Alpha: first item.", "ALPHA: again described."] 0
      "diagnostic" = ["Alpha", "ALPHA"] ∧
    pyLower "Alpha" = pyLower "ALPHA" := by
  refine ⟨by rfl, by rfl⟩

/-! ## Universal no-signal analysis of `extract_title` (for claim C2)

The lemmas below show that on any document in which no paragraph or
table cell mentions (after emoji removal, case-insensitively) any of
the words "market", "forecast", "title" or "by", every priority chain
of `extract_title` falls through and the sentinel is returned. -/

/-- The lower-cased, emoji-filtered text of a paragraph or cell — the
alphabet on which the no-signal condition is stated. -/
def baseOf (p : String) : List Char := lcLower (remove_emojis p).data

/-- No-signal condition for one paragraph or table cell: none of the
four trigger words occurs in its lower-cased emoji-filtered text. -/
def noSignalPara (p : String) : Bool :=
  !lcContains "market".data (baseOf p) &&
  !lcContains "forecast".data (baseOf p) &&
  !lcContains "title".data (baseOf p) &&
  !lcContains "by".data (baseOf p)


theorem pyLowerChar_eq_self {c : Char} (h : isAsciiUpper c = false) : pyLowerChar c = c := by
  unfold pyLowerChar
  rw [if_neg (by rw [h]; exact Bool.false_ne_true)]

theorem pyLowerChar_upper_false (c : Char) : isAsciiUpper (pyLowerChar c) = false := by
  by_cases hu : isAsciiUpper c = true
  · have ht := pyLowerChar_toNat hu
    obtain ⟨h1, h2⟩ := isAsciiUpper_toNat hu
    cases h : isAsciiUpper (pyLowerChar c)
    · rfl
    · obtain ⟨h3, h4⟩ := isAsciiUpper_toNat h
      omega
  · rw [pyLowerChar_eq_self (Bool.eq_false_iff.mpr hu)]
    exact Bool.eq_false_iff.mpr hu

theorem pyLowerChar_idem (c : Char) : pyLowerChar (pyLowerChar c) = pyLowerChar c :=
  pyLowerChar_eq_self (pyLowerChar_upper_false c)

theorem lcLower_idem (l : List Char) : lcLower (lcLower l) = lcLower l := by
  simp only [lcLower, List.map_map]
  exact List.map_congr_left (fun c _ => pyLowerChar_idem c)

theorem pyIsSpace_false_of_ge {d : Char} (hd : 33 ≤ d.toNat) : pyIsSpace d = false := by
  have hne : ∀ e : Char, e.toNat < 33 → decide (d = e) = false := by
    intro e he
    apply decide_eq_false
    intro heq
    rw [heq] at hd
    omega
  unfold pyIsSpace
  rw [hne ' ' (by decide), hne '\t' (by decide), hne '\n' (by decide), hne '\r' (by decide),
    hne '\x0b' (by decide), hne '\x0c' (by decide)]
  rfl

theorem pyIsSpace_pyLowerChar (c : Char) : pyIsSpace (pyLowerChar c) = pyIsSpace c := by
  by_cases hu : isAsciiUpper c = true
  · have ht := pyLowerChar_toNat hu
    obtain ⟨h1, h2⟩ := isAsciiUpper_toNat hu
    rw [pyIsSpace_false_of_ge (by omega), pyIsSpace_false_of_ge (by omega)]
  · rw [pyLowerChar_eq_self (Bool.eq_false_iff.mpr hu)]

theorem isEmojiChar_false_lt {d : Char} (hd : d.toNat < 0x2600) : isEmojiChar d = false := by
  unfold isEmojiChar
  simp only [Bool.or_eq_false_iff, Bool.and_eq_false_iff, decide_eq_false_iff_not, Nat.not_le]
  omega

theorem isEmojiChar_pyLowerChar (c : Char) :
    isEmojiChar (pyLowerChar c) = isEmojiChar c := by
  by_cases hu : isAsciiUpper c = true
  · have ht := pyLowerChar_toNat hu
    obtain ⟨h1, h2⟩ := isAsciiUpper_toNat hu
    rw [isEmojiChar_false_lt (by omega), isEmojiChar_false_lt (by omega)]
  · rw [pyLowerChar_eq_self (Bool.eq_false_iff.mpr hu)]

theorem filter_map_comm {f : Char → Char} {p : Char → Bool}
    (hf : ∀ c, p (f c) = p c) (l : List Char) :
    (l.map f).filter p = (l.filter p).map f := by
  induction l with
  | nil => rfl
  | cons c cs ih =>
    simp only [List.map_cons, List.filter_cons, hf]
    cases h : p c <;> simp [ih]

theorem lcLower_filter (l : List Char) :
    lcLower (l.filter (fun c => !isEmojiChar c)) =
      (lcLower l).filter (fun c => !isEmojiChar c) := by
  exact (filter_map_comm (fun c => by rw [isEmojiChar_pyLowerChar]) l).symm

def substChar (a b c : Char) : Char := if c = a then b else c

theorem lcReplace_single (a b : Char) (l : List Char) :
    lcReplace [a] [b] l = l.map (substChar a b) := by
  induction l with
  | nil => rfl
  | cons c cs ih =>
    have hstep : lcReplace [a] [b] (c :: cs) =
        if lcIsPrefixOf [a] (c :: cs) && !([a] : List Char).isEmpty then
          [b] ++ lcReplace [a] [b] cs
        else c :: lcReplace [a] [b] cs := rfl
    rw [List.map_cons, hstep]
    by_cases h : c = a
    · have hp : (lcIsPrefixOf [a] (c :: cs) && !([a] : List Char).isEmpty) = true := by
        simp [lcIsPrefixOf, h]
      rw [if_pos hp, ih]
      simp [substChar, h]
    · have hp : lcIsPrefixOf [a] (c :: cs) = false := by
        simp only [lcIsPrefixOf, Bool.and_eq_false_iff, decide_eq_false_iff_not]
        exact Or.inl (fun hh => h hh.symm)
      rw [if_neg (by rw [hp]; simp), ih]
      simp [substChar, h]

theorem pyLowerChar_substChar {a b : Char} (ha : 122 < a.toNat) (hb : 122 < b.toNat)
    (c : Char) : pyLowerChar (substChar a b c) = substChar a b (pyLowerChar c) := by
  have hfix : ∀ d : Char, 122 < d.toNat → pyLowerChar d = d := by
    intro d hd
    apply pyLowerChar_eq_self
    cases hx : isAsciiUpper d
    · rfl
    · obtain ⟨_, h2⟩ := isAsciiUpper_toNat hx
      omega
  unfold substChar
  by_cases h : c = a
  · rw [if_pos h, hfix b hb, h, hfix a ha, if_pos rfl]
  · rw [if_neg h]
    have hne : ¬(pyLowerChar c = a) := by
      by_cases hu : isAsciiUpper c = true
      · intro heq
        have ht := pyLowerChar_toNat hu
        obtain ⟨_, h2⟩ := isAsciiUpper_toNat hu
        rw [heq] at ht
        omega
      · rw [pyLowerChar_eq_self (Bool.eq_false_iff.mpr hu)]
        exact h
    rw [if_neg hne]

theorem lcLower_map_subst {a b : Char} (ha : 122 < a.toNat) (hb : 122 < b.toNat)
    (l : List Char) :
    lcLower (l.map (substChar a b)) = (lcLower l).map (substChar a b) := by
  simp only [lcLower, List.map_map]
  exact List.map_congr_left (fun c _ => pyLowerChar_substChar ha hb c)

theorem pre_map_substChar {a b : Char} {w : List Char} (hbw : b ∉ w) :
    ∀ l : List Char, w <+: l.map (substChar a b) → w <+: l := by
  intro l
  induction l generalizing w with
  | nil =>
    intro h
    simpa using h
  | cons c cs ih =>
    intro h
    match w, hbw with
    | [], _ => exact List.nil_prefix
    | d :: w', hbw =>
      rw [List.map_cons, List.cons_prefix_cons] at h
      obtain ⟨hd, hw'⟩ := h
      have hdb : d ≠ b := fun he => hbw (he ▸ List.mem_cons_self d w')
      have hdc : d = c := by
        unfold substChar at hd
        by_cases hca : c = a
        · rw [if_pos hca] at hd
          exact absurd hd hdb
        · rw [if_neg hca] at hd
          exact hd
      have hbw' : b ∉ w' := fun he => hbw (List.mem_cons_of_mem d he)
      rw [hdc, List.cons_prefix_cons]
      exact ⟨rfl, ih hbw' hw'⟩

theorem sub_cons {w l : List Char} (c : Char) (h : w <:+: l) : w <:+: c :: l := by
  obtain ⟨s, t, heq⟩ := h
  exact ⟨c :: s, t, by rw [List.cons_append, List.cons_append, heq]⟩

theorem sub_map_substChar {a b : Char} {w : List Char} (hbw : b ∉ w) :
    ∀ l : List Char, w <:+: l.map (substChar a b) → w <:+: l := by
  intro l
  induction l with
  | nil =>
    intro h
    simpa using h
  | cons c cs ih =>
    intro h
    rw [List.map_cons, List.infix_cons_iff] at h
    rcases h with h | h
    · have hp : w <+: (c :: cs).map (substChar a b) := by
        rw [List.map_cons]
        exact h
      exact (pre_map_substChar hbw (c :: cs) hp).isInfix
    · exact sub_cons c (ih h)

theorem lcCollapseAux_cons (b : Bool) (c : Char) (cs : List Char) :
    lcCollapseAux b (c :: cs) =
      if pyIsSpace c then
        if b then lcCollapseAux true cs else ' ' :: lcCollapseAux true cs
      else c :: lcCollapseAux false cs := by
  cases b <;> rfl

theorem lcLower_collapseAux (l : List Char) : ∀ b : Bool,
    lcLower (lcCollapseAux b l) = lcCollapseAux b (lcLower l) := by
  induction l with
  | nil => intro b; rfl
  | cons c cs ih =>
    intro b
    rw [show lcLower (c :: cs) = pyLowerChar c :: lcLower cs from rfl,
      lcCollapseAux_cons, lcCollapseAux_cons, pyIsSpace_pyLowerChar]
    by_cases h : pyIsSpace c = true
    · rw [if_pos h, if_pos h]
      cases b
      · show lcLower (' ' :: lcCollapseAux true cs) = ' ' :: lcCollapseAux true (lcLower cs)
        rw [show lcLower (' ' :: lcCollapseAux true cs) =
          pyLowerChar ' ' :: lcLower (lcCollapseAux true cs) from rfl, ih true]
        rfl
      · exact ih true
    · rw [if_neg h, if_neg h]
      show lcLower (c :: lcCollapseAux false cs) =
        pyLowerChar c :: lcCollapseAux false (lcLower cs)
      rw [show lcLower (c :: lcCollapseAux false cs) =
        pyLowerChar c :: lcLower (lcCollapseAux false cs) from rfl, ih false]

theorem pre_collapse {w : List Char} (hw : ∀ c ∈ w, pyIsSpace c = false) :
    ∀ l : List Char, w <+: lcCollapseAux false l → w <+: l := by
  intro l
  induction l generalizing w with
  | nil =>
    intro h
    exact h
  | cons c cs ih =>
    intro h
    rw [lcCollapseAux_cons] at h
    by_cases hc : pyIsSpace c = true
    · rw [if_pos hc, if_neg (by simp)] at h
      match w, hw with
      | [], _ => exact List.nil_prefix
      | d :: w', hw =>
        rw [List.cons_prefix_cons] at h
        obtain ⟨hd, _⟩ := h
        have : pyIsSpace d = false := hw d (List.mem_cons_self d w')
        rw [hd] at this
        exact absurd this (by simp [pyIsSpace])
    · rw [if_neg hc] at h
      match w, hw with
      | [], _ => exact List.nil_prefix
      | d :: w', hw =>
        rw [List.cons_prefix_cons] at h
        obtain ⟨hd, hw'⟩ := h
        rw [hd, List.cons_prefix_cons]
        exact ⟨rfl, ih (fun e he => hw e (List.mem_cons_of_mem d he)) hw'⟩

theorem sub_collapse {w : List Char} (hw : ∀ c ∈ w, pyIsSpace c = false) :
    ∀ (l : List Char) (b : Bool), w <:+: lcCollapseAux b l → w <:+: l := by
  intro l
  induction l with
  | nil =>
    intro b h
    exact h
  | cons c cs ih =>
    intro b h
    rw [lcCollapseAux_cons] at h
    by_cases hc : pyIsSpace c = true
    · rw [if_pos hc] at h
      cases b with
      | true =>
        rw [if_pos rfl] at h
        exact sub_cons c (ih true h)
      | false =>
        rw [if_neg (by simp)] at h
        rw [List.infix_cons_iff] at h
        rcases h with h | h
        · match w, hw with
          | [], _ => exact List.nil_infix
          | d :: w', hw =>
            rw [List.cons_prefix_cons] at h
            obtain ⟨hd, _⟩ := h
            have : pyIsSpace d = false := hw d (List.mem_cons_self d w')
            rw [hd] at this
            exact absurd this (by simp [pyIsSpace])
        · exact sub_cons c (ih true h)
    · rw [if_neg hc] at h
      rw [List.infix_cons_iff] at h
      rcases h with h | h
      · match w, hw with
        | [], _ => exact List.nil_infix
        | d :: w', hw =>
          rw [List.cons_prefix_cons] at h
          obtain ⟨hd, hw'⟩ := h
          have : d :: w' <+: c :: cs := by
            rw [hd, List.cons_prefix_cons]
            exact ⟨rfl, pre_collapse (fun e he => hw e (List.mem_cons_of_mem d he)) cs hw'⟩
          exact this.isInfix
      · exact sub_cons c (ih false h)

theorem filter_keep_sub {p : Char → Bool} {w l : List Char}
    (h : w <:+: l) (hk : ∀ c ∈ w, p c = true) : w <:+: l.filter p := by
  obtain ⟨s, t, heq⟩ := h
  refine ⟨s.filter p, t.filter p, ?_⟩
  rw [← heq, List.filter_append, List.filter_append, List.filter_eq_self.mpr hk]

theorem filter_sub_filter {p : Char → Bool} {x y : List Char} (h : x <:+: y) :
    x.filter p <:+: y.filter p := by
  obtain ⟨s, t, heq⟩ := h
  refine ⟨s.filter p, t.filter p, ?_⟩
  rw [← heq, List.filter_append, List.filter_append]

/-- Whether a single literal token's text contains the word `w` (for
`.lit` the stored text is already lower-case). -/
def litHasWord (w : List Char) : RTok → Bool
  | .lit s => lcContains w s.data
  | .litCS s => lcContains w (lcLower s.data)
  | _ => false

/-- Whether a token forces the word `w` to occur in any text it
consumes: a literal containing `w`, or an alternation all of whose
branches contain a literal containing `w`. -/
def altNeeds (w : List Char) : RTok → Bool
  | .alt gs => gs.all (fun g => g.any (litHasWord w))
  | t => litHasWord w t

/-- Whether a token list can only match text containing the word `w`. -/
def toksNeed (w : List Char) (ts : List RTok) : Bool := ts.any (altNeeds w)

theorem toksNeed_cons_tail {w : List Char} {t : RTok} {ts : List RTok}
    (h : toksNeed w ts = true) : toksNeed w (t :: ts) = true := by
  simp only [toksNeed] at h ⊢
  simp only [List.any_cons, h, Bool.or_true]

theorem toksNeed_append_right {w : List Char} {ts1 ts2 : List RTok}
    (h : toksNeed w ts2 = true) : toksNeed w (ts1 ++ ts2) = true := by
  simp only [toksNeed] at h ⊢
  simp only [List.any_append, h, Bool.or_true]

theorem toksNeed_append_left {w : List Char} {ts1 ts2 : List RTok}
    (h : toksNeed w ts1 = true) : toksNeed w (ts1 ++ ts2) = true := by
  simp only [toksNeed] at h ⊢
  simp only [List.any_append, h, Bool.true_or]

theorem altNeeds_of_lit {w : List Char} {x : RTok} (h : litHasWord w x = true) :
    altNeeds w x = true := by
  cases x <;> simpa [altNeeds, litHasWord] using h

theorem lcLower_append (x y : List Char) :
    lcLower (x ++ y) = lcLower x ++ lcLower y := by
  simp [lcLower]

theorem lcLower_sub {x y : List Char} (h : x <:+: y) :
    lcLower x <:+: lcLower y := by
  obtain ⟨s, t, heq⟩ := h
  exact ⟨lcLower s, lcLower t, by rw [← heq]; simp [lcLower]⟩

theorem ciStripLit_spec : ∀ (p l l2 : List Char), ciStripLit p l = some l2 →
    ∃ pre, l = pre ++ l2 ∧ lcLower pre = p := by
  intro p
  induction p with
  | nil =>
    intro l l2 h
    injection h with h
    exact ⟨[], by rw [h]; rfl, rfl⟩
  | cons q qs ih =>
    intro l l2 h
    match l with
    | [] => exact Option.noConfusion h
    | c :: cs =>
      rw [show ciStripLit (q :: qs) (c :: cs) =
        if q = pyLowerChar c then ciStripLit qs cs else none from rfl] at h
      by_cases hq : q = pyLowerChar c
      · rw [if_pos hq] at h
        obtain ⟨pre, hpre, hlow⟩ := ih cs l2 h
        refine ⟨c :: pre, by rw [hpre]; rfl, ?_⟩
        rw [show lcLower (c :: pre) = pyLowerChar c :: lcLower pre from rfl, hlow, hq]
      · rw [if_neg hq] at h
        exact Option.noConfusion h

theorem rtNeed_master (w : List Char) : ∀ fuel : Nat,
    (∀ (ts : List RTok) (l rem : List Char), toksNeed w ts = true →
      rtMatch fuel ts l = some rem → lcContains w (lcLower l) = true) ∧
    (∀ (p : Char → Bool) (ts : List RTok) (l rem : List Char),
      toksNeed w ts = true → rtSkip fuel p ts l = some rem →
      lcContains w (lcLower l) = true) ∧
    (∀ (gs : List (List RTok)) (ts : List RTok) (l rem : List Char),
      (∀ g ∈ gs, toksNeed w (g ++ ts) = true) →
      rtAlt fuel gs ts l = some rem → lcContains w (lcLower l) = true) := by
  intro fuel
  induction fuel with
  | zero =>
    refine ⟨?_, ?_, ?_⟩
    · intro ts l rem hneed hm
      exact Option.noConfusion hm
    · intro p ts l rem hneed hm
      exact Option.noConfusion hm
    · intro gs ts l rem halt hm
      exact Option.noConfusion hm
  | succ n ih =>
    obtain ⟨ihM, ihS, ihA⟩ := ih
    refine ⟨?_, ?_, ?_⟩
    · intro ts l rem hneed hm
      match ts with
      | [] => simp [toksNeed] at hneed
      | t :: ts' =>
        have hneed' : altNeeds w t = true ∨ toksNeed w ts' = true := by
          simpa only [toksNeed, List.any_cons, Bool.or_eq_true] using hneed
        cases t with
        | lit s =>
          simp only [rtMatch] at hm
          cases hcs : ciStripLit s.data l with
          | none => rw [hcs] at hm; exact Option.noConfusion hm
          | some l2 =>
            rw [hcs] at hm
            obtain ⟨pre, hpl, hlow⟩ := ciStripLit_spec s.data l l2 hcs
            rcases hneed' with hx | hrest
            · simp only [altNeeds, litHasWord] at hx
              rw [lcContains_iff] at hx ⊢
              rw [hpl, lcLower_append, hlow]
              exact hx.trans (List.prefix_append s.data (lcLower l2)).isInfix
            · have hc2 := ihM ts' l2 rem hrest hm
              have hsub : l2 <:+: l := by
                rw [hpl]
                exact (List.suffix_append pre l2).isInfix
              exact lcContains_of_sub hc2 (lcLower_sub hsub)
        | litCS s =>
          simp only [rtMatch] at hm
          by_cases hp : lcIsPrefixOf s.data l = true
          · rw [if_pos hp] at hm
            have hpre : s.data <+: l := (lcIsPrefixOf_iff _ _).mp hp
            rcases hneed' with hx | hrest
            · simp only [altNeeds, litHasWord] at hx
              exact lcContains_of_sub hx (lcLower_sub hpre.isInfix)
            · have hc2 := ihM ts' (l.drop s.data.length) rem hrest hm
              exact lcContains_of_sub hc2
                (lcLower_sub (List.drop_suffix _ _).isInfix)
          · rw [if_neg hp] at hm
            exact Option.noConfusion hm
        | ws1 =>
          simp only [rtMatch] at hm
          rcases hneed' with hx | hrest
          · simp [altNeeds, litHasWord] at hx
          · by_cases he : (l.takeWhile pyIsSpace).isEmpty = true
            · rw [if_pos he] at hm
              exact Option.noConfusion hm
            · rw [if_neg he] at hm
              have hc2 := ihM ts' (l.dropWhile pyIsSpace) rem hrest hm
              exact lcContains_of_sub hc2
                (lcLower_sub (List.dropWhile_suffix _).isInfix)
        | wsStar =>
          simp only [rtMatch] at hm
          rcases hneed' with hx | hrest
          · simp [altNeeds, litHasWord] at hx
          · have hc2 := ihM ts' (l.dropWhile pyIsSpace) rem hrest hm
            exact lcContains_of_sub hc2
              (lcLower_sub (List.dropWhile_suffix _).isInfix)
        | lazyAny =>
          simp only [rtMatch] at hm
          rcases hneed' with hx | hrest
          · simp [altNeeds, litHasWord] at hx
          · exact ihS _ ts' l rem hrest hm
        | lazyNoDot =>
          simp only [rtMatch] at hm
          rcases hneed' with hx | hrest
          · simp [altNeeds, litHasWord] at hx
          · exact ihS _ ts' l rem hrest hm
        | year =>
          simp only [rtMatch] at hm
          rcases hneed' with hx | hrest
          · simp [altNeeds, litHasWord] at hx
          · split at hm
            · rename_i a b r
              split at hm
              · have hc2 := ihM ts' r rem hrest hm
                exact lcContains_of_sub hc2
                  (lcLower_sub ⟨['2', '0', a, b], [], by simp⟩)
              · exact Option.noConfusion hm
            · exact Option.noConfusion hm
        | cls1 p =>
          simp only [rtMatch] at hm
          rcases hneed' with hx | hrest
          · simp [altNeeds, litHasWord] at hx
          · split at hm
            · rename_i c r
              split at hm
              · have hc2 := ihM ts' r rem hrest hm
                exact lcContains_of_sub hc2 (lcLower_sub ⟨[c], [], by simp⟩)
              · exact Option.noConfusion hm
            · exact Option.noConfusion hm
        | clsStar p =>
          simp only [rtMatch] at hm
          rcases hneed' with hx | hrest
          · simp [altNeeds, litHasWord] at hx
          · have hc2 := ihM ts' (l.dropWhile p) rem hrest hm
            exact lcContains_of_sub hc2
              (lcLower_sub (List.dropWhile_suffix _).isInfix)
        | clsPlus p =>
          simp only [rtMatch] at hm
          rcases hneed' with hx | hrest
          · simp [altNeeds, litHasWord] at hx
          · by_cases he : (l.takeWhile p).isEmpty = true
            · rw [if_pos he] at hm
              exact Option.noConfusion hm
            · rw [if_neg he] at hm
              have hc2 := ihM ts' (l.dropWhile p) rem hrest hm
              exact lcContains_of_sub hc2
                (lcLower_sub (List.dropWhile_suffix _).isInfix)
        | opt g =>
          simp only [rtMatch] at hm
          rcases hneed' with hx | hrest
          · simp [altNeeds, litHasWord] at hx
          · cases hg : rtMatch n (g ++ ts') l with
            | some r => exact ihM (g ++ ts') l r (toksNeed_append_right hrest) hg
            | none =>
              rw [hg] at hm
              exact ihM ts' l rem hrest hm
        | starGreedy g =>
          simp only [rtMatch] at hm
          rcases hneed' with hx | hrest
          · simp [altNeeds, litHasWord] at hx
          · cases hg : rtMatch n (g ++ RTok.starGreedy g :: ts') l with
            | some r =>
              exact ihM (g ++ RTok.starGreedy g :: ts') l r
                (toksNeed_append_right (toksNeed_cons_tail hrest)) hg
            | none =>
              rw [hg] at hm
              exact ihM ts' l rem hrest hm
        | alt gs =>
          simp only [rtMatch] at hm
          have halt : ∀ g ∈ gs, toksNeed w (g ++ ts') = true := by
            rcases hneed' with hx | hrest
            · simp only [altNeeds, List.all_eq_true] at hx
              intro g hg
              obtain ⟨x, hxg, hlit⟩ := List.any_eq_true.mp (hx g hg)
              exact toksNeed_append_left
                (List.any_eq_true.mpr ⟨x, hxg, altNeeds_of_lit hlit⟩)
            · intro g _
              exact toksNeed_append_right hrest
          exact ihA gs ts' l rem halt hm
        | eos =>
          simp only [rtMatch] at hm
          rcases hneed' with hx | hrest
          · simp [altNeeds, litHasWord] at hx
          · split at hm
            · exact ihM ts' [] rem hrest hm
            · exact Option.noConfusion hm
    · intro p ts l rem hneed hm
      simp only [rtSkip] at hm
      split at hm
      · rename_i r heq
        exact ihM ts l r hneed heq
      · rename_i heq
        split at hm
        · rename_i c cs
          by_cases hp : p c = true
          · rw [if_pos hp] at hm
            have hc2 := ihS p ts cs rem hneed hm
            exact lcContains_of_sub hc2 (lcLower_sub (List.suffix_cons c cs).isInfix)
          · rw [if_neg hp] at hm
            exact Option.noConfusion hm
        · exact Option.noConfusion hm
    · intro gs ts l rem halt hm
      match gs with
      | [] => exact Option.noConfusion hm
      | g :: gs' =>
        simp only [rtAlt] at hm
        cases hg : rtMatch n (g ++ ts) l with
        | some r => exact ihM (g ++ ts) l r (halt g (List.mem_cons_self g gs')) hg
        | none =>
          rw [hg] at hm
          exact ihA gs' ts l rem
            (fun g' hg' => halt g' (List.mem_cons_of_mem g hg')) hm

theorem rtMatch_need {w : List Char} {fuel : Nat} {ts : List RTok}
    {l rem : List Char} (hneed : toksNeed w ts = true)
    (hm : rtMatch fuel ts l = some rem) : lcContains w (lcLower l) = true :=
  (rtNeed_master w fuel).1 ts l rem hneed hm

theorem rtMatches_need {w : List Char} {ts : List RTok} {l : List Char}
    (hneed : toksNeed w ts = true) (hm : rtMatches ts l = true) :
    lcContains w (lcLower l) = true := by
  unfold rtMatches at hm
  cases hg : rtMatch (rtFuelFor l) ts l with
  | none => rw [hg] at hm; exact Bool.noConfusion hm
  | some r => exact rtMatch_need hneed hg

theorem rtSearchAux_need {w : List Char} {ts : List RTok}
    (hneed : toksNeed w ts = true) : ∀ (fuel idx : Nat) (l : List Char)
    (res : Nat × List Char), rtSearchAux fuel idx ts l = some res →
    lcContains w (lcLower l) = true := by
  intro fuel
  induction fuel with
  | zero =>
    intro idx l res h
    exact Option.noConfusion h
  | succ n ih =>
    intro idx l res h
    simp only [rtSearchAux] at h
    split at h
    · rename_i r heq
      exact rtMatch_need hneed heq
    · rename_i heq
      split at h
      · rename_i c cs
        have hc2 := ih (idx + 1) cs res h
        exact lcContains_of_sub hc2 (lcLower_sub (List.suffix_cons c cs).isInfix)
      · exact Option.noConfusion h

theorem rtSearch_need {w : List Char} {ts : List RTok} {l : List Char}
    {res : Nat × List Char} (hneed : toksNeed w ts = true)
    (hm : rtSearch ts l = some res) : lcContains w (lcLower l) = true :=
  rtSearchAux_need hneed _ _ l res hm

theorem rtSearches_need {w : List Char} {ts : List RTok} {l : List Char}
    (hneed : toksNeed w ts = true) (hm : rtSearches ts l = true) :
    lcContains w (lcLower l) = true := by
  unfold rtSearches at hm
  cases hg : rtSearch ts l with
  | none => rw [hg] at hm; exact Bool.noConfusion hm
  | some r => exact rtSearch_need hneed hg

theorem filter_idem (p : Char → Bool) (l : List Char) :
    (l.filter p).filter p = l.filter p :=
  List.filter_eq_self.mpr (fun c hc => List.of_mem_filter hc)

theorem baseOf_remove_emojis (t : String) : baseOf (remove_emojis t) = baseOf t := by
  show lcLower ((t.data.filter (fun c => !isEmojiChar c)).filter (fun c => !isEmojiChar c)) =
    lcLower (t.data.filter (fun c => !isEmojiChar c))
  rw [filter_idem]

theorem baseOf_sub {s p : String} (h : s.data <:+: p.data) :
    baseOf s <:+: baseOf p := by
  show lcLower (s.data.filter (fun c => !isEmojiChar c)) <:+:
    lcLower (p.data.filter (fun c => !isEmojiChar c))
  rw [lcLower_filter, lcLower_filter]
  exact filter_sub_filter (lcLower_sub h)

theorem contains_baseOf_mono {w : List Char} {s p : String}
    (hsub : s.data <:+: p.data) (h : lcContains w (baseOf s) = true) :
    lcContains w (baseOf p) = true :=
  lcContains_of_sub h (baseOf_sub hsub)

theorem contains_baseOf_anti {w : List Char} {s p : String}
    (hsub : s.data <:+: p.data) (hfalse : lcContains w (baseOf p) = false) :
    lcContains w (baseOf s) = false := by
  cases hx : lcContains w (baseOf s)
  · rfl
  · exfalso
    have h2 := contains_baseOf_mono hsub hx
    rw [hfalse] at h2
    exact Bool.noConfusion h2

theorem noSignal_spec {p : String} (h : noSignalPara p = true) :
    lcContains "market".data (baseOf p) = false ∧
    lcContains "forecast".data (baseOf p) = false ∧
    lcContains "title".data (baseOf p) = false ∧
    lcContains "by".data (baseOf p) = false := by
  simp only [noSignalPara, Bool.and_eq_true, Bool.not_eq_true'] at h
  exact ⟨h.1.1.1, h.1.1.2, h.1.2, h.2⟩

theorem noSignalPara_of_sub {s p : String} (hsub : s.data <:+: p.data)
    (h : noSignalPara p = true) : noSignalPara s = true := by
  obtain ⟨h1, h2, h3, h4⟩ := noSignal_spec h
  simp only [noSignalPara, Bool.and_eq_true, Bool.not_eq_true']
  exact ⟨⟨⟨contains_baseOf_anti hsub h1, contains_baseOf_anti hsub h2⟩,
    contains_baseOf_anti hsub h3⟩, contains_baseOf_anti hsub h4⟩

theorem contains_lower_mono {w x y : List Char} (hsub : x <:+: y)
    (h : lcContains w (lcLower x) = true) : lcContains w (lcLower y) = true :=
  lcContains_of_sub h (lcLower_sub hsub)

theorem contains_baseOf_self_of_lower {w : List Char}
    (hem : ∀ c ∈ w, isEmojiChar c = false) {s : String}
    (h : lcContains w (lcLower s.data) = true) :
    lcContains w (baseOf s) = true := by
  rw [lcContains_iff] at h
  have h3 : w <:+: (lcLower s.data).filter (fun c => !isEmojiChar c) :=
    filter_keep_sub h (fun c hc => by rw [hem c hc]; rfl)
  have he : baseOf s = (lcLower s.data).filter (fun c => !isEmojiChar c) :=
    lcLower_filter s.data
  rw [lcContains_iff, he]
  exact h3

theorem lower_contains_false {w : List Char}
    (hem : ∀ c ∈ w, isEmojiChar c = false) {t : String}
    (hfalse : lcContains w (baseOf t) = false) :
    lcContains w (lcLower t.data) = false := by
  cases hx : lcContains w (lcLower t.data)
  · rfl
  · exfalso
    have h2 := contains_baseOf_self_of_lower hem hx
    rw [hfalse] at h2
    exact Bool.noConfusion h2

theorem contains_baseOf_self_of_clean {w : List Char}
    (hsp : ∀ c ∈ w, pyIsSpace c = false) {s : String}
    (h : lcContains w (lcLower (pyStrip
      (⟨lcCollapseWs (remove_emojis s).data⟩ : String)).data) = true) :
    lcContains w (baseOf s) = true := by
  rw [lcContains_iff] at h
  have h1 : w <:+: lcLower (lcCollapseWs (remove_emojis s).data) :=
    h.trans (lcLower_sub (lcStrip_sub _))
  have h2 : w <:+: lcCollapseAux false (lcLower (remove_emojis s).data) := by
    rw [← lcLower_collapseAux]
    exact h1
  have h3 : w <:+: lcLower (remove_emojis s).data := sub_collapse hsp _ false h2
  rw [lcContains_iff]
  exact h3

theorem clean_contains_false {w : List Char}
    (hsp : ∀ c ∈ w, pyIsSpace c = false) {para : String}
    (hfalse : lcContains w (baseOf para) = false) :
    lcContains w (lcLower (pyStrip
      (⟨lcCollapseWs (remove_emojis (pyStrip para)).data⟩ : String)).data) = false := by
  cases hx : lcContains w (lcLower (pyStrip
      (⟨lcCollapseWs (remove_emojis (pyStrip para)).data⟩ : String)).data)
  · rfl
  · exfalso
    have h2 := contains_baseOf_self_of_clean hsp hx
    have h3 := contains_baseOf_mono (lcStrip_sub para.data) h2
    rw [hfalse] at h3
    exact Bool.noConfusion h3

theorem sub_replace_dash {w : List Char} (hd : '–' ∉ w) (a : Char)
    (ha : 122 < a.toNat) {l : List Char}
    (h : w <:+: lcLower (lcReplace [a] ['–'] l)) : w <:+: lcLower l := by
  rw [lcReplace_single, lcLower_map_subst ha (by decide)] at h
  exact sub_map_substChar hd (lcLower l) h

theorem contains_baseOf_self_of_norm {w : List Char}
    (hsp : ∀ c ∈ w, pyIsSpace c = false) (hd : '–' ∉ w) {s : String}
    (h : lcContains w (lcLower (norm s).data) = true) :
    lcContains w (baseOf s) = true := by
  rw [lcContains_iff] at h
  have e3 : (norm s).data =
      lcCollapseWs (lcStrip (lcReplace ['—'] ['–']
        (lcReplace ['�'] ['–'] (remove_emojis s).data))) := rfl
  rw [e3] at h
  have h1 : w <:+: lcCollapseAux false (lcLower (lcStrip (lcReplace ['—'] ['–']
      (lcReplace ['�'] ['–'] (remove_emojis s).data)))) := by
    rw [← lcLower_collapseAux]
    exact h
  have h2 := sub_collapse hsp _ false h1
  have h3 : w <:+: lcLower (lcReplace ['—'] ['–']
      (lcReplace ['�'] ['–'] (remove_emojis s).data)) :=
    h2.trans (lcLower_sub (lcStrip_sub _))
  have h4 := sub_replace_dash hd '—' (by decide) h3
  have h5 := sub_replace_dash hd '�' (by decide) h4
  rw [lcContains_iff]
  exact h5

theorem norm_contains_false {w : List Char}
    (hsp : ∀ c ∈ w, pyIsSpace c = false) (hd : '–' ∉ w) {s : String}
    (hfalse : lcContains w (baseOf s) = false) :
    lcContains w (lcLower (norm s).data) = false := by
  cases hx : lcContains w (lcLower (norm s).data)
  · rfl
  · exfalso
    have h2 := contains_baseOf_self_of_norm hsp hd hx
    rw [hfalse] at h2
    exact Bool.noConfusion h2

theorem rtMatch_none_of_need {w : List Char} {fuel : Nat} {ts : List RTok}
    {l : List Char} (hneed : toksNeed w ts = true)
    (hfalse : lcContains w (lcLower l) = false) : rtMatch fuel ts l = none := by
  cases hx : rtMatch fuel ts l with
  | none => rfl
  | some r =>
    exfalso
    have h2 := rtMatch_need hneed hx
    rw [hfalse] at h2
    exact Bool.noConfusion h2

theorem rtSearch_none_of_need {w : List Char} {ts : List RTok} {l : List Char}
    (hneed : toksNeed w ts = true) (hfalse : lcContains w (lcLower l) = false) :
    rtSearch ts l = none := by
  cases hx : rtSearch ts l with
  | none => rfl
  | some r =>
    exfalso
    have h2 := rtSearch_need hneed hx
    rw [hfalse] at h2
    exact Bool.noConfusion h2

theorem rtSearches_false_of_need {w : List Char} {ts : List RTok} {l : List Char}
    (hneed : toksNeed w ts = true) (hfalse : lcContains w (lcLower l) = false) :
    rtSearches ts l = false := by
  unfold rtSearches
  rw [rtSearch_none_of_need hneed hfalse]
  rfl

theorem rtMatches_false_of_need {w : List Char} {ts : List RTok} {l : List Char}
    (hneed : toksNeed w ts = true) (hfalse : lcContains w (lcLower l) = false) :
    rtMatches ts l = false := by
  unfold rtMatches
  rw [rtMatch_none_of_need hneed hfalse]
  rfl

theorem guard_contains_false {w : List Char} {low : String} (pat : String)
    (hwp : lcContains w pat.data = true)
    (hfalse : lcContains w low.data = false) : strContains low pat = false := by
  cases hx : strContains low pat
  · rfl
  · exfalso
    have h1 : lcContains pat.data low.data = true := hx
    have h2 := lcContains_of_sub hwp ((lcContains_iff _ _).mp h1)
    rw [hfalse] at h2
    exact Bool.noConfusion h2

theorem guard_startswith_false {w : List Char} {low : String} (pat : String)
    (hwp : lcContains w pat.data = true)
    (hfalse : lcContains w low.data = false) : strStartsWith low pat = false := by
  cases hx : strStartsWith low pat
  · rfl
  · exfalso
    have h1 : pat.data <+: low.data := (lcIsPrefixOf_iff _ _).mp hx
    have h2 := lcContains_of_sub hwp h1.isInfix
    rw [hfalse] at h2
    exact Bool.noConfusion h2

/-- `HEADER_LINE_RE` can only match a line whose lower-cased text
contains "title". -/
theorem headerLineMatch_false {t : String}
    (h : lcContains "title".data (lcLower t.data) = false) :
    headerLineMatch t = false := by
  unfold headerLineMatch
  exact rtMatches_false_of_need (by rfl) h

/-- `REPORT_TITLE_INLINE_RE` can only match text containing "title", so
the labeled-inline extractor returns the empty string on title-free
text. -/
theorem extract_labeled_inline_title_empty {t : String}
    (h : lcContains "title".data (lcLower (norm t).data) = false) :
    extract_labeled_inline_title t = "" := by
  have hr : reportTitleInlineRest (norm t).data = none := by
    unfold reportTitleInlineRest
    exact rtMatch_none_of_need (by rfl) h
  simp only [extract_labeled_inline_title, hr]

theorem findSomeStr_none {f : String → Option String} : ∀ l : List String,
    (∀ t ∈ l, f t = none) → findSomeStr f l = none := by
  intro l
  induction l with
  | nil => intro _; rfl
  | cons x xs ih =>
    intro h
    show (match f x with
      | some r => some r
      | none => findSomeStr f xs) = none
    rw [h x (List.mem_cons_self x xs)]
    exact ih (fun u hu => h u (List.mem_cons_of_mem x hu))

theorem foldl_none {α β : Type} (f : Option β → α → Option β) : ∀ l : List α,
    (∀ x ∈ l, f none x = none) → l.foldl f none = none := by
  intro l
  induction l with
  | nil => intro _; rfl
  | cons x xs ih =>
    intro h
    show xs.foldl f (f none x) = none
    rw [h x (List.mem_cons_self x xs)]
    exact ih (fun y hy => h y (List.mem_cons_of_mem x hy))

theorem mem_of_mem_enumFrom {α : Type} : ∀ (l : List α) (n : Nat) (p : Nat × α),
    p ∈ l.enumFrom n → p.2 ∈ l := by
  intro l
  induction l with
  | nil =>
    intro n p h
    exact absurd h (List.not_mem_nil p)
  | cons x xs ih =>
    intro n p h
    rw [show List.enumFrom n (x :: xs) = (n, x) :: List.enumFrom (n + 1) xs
      from rfl] at h
    rcases List.mem_cons.mp h with h | h
    · rw [h]
      exact List.mem_cons_self x xs
    · exact List.mem_cons_of_mem x (ih (n + 1) p h)

/-- Priority −1 falls through on a document whose blocks never mention
"title". -/
theorem pm1Loop_none (filename : String) : ∀ blocks : List String,
    (∀ t ∈ blocks, lcContains "title".data (baseOf t) = false) →
    pm1Loop filename blocks = none := by
  intro blocks
  induction blocks with
  | nil => intro _; rfl
  | cons text rest ih =>
    intro hns
    have hbase := hns text (List.mem_cons_self text rest)
    have hclean : headerLineMatch (remove_emojis text) = false :=
      headerLineMatch_false hbase
    have hfirst : headerLineMatch (lcStr
        ((remove_emojis text).data.takeWhile (fun c => c ≠ '\n'))) = false := by
      apply headerLineMatch_false
      cases hx : lcContains "title".data (lcLower (lcStr
          ((remove_emojis text).data.takeWhile (fun c => c ≠ '\n'))).data)
      · rfl
      · exfalso
        have hsub : (lcStr ((remove_emojis text).data.takeWhile
            (fun c => c ≠ '\n'))).data <:+: (remove_emojis text).data :=
          (lcStrip_sub _).trans (List.takeWhile_prefix _).isInfix
        have h2 := contains_lower_mono hsub hx
        have h3 : lcContains "title".data (baseOf text) = true := h2
        rw [hbase] at h3
        exact Bool.noConfusion h3
    have htail := ih (fun u hu => hns u (List.mem_cons_of_mem text hu))
    simp only [pm1Loop, hclean, hfirst, htail, Bool.false_and, Bool.not_false]
    simp

/-- The capture chain falls through on a document whose blocks never
mention "title". -/
theorem captureChain_none (filename : String) : ∀ blocks : List String,
    (∀ t ∈ blocks, lcContains "title".data (baseOf t) = false) →
    captureChain filename blocks = none := by
  intro blocks
  induction blocks with
  | nil => intro _; rfl
  | cons text rest ih =>
    intro hns
    have hclean : headerLineMatch (remove_emojis text) = false :=
      headerLineMatch_false (hns text (List.mem_cons_self text rest))
    have htail := ih (fun u hu => hns u (List.mem_cons_of_mem text hu))
    simp only [captureChain, hclean, htail]
    simp

/-- The report-title table chain falls through when no cell mentions
"title". -/
theorem tableReportTitleChain_none (filename : String) (tables : List Table)
    (hns : ∀ t ∈ tables, ∀ row ∈ t.rows, ∀ cell ∈ row,
      lcContains "title".data (baseOf cell) = false) :
    tableReportTitleChain filename tables = none := by
  unfold tableReportTitleChain
  apply foldl_none
  intro table htab
  apply foldl_none
  intro rowPr hrow
  apply foldl_none
  intro cellPr hcell
  have hcellmem : cellPr.2 ∈ rowPr.2 := mem_of_mem_enumFrom _ 0 cellPr hcell
  have hrowmem : rowPr.2 ∈ table.rows := mem_of_mem_enumFrom _ 0 rowPr hrow
  have hbase := hns table htab rowPr.2 hrowmem cellPr.2 hcellmem
  have hlow : lcContains "title".data
      ((pyLower (pyStrip cellPr.2)).data) = false := by
    cases hx : lcContains "title".data ((pyLower (pyStrip cellPr.2)).data)
    · rfl
    · exfalso
      have hx' : lcContains "title".data (lcLower (lcStrip cellPr.2.data)) = true := hx
      have h2 := contains_lower_mono (lcStrip_sub cellPr.2.data) hx'
      have h3 := contains_baseOf_self_of_lower (by decide) h2
      rw [hbase] at h3
      exact Bool.noConfusion h3
  have hc1 := guard_contains_false "report title" (by decide) hlow
  have hc2 := guard_contains_false "full title" (by decide) hlow
  have hc3 := guard_contains_false "full report title" (by decide) hlow
  simp [hc1, hc2, hc3]

/-- The filename+forecast scan collects nothing on a document whose
blocks never mention "title" or "forecast". -/
theorem ffLoop_nil (filenameLow : String) : ∀ blocks : List String,
    (∀ t ∈ blocks, lcContains "title".data (baseOf t) = false ∧
      lcContains "forecast".data (baseOf t) = false) →
    ∀ cands, ffLoop filenameLow blocks cands = .inr cands := by
  intro blocks
  induction blocks with
  | nil => intro _ cands; rfl
  | cons text rest ih =>
    intro hns cands
    obtain ⟨hti, hfo⟩ := hns text (List.mem_cons_self text rest)
    have hlowti : lcContains "title".data ((pyLower text).data) = false :=
      lower_contains_false (by decide) hti
    have hlowfo : lcContains "forecast".data ((pyLower text).data) = false :=
      lower_contains_false (by decide) hfo
    have hs1 := guard_startswith_false "full report title" (by decide) hlowti
    have hs2 := guard_startswith_false "full title" (by decide) hlowti
    have hc1 := guard_contains_false "forecast" (by decide) hlowfo
    have htail := ih (fun u hu => hns u (List.mem_cons_of_mem text hu))
    simp [ffLoop, hs1, hs2, hc1, htail cands]

theorem filenameForecastChain_none (filename filenameLow : String)
    (blocks : List String)
    (hns : ∀ t ∈ blocks, lcContains "title".data (baseOf t) = false ∧
      lcContains "forecast".data (baseOf t) = false) :
    filenameForecastChain filename filenameLow blocks = none := by
  unfold filenameForecastChain
  rw [ffLoop_nil filenameLow blocks hns []]
  simp

/-- The detailed-paragraph scan falls through when no paragraph
mentions "by". -/
theorem detailedParaScan_none (filename filenameNormalized : String)
    (paras : List String)
    (hns : ∀ p ∈ paras, lcContains "by".data (baseOf p) = false) :
    detailedParaScan filename filenameNormalized paras = none := by
  simp only [detailedParaScan]
  apply findSomeStr_none
  intro para hpara
  have hby := hns para hpara
  by_cases h0 : pyStrip para = ""
  · simp [h0]
  · have hcl : lcContains "by".data ((pyLower (pyStrip
        (⟨lcCollapseWs (remove_emojis (pyStrip para)).data⟩ : String))).data) =
        false :=
      clean_contains_false (by decide) hby
    have hc1 := guard_contains_false "by treatment type" (by decide) hcl
    simp [h0, hc1]

/-- The detailed-table scan falls through when no cell mentions
"market". -/
theorem detailedTableScan_none (filenameNormalized : String)
    (tables : List Table)
    (hns : ∀ t ∈ tables, ∀ row ∈ t.rows, ∀ cell ∈ row,
      lcContains "market".data (baseOf cell) = false) :
    detailedTableScan filenameNormalized tables = none := by
  simp only [detailedTableScan]
  apply findSomeStr_none
  intro cellText hmem
  obtain ⟨table, htab, hmem2⟩ := List.mem_flatMap.mp hmem
  obtain ⟨row, hrow, hmem3⟩ := List.mem_flatMap.mp hmem2
  have hms := hns table htab row hrow cellText hmem3
  by_cases h0 : pyStrip cellText = ""
  · simp [h0]
  · have hclC : lcContains "market".data (lcLower (pyStrip
        (⟨lcCollapseWs (remove_emojis (pyStrip cellText)).data⟩ : String)).data) =
        false := clean_contains_false (by decide) hms
    have hsearch : rtSearch detailedPattern1Toks (pyStrip
        (⟨lcCollapseWs (remove_emojis (pyStrip cellText)).data⟩ : String)).data =
        none := rtSearch_none_of_need (by rfl) hclC
    simp [h0, hsearch]

/-- A "by"-free paragraph leaves the segment-state scan unchanged. -/
theorem segScanUpdate_id (st : Segs × Bool) (cleanText : String)
    (hby : lcContains "by".data ((pyLower cleanText).data) = false) :
    segScanUpdate st cleanText = st := by
  have g : ∀ pat : String, lcContains "by".data pat.data = true →
      strContains (pyLower cleanText) pat = false :=
    fun pat hp => guard_contains_false pat hp hby
  simp only [segScanUpdate,
    g "by phase type" (by decide), g "by output power" (by decide),
    g "by power output" (by decide), g "by treatment type" (by decide),
    g "by application" (by decide), g "by diagnostic approach" (by decide),
    g "by diagnostic technology" (by decide), g "by type" (by decide),
    g "by product type" (by decide), g "by type of product" (by decide),
    g "by end-user" (by decide), g "by end user" (by decide),
    g "by distribution channel" (by decide), g "by region" (by decide),
    g "by geography" (by decide)]
  simp

/-- The segments scan neither short-circuits nor changes state when no
paragraph mentions "by". -/
theorem segScan_inr (fnNoMarket : String) : ∀ (ps : List String)
    (st : Segs × Bool),
    (∀ p ∈ ps, lcContains "by".data (baseOf p) = false) →
    segScan fnNoMarket ps st = .inr st := by
  intro ps
  induction ps with
  | nil => intro st _; rfl
  | cons p rest ih =>
    intro st hns
    have hbase := hns p (List.mem_cons_self p rest)
    have htail := ih st (fun u hu => hns u (List.mem_cons_of_mem p hu))
    by_cases h0 : pyStrip p = ""
    · simp [segScan, h0, htail]
    · have hby : lcContains "by".data
          ((pyLower (remove_emojis (pyStrip p))).data) = false :=
        contains_baseOf_anti (lcStrip_sub p.data) hbase
      have hupd := segScanUpdate_id st (remove_emojis (pyStrip p)) hby
      have hc1 := guard_contains_false "by treatment type" (by decide) hby
      simp [segScan, h0, hupd, hc1, htail]

/-- The global-title pattern cannot match market-free text. -/
theorem globalTitleSearch_none {l : List Char}
    (h : lcContains "market".data (lcLower l) = false) :
    globalTitleSearch l = none := by
  simp only [globalTitleSearch]
  rw [rtMatch_none_of_need (by rfl) h]
  exact rtSearch_none_of_need (by rfl) h

/-- Every scoring rule of the NEW-LOGIC paragraph scan requires
"market" or "forecast" to occur in the paragraph. -/
theorem newLogicPara_none (filename : String) (fk : List String) (mink : Nat)
    {para : String}
    (hmB : lcContains "market".data (baseOf para) = false)
    (hfB : lcContains "forecast".data (baseOf para) = false) :
    newLogicPara filename fk mink para = none := by
  by_cases h0 : pyStrip para = ""
  · simp [newLogicPara, h0]
  · have hmC : lcContains "market".data (lcLower (pyStrip
        (⟨lcCollapseWs (remove_emojis (pyStrip para)).data⟩ : String)).data) =
        false := clean_contains_false (by decide) hmB
    have hfC : lcContains "forecast".data (lcLower (pyStrip
        (⟨lcCollapseWs (remove_emojis (pyStrip para)).data⟩ : String)).data) =
        false := clean_contains_false (by decide) hfB
    have hg : globalTitleSearch (pyStrip
        (⟨lcCollapseWs (remove_emojis (pyStrip para)).data⟩ : String)).data =
        none := globalTitleSearch_none hmC
    have hm1 : strContains (pyLower (pyStrip
        (⟨lcCollapseWs (remove_emojis (pyStrip para)).data⟩ : String)))
        "market" = false := by
      have hmC' : lcContains "market".data ((pyLower (pyStrip
          (⟨lcCollapseWs (remove_emojis (pyStrip para)).data⟩ : String))).data) =
          false := hmC
      exact guard_contains_false "market" (by decide) hmC'
    have hfx : lcContains "forecast".data (lcLower ((pyLower (pyStrip
        (⟨lcCollapseWs (remove_emojis (pyStrip para)).data⟩ : String))).data)) =
        false := by
      show lcContains "forecast".data (lcLower (lcLower (pyStrip
        (⟨lcCollapseWs (remove_emojis (pyStrip para)).data⟩ : String)).data)) =
        false
      rw [lcLower_idem]
      exact hfC
    have hp3 : rtSearches [.lit "forecast", .wsStar,
        .cls1 (fun c => c = ',' || c = ':'), .wsStar, .year,
        .cls1 (fun c => pyIsSpace c || c = '-' || c = '–'), .year]
        ((pyLower (pyStrip
          (⟨lcCollapseWs (remove_emojis (pyStrip para)).data⟩ : String))).data) =
        false :=
      rtSearches_false_of_need (by rfl) hfx
    simp [newLogicPara, h0, hg, hm1, hp3]

/-- The labeled-inline priority (applied to paragraph blocks and to
table cells) yields nothing on "title"-free text. -/
theorem labeledChain_none (filename : String) (blocks : List String)
    (hns : ∀ t ∈ blocks, lcContains "title".data (baseOf t) = false) :
    findSomeStr (fun text =>
      if extract_labeled_inline_title (remove_emojis text) ≠ "" then
        some (ensure_filename_start_and_year
          (extract_labeled_inline_title (remove_emojis text)) filename)
      else none) blocks = none := by
  apply findSomeStr_none
  intro t htm
  have hb : lcContains "title".data (baseOf (remove_emojis t)) = false := by
    rw [baseOf_remove_emojis]
    exact hns t htm
  have hempty : extract_labeled_inline_title (remove_emojis t) = "" :=
    extract_labeled_inline_title_empty
      (norm_contains_false (by decide) (by decide) hb)
  simp [hempty]

theorem findSome_newLogic_none (filename : String) (fk : List String)
    (mink : Nat) (ps : List String)
    (hns : ∀ p ∈ ps, lcContains "market".data (baseOf p) = false ∧
      lcContains "forecast".data (baseOf p) = false) :
    findSomeStr (newLogicPara filename fk mink) ps = none := by
  apply findSomeStr_none
  intro p hmem
  exact newLogicPara_none filename fk mink (hns p hmem).1 (hns p hmem).2

set_option maxRecDepth 8192 in
/-- C2: corrected.  Quantified sentinel behaviour: for EVERY document
(docx path, paragraph list, table list) in which no paragraph and no
table cell mentions — after emoji removal, case-insensitively — any of
the trigger words "market", "forecast", "title" or "by" (so there is
no labeled title line, no matching table cell, no filename-anchored or
market/forecast-bearing paragraph, and no segmentation marker
anywhere), `extract_title` returns exactly "Title Not Available"; being
a total function of the embedded document, it raises no error.  (The
original claim's weaker side conditions do not suffice: see the
counterexample.) -/
theorem claim_C2_title_not_available (docxPath : String) (paragraphs : List String)
    (tables : List Table)
    (hp : ∀ p ∈ paragraphs, noSignalPara p = true)
    (ht : ∀ t ∈ tables, ∀ row ∈ t.rows, ∀ cell ∈ row, noSignalPara cell = true) :
    extract_title docxPath paragraphs tables = "Title Not Available" := by
  have hblocks : ∀ t ∈ (paragraphs.map pyStrip).filter (fun t => t ≠ ""),
      noSignalPara t = true := by
    intro t htm
    have h1 : t ∈ paragraphs.map pyStrip := List.mem_of_mem_filter htm
    obtain ⟨para, hpara, heq⟩ := List.mem_map.mp h1
    rw [← heq]
    exact noSignalPara_of_sub (lcStrip_sub para.data) (hp para hpara)
  have h1 := pm1Loop_none (pySplitextRoot (osBasename docxPath))
    ((paragraphs.map pyStrip).filter (fun t => t ≠ ""))
    (fun t htm => (noSignal_spec (hblocks t htm)).2.2.1)
  have h2 := labeledChain_none (pySplitextRoot (osBasename docxPath))
    ((paragraphs.map pyStrip).filter (fun t => t ≠ ""))
    (fun t htm => (noSignal_spec (hblocks t htm)).2.2.1)
  have h3 := labeledChain_none (pySplitextRoot (osBasename docxPath))
    (tables.flatMap (fun t => t.rows.flatMap id))
    (fun c hc => by
      obtain ⟨table, htab, hc2⟩ := List.mem_flatMap.mp hc
      obtain ⟨row, hrow, hc3⟩ := List.mem_flatMap.mp hc2
      exact (noSignal_spec (ht table htab row hrow c hc3)).2.2.1)
  have h4 := captureChain_none (pySplitextRoot (osBasename docxPath))
    ((paragraphs.map pyStrip).filter (fun t => t ≠ ""))
    (fun t htm => (noSignal_spec (hblocks t htm)).2.2.1)
  have h5 := tableReportTitleChain_none (pySplitextRoot (osBasename docxPath))
    tables (fun t htab row hrow cell hcell =>
      (noSignal_spec (ht t htab row hrow cell hcell)).2.2.1)
  have h6 := filenameForecastChain_none (pySplitextRoot (osBasename docxPath))
    (pyLower (pySplitextRoot (osBasename docxPath)))
    ((paragraphs.map pyStrip).filter (fun t => t ≠ ""))
    (fun t htm => ⟨(noSignal_spec (hblocks t htm)).2.2.1,
      (noSignal_spec (hblocks t htm)).2.1⟩)
  have h7 := detailedParaScan_none (pySplitextRoot (osBasename docxPath))
    (strReplace (strReplace (pyLower (pySplitextRoot (osBasename docxPath)))
      "-" " ") "_" " ") paragraphs
    (fun p hpm => (noSignal_spec (hp p hpm)).2.2.2)
  have h8 := detailedTableScan_none
    (strReplace (strReplace (pyLower (pySplitextRoot (osBasename docxPath)))
      "-" " ") "_" " ") tables
    (fun t htab row hrow cell hcell =>
      (noSignal_spec (ht t htab row hrow cell hcell)).1)
  have h9 := segScan_inr
    (strReplace (strReplace (strReplace (pyLower (pySplitextRoot
      (osBasename docxPath))) "-" " ") "_" " ") " market" "")
    paragraphs (emptySegs, false)
    (fun p hpm => (noSignal_spec (hp p hpm)).2.2.2)
  have htake : ∀ p ∈ List.take 50 paragraphs,
      lcContains "market".data (baseOf p) = false ∧
      lcContains "forecast".data (baseOf p) = false := by
    intro p hmem
    have hpm : p ∈ paragraphs := (List.take_prefix 50 paragraphs).subset hmem
    exact ⟨(noSignal_spec (hp p hpm)).1, (noSignal_spec (hp p hpm)).2.1⟩
  have hseg : ((List.take 100 paragraphs).any (fun p =>
      rtSearches bySegmentToksWithSegment (pyLower (pyStrip p)).data)) = false := by
    apply List.any_eq_false.mpr
    intro p hmem
    have hpm : p ∈ paragraphs := (List.take_prefix 100 paragraphs).subset hmem
    have hb := (noSignal_spec (hp p hpm)).2.2.2
    have hfx : lcContains "by".data (lcLower ((pyLower (pyStrip p)).data)) = false := by
      show lcContains "by".data (lcLower (lcLower (lcStrip p.data))) = false
      rw [lcLower_idem]
      cases hx : lcContains "by".data (lcLower (lcStrip p.data))
      · rfl
      · exfalso
        have h2 := contains_lower_mono (lcStrip_sub p.data) hx
        have h3 := contains_baseOf_self_of_lower (by decide) h2
        have h4 : lcContains "by".data (baseOf p) = true := h3
        rw [hb] at h4
        exact Bool.noConfusion h4
    have hfin : rtSearches bySegmentToksWithSegment
        (pyLower (pyStrip p)).data = false :=
      rtSearches_false_of_need (by rfl) hfx
    show ¬ rtSearches bySegmentToksWithSegment (pyLower (pyStrip p)).data = true
    intro hcontra
    rw [hfin] at hcontra
    exact Bool.noConfusion hcontra
  simp only [extract_title]
  rw [h1, h2, h3, h4, h5, h6, h7, h8, h9,
    findSome_newLogic_none _ _ _ _ htake, hseg]
  rfl

set_option maxRecDepth 8192 in
/-- Witness: a concrete signal-free two-paragraph document on which the
quantified sentinel theorem applies, all hypotheses discharged by
evaluation. -/
theorem claim_C2_title_not_available_witness :
    extract_title "Cheese.docx"
      ["Introduction",
       "This document describes the methodology of data collection."] [] =
      "Title Not Available" :=
  claim_C2_title_not_available "Cheese.docx"
    ["Introduction",
     "This document describes the methodology of data collection."] []
    (by decide)
    (by intro t htab row hrow cell hcell; exact absurd htab (List.not_mem_nil t))

/-- Every value surviving the final cleanup starts with a non-lowercase
character and contains no sentence verb (case-insensitively). -/
theorem esvFinalClean_mem {sectionType : String} {values : List String}
    {v : String} (h : v ∈ esvFinalClean sectionType values) :
    headIsLower v = false ∧
    ∀ verb ∈ sentenceVerbs, strContains (pyLower v) verb = false := by
  unfold esvFinalClean at h
  obtain ⟨val0, hmem, hval⟩ := List.mem_filterMap.mp h
  dsimp only at hval
  split at hval
  all_goals
    split at hval
    · exact Option.noConfusion hval
    · split at hval
      · exact Option.noConfusion hval
      · split at hval
        · exact Option.noConfusion hval
        · split at hval
          · exact Option.noConfusion hval
          · split at hval
            · exact Option.noConfusion hval
            · split at hval
              · exact Option.noConfusion hval
              · split at hval
                · exact Option.noConfusion hval
                · rename_i hne hreg hverb hinv hlen hhead hdesc
                  injection hval with hval
                  rw [hval] at hhead hverb
                  refine ⟨?_, ?_⟩
                  · cases hx : headIsLower v
                    · rfl
                    · exact absurd hx hhead
                  · intro verb hvb
                    have hany : (sentenceVerbs.any
                        (fun vb => strContains (pyLower v) vb)) = false := by
                      cases hy : sentenceVerbs.any
                          (fun vb => strContains (pyLower v) vb)
                      · rfl
                      · exact absurd hy hverb
                    have hz2 := List.any_eq_false.mp hany verb hvb
                    cases hz : strContains (pyLower v) verb
                    · rfl
                    · exact absurd hz hz2

/-- C6: corrected.  The 8-entry cap holds universally (both return
points truncate with `[:8]`).  Moreover, whenever the section type is
not one of "treatment"/"phase"/"output_power" — so the early header
return cannot fire and the result passes through the final cleanup —
every returned value starts with a non-lowercase character and
contains none of the sentence verbs (case-insensitively).
Case-insensitive deduplication on this path is refuted by the
counterexample. -/
theorem claim_C6_segment_values_capped (paras : List String) (paraIdx : Nat)
    (sectionType : String) :
    (extract_segment_values paras paraIdx sectionType).length ≤ 8 ∧
    (sectionType ∉ (["treatment", "phase", "output_power"] : List String) →
      ∀ v ∈ extract_segment_values paras paraIdx sectionType,
        headIsLower v = false ∧
        ∀ verb ∈ sentenceVerbs, strContains (pyLower v) verb = false) := by
  constructor
  · simp only [extract_segment_values]
    split
    all_goals first
      | exact List.length_take_le 8 _
      | (split <;> exact List.length_take_le 8 _)
  · intro hnot v hv
    simp only [extract_segment_values] at hv
    split at hv
    · split at hv
      · exfalso
        rename_i hcond
        simp only [Bool.and_eq_true, decide_eq_true_eq] at hcond
        exact hnot hcond.1.2
      · exact esvFinalClean_mem (List.mem_of_mem_take hv)
    · split at hv
      · exfalso
        rename_i hcond
        simp only [Bool.and_eq_true, decide_eq_true_eq] at hcond
        exact hnot hcond.1.2
      · exact esvFinalClean_mem (List.mem_of_mem_take hv)

set_option maxRecDepth 4096 in
/-- Witness: the cap and the narrative-filter clause instantiated at a
concrete non-treatment section, the section-type hypothesis discharged
by evaluation. -/
theorem claim_C6_segment_values_capped_witness :
    (extract_segment_values ["By Product Type", "Alpha: first item."] 0
      "diagnostic").length ≤ 8 ∧
    ("diagnostic" : String) ∉ (["treatment", "phase", "output_power"] : List String) ∧
    ∀ v ∈ extract_segment_values ["By Product Type", "Alpha: first item."] 0
      "diagnostic", headIsLower v = false ∧
      ∀ verb ∈ sentenceVerbs, strContains (pyLower v) verb = false :=
  ⟨(claim_C6_segment_values_capped ["By Product Type", "Alpha: first item."] 0
      "diagnostic").1,
   by decide,
   (claim_C6_segment_values_capped ["By Product Type", "Alpha: first item."] 0
      "diagnostic").2 (by decide)⟩
